import Mathlib

/-!
# OckSplitter: the write side of the shuffle block format

A shallow embedding of `ock_splitter.cpp` (class `OckSplitter`).

* The 32-bit byte counters of the source (per-row cost, per-block overhead, row
  length, region length, the last offset entry) are natural numbers reduced
  modulo `2 ^ 32` at every addition the source performs on them; the running
  totals `mTotalWriteBytes` and `mPartitionLengths` are kept unbounded.
* The recursion of `PreoccupiedBufferSpace` has no bound in the source; here it
  takes a fuel argument and yields `none` when the fuel runs out.
* A raw cursor (`uint8_t *`) is a natural number; what is stored through it is
  recorded as a list of typed cells in address order.
* Collaborators that are not part of the repository (the write buffer, the
  allocator, the column vectors) are explicit parameters.
-/

namespace OckShuffle

/-! ## Constants and enumerations of the missing header -/

/-- Modelled from the spec: `uint8Size`, the byte width of a 1-byte value
(constant of the header `ock_splitter.h`, which is not among the sources). -/
def uint8Size : Nat := 1

/-- Modelled from the spec: `uint16Size`, the byte width of a 2-byte value. -/
def uint16Size : Nat := 2

/-- Modelled from the spec: `uint32Size`; the source comments it as
"4 means value cost 4Byte". -/
def uint32Size : Nat := 4

/-- Modelled from the spec: `uint64Size`; the source comments it as
"8 means value cost 8Byte". -/
def uint64Size : Nat := 8

/-- Modelled from the spec: `decimal128Size`; `ock_merge_reader.h` declares the
same constant as 16. -/
def decimal128Size : Nat := 16

/-- Modelled from the spec: `vbHeaderSize`; the source comments it as
"8 means header length so skip" (two 32-bit header fields). -/
def vbHeaderSize : Nat := 8

/-- Modelled from the spec: `vbDataHeadLen`, the header length reserved once per
block: the header is `byteLength:u32` followed by `rowCount:u32`. -/
def vbDataHeadLen : Nat := 8

/-- Range of a `uint32_t`. -/
def u32 : Nat := 2 ^ 32

/-- Logical column type ids (`omniruntime::type::DataTypeId`). The eleven ids
the splitter names are separate constructors; `OTHER raw` stands for every other
value of the `int32_t` type id. -/
inductive DataTypeId
  | OMNI_BOOLEAN
  | OMNI_SHORT
  | OMNI_INT
  | OMNI_DATE32
  | OMNI_LONG
  | OMNI_DOUBLE
  | OMNI_DATE64
  | OMNI_DECIMAL64
  | OMNI_DECIMAL128
  | OMNI_CHAR
  | OMNI_VARCHAR
  | OTHER (raw : Int)
  deriving DecidableEq, Repr

/-- Modelled from the spec: the column type descriptor `ShuffleTypeId` (declared
in a header that is not among the sources). The six descriptors the splitter
emits are separate constructors; `SHUFFLE_NOT_DEFINE` stands for every other
enumerator, which `WriteFixedWidthValue` rejects in its `default` branch. -/
inductive ShuffleTypeId
  | SHUFFLE_1BYTE
  | SHUFFLE_2BYTE
  | SHUFFLE_4BYTE
  | SHUFFLE_8BYTE
  | SHUFFLE_DECIMAL128
  | SHUFFLE_BINARY
  | SHUFFLE_NOT_DEFINE
  deriving DecidableEq, Repr

/-- Modelled from the spec: `OckHashWriteBuffer::ResultFlag`, the answer of the
buffer to a reservation. `UNEXPECTED` stands for every value other than the
three the splitter handles. -/
inductive ResultFlag
  | ENOUGH
  | NEW_REGION
  | LACK
  | UNEXPECTED
  deriving DecidableEq, Repr

/-! ## Data model -/

/-- Modelled from the spec: the per-partition cache region `VBRegion`.
`mRowIndexes` holds the live entries `0 .. mRowNum - 1` of the preallocated
index array of the source, in accumulation order. -/
structure VBRegion where
  mRowIndexes : List Nat
  mLength : Nat
  mRowNum : Nat
  deriving DecidableEq, Repr

/-- The state of one splitter instance (the data members the source reads and
writes). `mCacheRegion` and `mPartitionLengths` are indexed by partition id. -/
structure OckSplitter where
  mColNum : Nat
  mPartitionNum : Nat
  mIsSinglePt : Bool
  mThreadId : Nat
  mVBColShuffleTypes : List ShuffleTypeId
  mColIndexOfVarVec : List Nat
  mMinDataLenInVBByRow : Nat
  mMinDataLenInVB : Nat
  mCacheRegion : Nat → VBRegion
  mPartitionLengths : Nat → Nat
  mTotalWriteBytes : Nat

/-- The constructor `OckSplitter::OckSplitter`: the four arguments are stored,
every other member starts empty or zero. -/
def OckSplitter.new (colNum partitionNum : Nat) (isSinglePt : Bool) (threadId : Nat) :
    OckSplitter :=
  { mColNum := colNum
    mPartitionNum := partitionNum
    mIsSinglePt := isSinglePt
    mThreadId := threadId
    mVBColShuffleTypes := []
    mColIndexOfVarVec := []
    mMinDataLenInVBByRow := 0
    mMinDataLenInVB := 0
    mCacheRegion := fun _ => ⟨[], 0, 0⟩
    mPartitionLengths := fun _ => 0
    mTotalWriteBytes := 0 }

/-! ## Schema derivation -/

open DataTypeId ShuffleTypeId ResultFlag

/-- One iteration of the `switch` in `ToSplitterTypeId` for column `colIndex`
of type `t`: `none` is the `default` branch (`return false`). -/
def ToSplitterTypeIdCase (s : OckSplitter) (colIndex : Nat) (t : DataTypeId) :
    Option OckSplitter :=
  match t with
  | OMNI_BOOLEAN =>
    some { s with
      mVBColShuffleTypes := s.mVBColShuffleTypes ++ [SHUFFLE_1BYTE]
      mMinDataLenInVBByRow := (s.mMinDataLenInVBByRow + uint8Size) % u32 }
  | OMNI_SHORT =>
    some { s with
      mVBColShuffleTypes := s.mVBColShuffleTypes ++ [SHUFFLE_2BYTE]
      mMinDataLenInVBByRow := (s.mMinDataLenInVBByRow + uint16Size) % u32 }
  | OMNI_DATE32 | OMNI_INT =>
    some { s with
      mVBColShuffleTypes := s.mVBColShuffleTypes ++ [SHUFFLE_4BYTE]
      mMinDataLenInVBByRow := (s.mMinDataLenInVBByRow + uint32Size) % u32 }
  | OMNI_DATE64 | OMNI_DOUBLE | OMNI_DECIMAL64 | OMNI_LONG =>
    some { s with
      mVBColShuffleTypes := s.mVBColShuffleTypes ++ [SHUFFLE_8BYTE]
      mMinDataLenInVBByRow := (s.mMinDataLenInVBByRow + uint64Size) % u32 }
  | OMNI_CHAR | OMNI_VARCHAR =>
    some { s with
      mMinDataLenInVBByRow := (s.mMinDataLenInVBByRow + uint32Size) % u32
      mVBColShuffleTypes := s.mVBColShuffleTypes ++ [SHUFFLE_BINARY]
      mColIndexOfVarVec := s.mColIndexOfVarVec ++ [colIndex] }
  | OMNI_DECIMAL128 =>
    some { s with
      mVBColShuffleTypes := s.mVBColShuffleTypes ++ [SHUFFLE_DECIMAL128]
      mMinDataLenInVBByRow := (s.mMinDataLenInVBByRow + decimal128Size) % u32 }
  | OTHER _ => none

/-- The `for` loop of `ToSplitterTypeId` over the column indexes still to visit.
The array `vBColTypes` is read at `colIndex`; the first unrecognized type stops
the loop with `false` and leaves the members as they are at that point. -/
def ToSplitterTypeIdLoop (vBColTypes : Nat → DataTypeId) :
    List Nat → OckSplitter → Bool × OckSplitter
  | [], s => (true, s)
  | colIndex :: rest, s =>
    match ToSplitterTypeIdCase s colIndex (vBColTypes colIndex) with
    | none => (false, s)
    | some s1 => ToSplitterTypeIdLoop vBColTypes rest s1

/-- `OckSplitter::ToSplitterTypeId`. -/
def ToSplitterTypeId (s : OckSplitter) (vBColTypes : Nat → DataTypeId) : Bool × OckSplitter :=
  let s0 := { s with mMinDataLenInVBByRow := s.mColNum % u32 }
  match ToSplitterTypeIdLoop vBColTypes (List.range s0.mColNum) s0 with
  | (false, s1) => (false, s1)
  | (true, s1) =>
    (true, { s1 with
      mMinDataLenInVB := (vbDataHeadLen + uint32Size * s1.mColIndexOfVarVec.length) % u32 })

/-- `OckSplitter::Initialize`. -/
def Initialize (s : OckSplitter) (colTypeIds : Nat → DataTypeId) : Bool × OckSplitter :=
  match ToSplitterTypeId s colTypeIds with
  | (false, s1) => (false, s1)
  | (true, s1) => (true, { s1 with mPartitionLengths := fun _ => 0 })

/-- `OckSplitter::Create`: `none` is the null instance. -/
def Create (colTypeIds : Nat → DataTypeId) (colNum partitionNum : Nat) (isSinglePt : Bool)
    (threadId : Nat) : Option OckSplitter :=
  let instance0 := OckSplitter.new colNum partitionNum isSinglePt threadId
  match Initialize instance0 colTypeIds with
  | (false, _) => none
  | (true, s1) => some s1

/-- `OckSplitter::Make`. -/
def Make (partitionMethod : String) (partitionNum : Nat) (colTypeIds : Nat → DataTypeId)
    (colNum : Nat) (threadId : Nat) : Option OckSplitter :=
  if partitionMethod = "hash" ∨ partitionMethod = "rr" ∨ partitionMethod = "range" then
    Create colTypeIds colNum partitionNum false threadId
  else if partitionMethod = "single" then
    Create colTypeIds colNum partitionNum true threadId
  else
    none

/-- The array of type ids held in a list; reads beyond the list give an id
outside the recognized set. -/
def typesOf (l : List DataTypeId) : Nat → DataTypeId :=
  fun i => l.getD i (OTHER 0)

/-! ## Source batch and written memory -/

/-- One store through a typed pointer: `width` bytes holding `value`. -/
structure Cell where
  width : Nat
  value : Nat
  deriving DecidableEq, Repr

/-- Number of bytes a list of cells occupies. -/
def cellBytes (cs : List Cell) : Nat :=
  (cs.map Cell.width).sum

/-- Vector encoding kinds of the vector library; the source only tests for
`OMNI_VEC_ENCODING_DICTIONARY`. -/
inductive Encoding
  | OMNI_VEC_ENCODING_FLAT
  | OMNI_VEC_ENCODING_DICTIONARY
  deriving DecidableEq, Repr

/-- A column vector as the splitter sees it through the vector library.
* `nulls`: the bytes at `VectorHelper::GetNullsAddr(vector)`, one per row;
* `values`: the array at `VectorHelper::GetValuesAddr(vector)`, one entry per
  element of the column type (64-bit words for a decimal128 column);
* `varchars`: what `VarcharVector::GetValue(row)` yields;
* `ids`: the per-row indexes `ExtractDictionaryAndIds` stores in its buffer;
* `dictionary`: the value array of the vector `ExtractDictionaryAndIds`
  returns, `none` when it returns a null pointer;
* `dictVarchars`: the dictionary entries `DictionaryVector::GetVarchar` reads.
Reads beyond an array are undefined in the source and give `0` (or the empty
value) here. -/
structure Vector where
  encoding : Encoding
  nulls : List Nat
  values : List Nat
  varchars : List (List Nat)
  ids : List Nat
  dictionary : Option (List Nat)
  dictVarchars : List (List Nat)
  deriving DecidableEq, Repr

/-- `VarcharVector::GetValue(rowIndex, &address)`: the bytes of the value. -/
def Vector.GetValue (v : Vector) (rowIndex : Nat) : List Nat :=
  v.varchars.getD rowIndex []

/-- `DictionaryVector::GetVarchar(rowIndex, &address)`: the dictionary entry
of the row. -/
def Vector.GetVarchar (v : Vector) (rowIndex : Nat) : List Nat :=
  v.dictVarchars.getD (v.ids.getD rowIndex 0) []

/-- A vector batch: `GetRowCount()` and the vectors `GetVector(i)`. -/
structure VectorBatch where
  rowCount : Nat
  vectors : List Vector
  deriving DecidableEq, Repr

/-- `vb.GetVectorCount()`. -/
def VectorBatch.GetVectorCount (vb : VectorBatch) : Nat :=
  vb.vectors.length

/-- `vb.GetVector(colIndex)`; `none` is the null pointer. -/
def VectorBatch.GetVector (vb : VectorBatch) (colIndex : Nat) : Option Vector :=
  vb.vectors[colIndex]?

/-- Outcome of a write-and-advance operation: the boolean it returns, the
cursor it leaves in its reference parameter, and the cells it stored from the
old cursor on, in address order. -/
structure WriteResult where
  ok : Bool
  address : Nat
  cells : List Cell
  deriving DecidableEq, Repr

/-- The rows `rowIndexes[0] .. rowIndexes[rowNum - 1]` in loop order. -/
def rowsOf (rowIndexes : List Nat) (rowNum : Nat) : List Nat :=
  (List.range rowNum).map (fun index => rowIndexes.getD index 0)

/-- Securec `memcpy_s(dest, destMax, src, count)` on valid, disjoint buffers:
`true` is `EOK`. It rejects `destMax = 0`, `destMax > SECUREC_MEM_MAX_LEN`
(`0x7fffffff`) and `count > destMax`. -/
def memcpy_s (destMax count : Nat) : Bool :=
  decide (0 < destMax ∧ destMax ≤ 0x7fffffff ∧ count ≤ destMax)

/-! ## Column writers -/

/-- `OckSplitter::WriteNullValues`. -/
def WriteNullValues (vector : Vector) (rowIndexes : List Nat) (rowNum : Nat) (address : Nat) :
    WriteResult :=
  { ok := true
    address := address + rowNum
    cells := (rowsOf rowIndexes rowNum).map (fun r => ⟨1, vector.nulls.getD r 0⟩) }

/-- `OckSplitter::WriteFixedWidthValueTemple<T>` with `w = sizeof(T)`.
`mAllocator n` tells whether `mAllocator->alloc(n)` returns a buffer and
`rowCount` is `mCurrentVB->GetRowCount()`. -/
def WriteFixedWidthValueTemple (mAllocator : Nat → Bool) (rowCount : Nat) (w : Nat)
    (vector : Vector) (isDict : Bool) (rowIndexes : List Nat) (rowNum : Nat) (address : Nat) :
    WriteResult :=
  if isDict then
    if mAllocator (rowCount * 4) = false then
      { ok := false, address := address, cells := [] }
    else
      match vector.dictionary with
      | none => { ok := false, address := address, cells := [] }
      | some srcValues =>
        { ok := true
          address := address + w * rowNum
          cells := (rowsOf rowIndexes rowNum).map
            (fun r => ⟨w, srcValues.getD (vector.ids.getD r 0) 0⟩) }
  else
    { ok := true
      address := address + w * rowNum
      cells := (rowsOf rowIndexes rowNum).map (fun r => ⟨w, vector.values.getD r 0⟩) }

/-- The 32-bit shift `x << 1`. -/
def shl1 (x : Nat) : Nat :=
  (x <<< 1) % u32

/-- `OckSplitter::WriteDecimal128`: two 64-bit words per row. -/
def WriteDecimal128 (mAllocator : Nat → Bool) (rowCount : Nat)
    (vector : Vector) (isDict : Bool) (rowIndexes : List Nat) (rowNum : Nat) (address : Nat) :
    WriteResult :=
  if isDict then
    if mAllocator (rowCount * 4) = false then
      { ok := false, address := address, cells := [] }
    else
      match vector.dictionary with
      | none => { ok := false, address := address, cells := [] }
      | some srcValues =>
        { ok := true
          address := address + 8 * (2 * rowNum)
          cells := (rowsOf rowIndexes rowNum).flatMap
            (fun r => [⟨8, srcValues.getD (shl1 (vector.ids.getD r 0)) 0⟩,
                       ⟨8, srcValues.getD (shl1 (vector.ids.getD r 0) ||| 1) 0⟩]) }
  else
    { ok := true
      address := address + 8 * (2 * rowNum)
      cells := (rowsOf rowIndexes rowNum).flatMap
        (fun r => [⟨8, vector.values.getD (shl1 r) 0⟩,
                   ⟨8, vector.values.getD (shl1 r ||| 1) 0⟩]) }

/-- `OckSplitter::WriteFixedWidthValue`. The boolean of the typed writer is
dropped by the source: after each `case` the function breaks and returns
`true`, with the cursor the typed writer left. -/
def WriteFixedWidthValue (mAllocator : Nat → Bool) (rowCount : Nat)
    (vector : Vector) (typeId : ShuffleTypeId) (rowIndexes : List Nat) (rowNum : Nat)
    (address : Nat) : WriteResult :=
  let isDict := decide (vector.encoding = Encoding.OMNI_VEC_ENCODING_DICTIONARY)
  match typeId with
  | SHUFFLE_1BYTE =>
    let r := WriteFixedWidthValueTemple mAllocator rowCount 1 vector isDict rowIndexes rowNum address
    { ok := true, address := r.address, cells := r.cells }
  | SHUFFLE_2BYTE =>
    let r := WriteFixedWidthValueTemple mAllocator rowCount 2 vector isDict rowIndexes rowNum address
    { ok := true, address := r.address, cells := r.cells }
  | SHUFFLE_4BYTE =>
    let r := WriteFixedWidthValueTemple mAllocator rowCount 4 vector isDict rowIndexes rowNum address
    { ok := true, address := r.address, cells := r.cells }
  | SHUFFLE_8BYTE =>
    let r := WriteFixedWidthValueTemple mAllocator rowCount 8 vector isDict rowIndexes rowNum address
    { ok := true, address := r.address, cells := r.cells }
  | SHUFFLE_DECIMAL128 =>
    let r := WriteDecimal128 mAllocator rowCount vector isDict rowIndexes rowNum address
    { ok := true, address := r.address, cells := r.cells }
  | _ => { ok := false, address := address, cells := [] }

/-- The row loop of `WriteVariableWidthValue` over the rows still to copy.
`offsets` are the entries `offsetAddress[rowCnt]` stored so far, `bytes` the
value bytes copied so far and `valueAddress` the value cursor. `none` is the
`return false` after a failed `memcpy_s`. The length of a value is its number
of bytes, as for every value below `2 ^ 31` bytes; a longer value, which the
`int32_t length` of the source cannot hold, is outside the model and is
reported as a failed copy. -/
def WriteVariableWidthValueLoop (vector : Vector) (isDict : Bool) :
    List Nat → List Cell → List Cell → Nat → Option (List Cell × List Cell × Nat)
  | [], offsets, bytes, valueAddress => some (offsets, bytes, valueAddress)
  | r :: rest, offsets, bytes, valueAddress =>
    let srcValues := if isDict then vector.GetVarchar r else vector.GetValue r
    let length := srcValues.length
    if 0 < length ∧ memcpy_s length length = false then
      none
    else
      WriteVariableWidthValueLoop vector isDict rest
        (offsets ++ [⟨4, length⟩])
        (bytes ++ srcValues.map (fun b => ⟨1, b⟩))
        (valueAddress + length)

/-- `OckSplitter::WriteVariableWidthValue`: `rowNum` entries
`offsetAddress[rowCnt] = length`, the entry `offsetAddress[rowNum]` holding the
distance the value cursor moved, then the copied bytes. After a failed copy the
cursor is left alone; the stores made before the failure are not recorded. -/
def WriteVariableWidthValue (vector : Vector) (rowIndexes : List Nat) (rowNum : Nat)
    (address : Nat) : WriteResult :=
  let isDict := decide (vector.encoding = Encoding.OMNI_VEC_ENCODING_DICTIONARY)
  let valueStartAddress := address + (rowNum + 1) * 4
  match WriteVariableWidthValueLoop vector isDict (rowsOf rowIndexes rowNum) [] []
      valueStartAddress with
  | none => { ok := false, address := address, cells := [] }
  | some (offsets, bytes, valueAddress) =>
    { ok := true
      address := valueAddress
      cells := offsets ++ [⟨4, (valueAddress - valueStartAddress) % u32⟩] ++ bytes }

/-- The descriptor `WriteOneVector` reads for batch column `colIndex`:
`mIsSinglePt ? mVBColShuffleTypes[colIndex] : mVBColShuffleTypes[colIndex - 1]`.
An index beyond the descriptor list (undefined in the source) reads
`SHUFFLE_NOT_DEFINE`. -/
def typeIdOf (s : OckSplitter) (colIndex : Nat) : ShuffleTypeId :=
  if s.mIsSinglePt then s.mVBColShuffleTypes.getD colIndex SHUFFLE_NOT_DEFINE
  else s.mVBColShuffleTypes.getD (colIndex - 1) SHUFFLE_NOT_DEFINE

/-- `OckSplitter::WriteOneVector`. -/
def WriteOneVector (mAllocator : Nat → Bool) (s : OckSplitter) (vb : VectorBatch)
    (colIndex : Nat) (rowIndexes : List Nat) (rowNum : Nat) (address : Nat) : WriteResult :=
  match vb.GetVector colIndex with
  | none => { ok := false, address := address, cells := [] }
  | some vector =>
    let n := WriteNullValues vector rowIndexes rowNum address
    if n.ok = false then
      { ok := false, address := n.address, cells := n.cells }
    else
      let typeId := typeIdOf s colIndex
      let v :=
        if typeId = SHUFFLE_BINARY then
          WriteVariableWidthValue vector rowIndexes rowNum n.address
        else
          WriteFixedWidthValue mAllocator vb.rowCount vector typeId rowIndexes rowNum n.address
      { ok := v.ok, address := v.address, cells := n.cells ++ v.cells }

/-! ## The buffer collaborator and the running splitter -/

/-- The write buffer `OckHashWriteBuffer` (not part of the repository) as a
state machine over its own state `σ`: every method takes the state and gives
its answer with the next state. `GetEndAddressOfRegion` yields the write
address; `Flush` yields its success and the reported `dataSize`. -/
structure OckHashWriteBuffer (σ : Type) where
  PreoccupiedDataSpace : σ → Nat → Nat → Bool → ResultFlag × σ
  GetEndAddressOfRegion : σ → Nat → Nat → Nat × σ
  Flush : σ → Bool → Bool × Nat × σ
  GetNewBuffer : σ → Bool × σ
  IsCompress : σ → Bool
  GetRegionSize : σ → Nat

/-- What one call of `WritePartVectorBatch` stored in the buffer: the partition,
the address obtained from the buffer, the row indexes it serialized, the two
header fields, every cell from the header on in address order, the cursor after
the last column, and whether the call returned `true`. -/
structure Block where
  partitionId : Nat
  address : Nat
  rowIndexes : List Nat
  length : Nat
  rowNum : Nat
  cells : List Cell
  endAddress : Nat
  ok : Bool
  deriving DecidableEq, Repr

/-- A splitter attached to its buffer: the members of the instance, the state
of `*mOckBuffer`, and the blocks stored so far (oldest first). -/
structure Machine (σ : Type) where
  self : OckSplitter
  mOckBuffer : σ
  blob : List Block

/-- The empty region. -/
def VBRegion.empty : VBRegion :=
  ⟨[], 0, 0⟩

/-- Modelled from the spec: `GetCacheRegion(partitionId)` of the missing
header, the region of the partition. -/
def GetCacheRegion (s : OckSplitter) (partitionId : Nat) : VBRegion :=
  s.mCacheRegion partitionId

/-- Modelled from the spec: `ResetCacheRegion()` of the missing header,
"reset all per-partition regions". -/
def ResetCacheRegionAll (s : OckSplitter) : OckSplitter :=
  { s with mCacheRegion := fun _ => VBRegion.empty }

/-- Modelled from the spec: `ResetCacheRegion(partitionId)` of the missing
header, the region is "drained (serialized) and reset". -/
def ResetCacheRegion (s : OckSplitter) (partitionId : Nat) : OckSplitter :=
  { s with mCacheRegion := Function.update s.mCacheRegion partitionId VBRegion.empty }

/-- Modelled from the spec: `UpdateCacheRegion(partitionId, rowIndex, length)`
of the missing header, "append the row index to that
partition region and add the row length to the running total of the region". -/
def UpdateCacheRegion (s : OckSplitter) (partitionId rowIndex length : Nat) : OckSplitter :=
  let r := s.mCacheRegion partitionId
  let r1 : VBRegion :=
    { mRowIndexes := r.mRowIndexes ++ [rowIndex]
      mLength := (r.mLength + length) % u32
      mRowNum := r.mRowNum + 1 }
  { s with mCacheRegion := Function.update s.mCacheRegion partitionId r1 }

/-- Modelled from the spec: `GetPartitionIdOfRow(rowIndex)` of the missing
header, "0 when single-partition mode; otherwise read the reserved partition-id
column at that row" (`mPtViewInCurVB` is vector 0 of the batch). -/
def GetPartitionIdOfRow (s : OckSplitter) (vb : VectorBatch) (rowIndex : Nat) : Nat :=
  if s.mIsSinglePt then 0
  else
    match vb.GetVector 0 with
    | none => 0
    | some v => v.values.getD rowIndex 0

/-- `OckSplitter::GetVarVecValue`: the byte length of the value. -/
def GetVarVecValue (s : OckSplitter) (vb : VectorBatch) (rowIndex colIndex : Nat) : Nat :=
  match (if s.mIsSinglePt then vb.GetVector colIndex else vb.GetVector (colIndex + 1)) with
  | none => 0
  | some vector =>
    if vector.encoding = Encoding.OMNI_VEC_ENCODING_DICTIONARY then
      (vector.GetVarchar rowIndex).length % u32
    else
      (vector.GetValue rowIndex).length % u32

/-- `OckSplitter::GetRowLengthInBytes`. -/
def GetRowLengthInBytes (s : OckSplitter) (vb : VectorBatch) (rowIndex : Nat) : Nat :=
  s.mColIndexOfVarVec.foldl
    (fun length colIndex => (length + GetVarVecValue s vb rowIndex colIndex) % u32)
    s.mMinDataLenInVBByRow

/-- The column loop of `WritePartVectorBatch` over the column indexes still to
write, from cursor `address`; `cells` are the cells stored so far. -/
def WriteColumns (mAllocator : Nat → Bool) (s : OckSplitter) (vb : VectorBatch)
    (rowIndexes : List Nat) (rowNum : Nat) : List Nat → Nat → List Cell → WriteResult
  | [], address, cells => { ok := true, address := address, cells := cells }
  | colIndex :: rest, address, cells =>
    let r := WriteOneVector mAllocator s vb colIndex rowIndexes rowNum address
    if r.ok = false then
      { ok := false, address := r.address, cells := cells ++ r.cells }
    else
      WriteColumns mAllocator s vb rowIndexes rowNum rest r.address (cells ++ r.cells)

/-- The column indexes `WritePartVectorBatch` visits: from 0 in single-partition
mode and from 1 otherwise, up to `vb.GetVectorCount()`. -/
def columnsToWrite (s : OckSplitter) (vb : VectorBatch) : List Nat :=
  (List.range vb.GetVectorCount).drop (if s.mIsSinglePt then 0 else 1)

/-- The accounting lines of `WritePartVectorBatch`: `mTotalWriteBytes +=
header->length` when the buffer does not compress, and
`mPartitionLengths[partitionId] += header->length` always. -/
def RecordWriteBytes (isCompress : Bool) (s : OckSplitter) (partitionId headerLength : Nat) :
    OckSplitter :=
  { s with
    mTotalWriteBytes :=
      if isCompress = false then s.mTotalWriteBytes + headerLength
      else s.mTotalWriteBytes
    mPartitionLengths := Function.update s.mPartitionLengths partitionId
      (s.mPartitionLengths partitionId + headerLength) }

/-- `OckSplitter::WritePartVectorBatch`. -/
def WritePartVectorBatch {σ : Type} (B : OckHashWriteBuffer σ) (mAllocator : Nat → Bool)
    (vb : VectorBatch) (m : Machine σ) (partitionId : Nat) : Bool × Machine σ :=
  let vbRegion := GetCacheRegion m.self partitionId
  if vbRegion.mRowNum = 0 then
    (true, m)
  else
    let (address, buf1) := B.GetEndAddressOfRegion m.mOckBuffer partitionId vbRegion.mLength
    let headerLength := vbRegion.mLength
    let headerRowNum := vbRegion.mRowNum
    let s1 := RecordWriteBytes (B.IsCompress buf1) m.self partitionId headerLength
    let w := WriteColumns mAllocator s1 vb vbRegion.mRowIndexes vbRegion.mRowNum
      (columnsToWrite s1 vb) (address + vbHeaderSize) [⟨4, headerLength⟩, ⟨4, headerRowNum⟩]
    let block : Block :=
      { partitionId := partitionId
        address := address
        rowIndexes := rowsOf vbRegion.mRowIndexes vbRegion.mRowNum
        length := headerLength
        rowNum := headerRowNum
        cells := w.cells
        endAddress := w.address
        ok := w.ok }
    if w.ok = false then
      (false, { self := s1, mOckBuffer := buf1, blob := m.blob ++ [block] })
    else
      (true, { self := ResetCacheRegion s1 partitionId, mOckBuffer := buf1,
               blob := m.blob ++ [block] })

/-- The partition loop shared by `FlushAllRegionAndGetNewBlob` and the tail of
`Split`: every partition still to visit that holds rows is drained; the first
failing drain stops the loop with `false`. -/
def DrainPartitions {σ : Type} (B : OckHashWriteBuffer σ) (mAllocator : Nat → Bool)
    (vb : VectorBatch) : List Nat → Machine σ → Bool × Machine σ
  | [], m => (true, m)
  | partitionId :: rest, m =>
    if (m.self.mCacheRegion partitionId).mRowNum = 0 then
      DrainPartitions B mAllocator vb rest m
    else
      match WritePartVectorBatch B mAllocator vb m partitionId with
      | (false, m1) => (false, m1)
      | (true, m1) => DrainPartitions B mAllocator vb rest m1

/-- `OckSplitter::FlushAllRegionAndGetNewBlob`. -/
def FlushAllRegionAndGetNewBlob {σ : Type} (B : OckHashWriteBuffer σ)
    (mAllocator : Nat → Bool) (vb : VectorBatch) (m : Machine σ) : Bool × Machine σ :=
  match DrainPartitions B mAllocator vb (List.range m.self.mPartitionNum) m with
  | (false, m1) => (false, m1)
  | (true, m1) =>
    let s2 := ResetCacheRegionAll m1.self
    let (flushed, dataSize, buf2) := B.Flush m1.mOckBuffer false
    if flushed = false then
      (false, { m1 with self := s2, mOckBuffer := buf2 })
    else
      let s3 :=
        if B.IsCompress buf2 then { s2 with mTotalWriteBytes := s2.mTotalWriteBytes + dataSize }
        else s2
      let (fresh, buf3) := B.GetNewBuffer buf2
      if fresh = false then
        (false, { m1 with self := s3, mOckBuffer := buf3 })
      else
        (true, { m1 with self := s3, mOckBuffer := buf3 })

/-- `OckSplitter::PreoccupiedBufferSpace`. The source recurses without a bound;
`fuel` bounds the depth of the recursion and `none` means the bound was
reached before the call returned. -/
def PreoccupiedBufferSpace {σ : Type} (B : OckHashWriteBuffer σ) (mAllocator : Nat → Bool)
    (vb : VectorBatch) : Nat → Machine σ → Nat → Nat → Nat → Bool → Option (Bool × Machine σ)
  | 0, _, _, _, _, _ => none
  | fuel + 1, m, partitionId, rowIndex, rowLength, newRegion =>
    let preoccupiedSize :=
      if (m.self.mCacheRegion partitionId).mRowNum = 0 then
        (rowLength + m.self.mMinDataLenInVB) % u32
      else rowLength
    match B.PreoccupiedDataSpace m.mOckBuffer partitionId preoccupiedSize newRegion with
    | (ENOUGH, buf1) =>
      some (true, { m with
        self := UpdateCacheRegion m.self partitionId rowIndex preoccupiedSize
        mOckBuffer := buf1 })
    | (NEW_REGION, buf1) =>
      match WritePartVectorBatch B mAllocator vb { m with mOckBuffer := buf1 } partitionId with
      | (false, m1) => some (false, m1)
      | (true, m1) =>
        PreoccupiedBufferSpace B mAllocator vb fuel m1 partitionId rowIndex rowLength true
    | (LACK, buf1) =>
      match FlushAllRegionAndGetNewBlob B mAllocator vb { m with mOckBuffer := buf1 } with
      | (false, m1) => some (false, m1)
      | (true, m1) =>
        PreoccupiedBufferSpace B mAllocator vb fuel m1 partitionId rowIndex rowLength false
    | (UNEXPECTED, buf1) => some (false, { m with mOckBuffer := buf1 })

/-- The row loop of `Split` over the row indexes still to place; every row gets
`fuel` levels of reservation recursion. -/
def SplitRows {σ : Type} (B : OckHashWriteBuffer σ) (mAllocator : Nat → Bool)
    (vb : VectorBatch) (fuel : Nat) : List Nat → Machine σ → Option (Bool × Machine σ)
  | [], m => some (true, m)
  | rowIndex :: rest, m =>
    let partitionId := GetPartitionIdOfRow m.self vb rowIndex
    let oneRowLength := GetRowLengthInBytes m.self vb rowIndex
    match PreoccupiedBufferSpace B mAllocator vb fuel m partitionId rowIndex oneRowLength
        false with
    | none => none
    | some (false, m1) => some (false, m1)
    | some (true, m1) => SplitRows B mAllocator vb fuel rest m1

/-- `OckSplitter::Split`; `none` means a reservation did not return within
`fuel` levels of recursion. -/
def Split {σ : Type} (B : OckHashWriteBuffer σ) (mAllocator : Nat → Bool)
    (vb : VectorBatch) (fuel : Nat) (m : Machine σ) : Option (Bool × Machine σ) :=
  let m0 := { m with self := ResetCacheRegionAll m.self }
  match SplitRows B mAllocator vb fuel (List.range vb.rowCount) m0 with
  | none => none
  | some (false, m1) => some (false, m1)
  | some (true, m1) =>
    some (DrainPartitions B mAllocator vb (List.range m1.self.mPartitionNum) m1)

/-- `OckSplitter::InitCacheRegion` for a buffer whose `GetRegionSize()` is
`regionSize`: the first component is `rowNum`, the number of row indexes the
index array of every region is sized for, computed in 32-bit unsigned
arithmetic (a zero divisor, undefined in the source, gives 0); the second is
the splitter with every region reset. -/
def InitCacheRegion (regionSize : Nat) (s : OckSplitter) : Nat × OckSplitter :=
  let rowNum :=
    ((regionSize * 2) % u32 + u32 - s.mMinDataLenInVB % u32) % u32 / s.mMinDataLenInVBByRow
  (rowNum, ResetCacheRegionAll s)

/-- `OckSplitter::Stop`. -/
def Stop {σ : Type} (B : OckHashWriteBuffer σ) (m : Machine σ) : Machine σ :=
  let (flushed, dataSize, buf1) := B.Flush m.mOckBuffer true
  if flushed = false then
    { m with mOckBuffer := buf1 }
  else if B.IsCompress buf1 then
    { m with
      self := { m.self with mTotalWriteBytes := m.self.mTotalWriteBytes + dataSize }
      mOckBuffer := buf1 }
  else
    { m with mOckBuffer := buf1 }

/-! ## Vocabulary of the specification -/

/-- The descriptor the specification assigns to a logical column type:
boolean to 1-byte, short to 2-byte, int and date32 to 4-byte, long, double,
date64 and decimal64 to 8-byte, decimal128 to 128-bit, char and varchar to
variable; no descriptor for any other type. -/
def shuffleTypeOf : DataTypeId → Option ShuffleTypeId
  | OMNI_BOOLEAN => some SHUFFLE_1BYTE
  | OMNI_SHORT => some SHUFFLE_2BYTE
  | OMNI_INT => some SHUFFLE_4BYTE
  | OMNI_DATE32 => some SHUFFLE_4BYTE
  | OMNI_LONG => some SHUFFLE_8BYTE
  | OMNI_DOUBLE => some SHUFFLE_8BYTE
  | OMNI_DATE64 => some SHUFFLE_8BYTE
  | OMNI_DECIMAL64 => some SHUFFLE_8BYTE
  | OMNI_DECIMAL128 => some SHUFFLE_DECIMAL128
  | OMNI_CHAR => some SHUFFLE_BINARY
  | OMNI_VARCHAR => some SHUFFLE_BINARY
  | OTHER _ => none

/-- The recognized set of the specification. -/
def isRecognized (t : DataTypeId) : Bool :=
  (shuffleTypeOf t).isSome

/-- Char and varchar columns, the variable-width ones. -/
def isVariable : DataTypeId → Bool
  | OMNI_CHAR => true
  | OMNI_VARCHAR => true
  | _ => false

/-- The per-row value cost the specification assigns to a column type: the
fixed width (1, 2, 4 or 8), 16 for decimal128, the 4-byte offset placeholder for
a variable column (and nothing for an unrecognized type). -/
def valueCost : DataTypeId → Nat
  | OMNI_BOOLEAN => 1
  | OMNI_SHORT => 2
  | OMNI_INT => 4
  | OMNI_DATE32 => 4
  | OMNI_LONG => 8
  | OMNI_DOUBLE => 8
  | OMNI_DATE64 => 8
  | OMNI_DECIMAL64 => 8
  | OMNI_DECIMAL128 => 16
  | OMNI_CHAR => 4
  | OMNI_VARCHAR => 4
  | OTHER _ => 0

/-- The members after the columns `idxs` have been derived, as the
specification describes them. -/
def withColumns (s : OckSplitter) (vBColTypes : Nat → DataTypeId) (idxs : List Nat) :
    OckSplitter :=
  { s with
    mVBColShuffleTypes :=
      s.mVBColShuffleTypes ++ idxs.filterMap (fun i => shuffleTypeOf (vBColTypes i))
    mColIndexOfVarVec :=
      s.mColIndexOfVarVec ++ idxs.filter (fun i => isVariable (vBColTypes i))
    mMinDataLenInVBByRow :=
      (s.mMinDataLenInVBByRow + (idxs.map (fun i => valueCost (vBColTypes i))).sum) % u32 }

/-- The recognized set of the specification, as a list. -/
def recognizedTypes : List DataTypeId :=
  [OMNI_BOOLEAN, OMNI_SHORT, OMNI_INT, OMNI_DATE32, OMNI_LONG, OMNI_DOUBLE, OMNI_DATE64,
   OMNI_DECIMAL64, OMNI_DECIMAL128, OMNI_CHAR, OMNI_VARCHAR]

/-- The bytes of the value of row `r` in a variable-width column, through the
dictionary when the vector is dictionary-encoded. -/
def varValue (vector : Vector) (r : Nat) : List Nat :=
  if vector.encoding = Encoding.OMNI_VEC_ENCODING_DICTIONARY then vector.GetVarchar r
  else vector.GetValue r

/-- The offsets array a variable-width write stored: the values of its first
`rowNum + 1` cells. -/
def offsetEntries (w : WriteResult) (rowNum : Nat) : List Nat :=
  (w.cells.take (rowNum + 1)).map Cell.value

/-- A plain variable-width column with the given per-row values. -/
def plainVarchar (nulls : List Nat) (values : List (List Nat)) : Vector :=
  { encoding := Encoding.OMNI_VEC_ENCODING_FLAT, nulls := nulls, values := [],
    varchars := values, ids := [], dictionary := none, dictVarchars := [] }

/-- A dictionary-encoded variable-width column with the given per-row ids and
dictionary entries. -/
def dictVarchar (nulls ids : List Nat) (entries : List (List Nat)) : Vector :=
  { encoding := Encoding.OMNI_VEC_ENCODING_DICTIONARY, nulls := nulls, values := [],
    varchars := [], ids := ids, dictionary := some [], dictVarchars := entries }

/-- The byte width of a plain fixed-width descriptor (1, 2, 4 or 8). -/
def fixedWidthOf : ShuffleTypeId → Option Nat
  | SHUFFLE_1BYTE => some 1
  | SHUFFLE_2BYTE => some 2
  | SHUFFLE_4BYTE => some 4
  | SHUFFLE_8BYTE => some 8
  | _ => none

/-- The null-flag bytes of a column for the rows `rows`, in that order. -/
def nullCells (vector : Vector) (rows : List Nat) : List Cell :=
  rows.map (fun r => ⟨1, vector.nulls.getD r 0⟩)

/-- The image of batch column `colIndex` in a block: the cells `WriteOneVector`
stores for it (they do not depend on the cursor). -/
def columnImage (mAllocator : Nat → Bool) (s : OckSplitter) (vb : VectorBatch)
    (rowIndexes : List Nat) (rowNum : Nat) (colIndex : Nat) : List Cell :=
  (WriteOneVector mAllocator s vb colIndex rowIndexes rowNum 0).cells

/-- A buffer that grants every reservation, hands out address 0, flushes and
renews itself successfully and reports `dataSize = 0`; it does not compress. -/
def alwaysEnough : OckHashWriteBuffer Unit :=
  { PreoccupiedDataSpace := fun st _ _ _ => (ENOUGH, st)
    GetEndAddressOfRegion := fun st _ _ => (0, st)
    Flush := fun st _ => (true, 0, st)
    GetNewBuffer := fun st => (true, st)
    IsCompress := fun _ => false
    GetRegionSize := fun _ => 1024 }

/-- A buffer that answers reservations from a script (then `ENOUGH`), hands out
address 0, flushes and renews itself successfully reporting `dataSize = 0`. -/
def scripted (compress : Bool) : OckHashWriteBuffer (List ResultFlag) :=
  { PreoccupiedDataSpace := fun st _ _ _ => (st.headD ENOUGH, st.tail)
    GetEndAddressOfRegion := fun st _ _ => (0, st)
    Flush := fun st _ => (true, 0, st)
    GetNewBuffer := fun st => (true, st)
    IsCompress := fun _ => compress
    GetRegionSize := fun _ => 1024 }

/-- A plain fixed-width column. -/
def plainColumn (nulls values : List Nat) : Vector :=
  { encoding := Encoding.OMNI_VEC_ENCODING_FLAT, nulls := nulls, values := values,
    varchars := [], ids := [], dictionary := none, dictVarchars := [] }

/-- A dictionary-encoded fixed-width column: per-row ids into `dictionary`. -/
def dictColumn (nulls ids dictionary : List Nat) : Vector :=
  { encoding := Encoding.OMNI_VEC_ENCODING_DICTIONARY, nulls := nulls, values := [],
    varchars := [], ids := ids, dictionary := some dictionary, dictVarchars := [] }

/-- A machine around a splitter, with nothing stored yet. -/
def Machine.start {σ : Type} (s : OckSplitter) (buffer : σ) : Machine σ :=
  { self := s, mOckBuffer := buffer, blob := [] }

/-- A multi-partition splitter on the schema int, long whose region 0 has
accumulated rows 0 and 2 (lengths 22 and 14). -/
def sampleSplitter : OckSplitter :=
  UpdateCacheRegion
    (UpdateCacheRegion
      (Initialize (OckSplitter.new 2 2 false 0) (typesOf [OMNI_INT, OMNI_LONG])).2 0 0 22)
    0 2 14

/-- A batch for `sampleSplitter`: the partition-id view, an int column and a
long column, three rows. -/
def sampleBatch : VectorBatch :=
  { rowCount := 3
    vectors := [plainColumn [0, 0, 0] [0, 1, 0], plainColumn [0, 1, 0] [10, 11, 12],
                plainColumn [0, 0, 1] [100, 101, 102]] }

/-- A single-partition splitter on the schema int. -/
def intSplitter : OckSplitter :=
  (Initialize (OckSplitter.new 1 1 true 0) (typesOf [OMNI_INT])).2

/-- A single-partition splitter on the schema decimal128. -/
def decimalSplitter : OckSplitter :=
  (Initialize (OckSplitter.new 1 1 true 0) (typesOf [OMNI_DECIMAL128])).2

/-- A two-row batch with one dictionary-encoded column: row 0 has id 1 and
row 1 has id 0 in `dictionary`. -/
def dictBatch (dictionary : List Nat) : VectorBatch :=
  { rowCount := 2, vectors := [dictColumn [0, 0] [1, 0] dictionary] }

/-- The logical values of the rows of a dictionary-encoded column. -/
def dictRowValues (v : Vector) (rowCount : Nat) : List Nat :=
  (List.range rowCount).map (fun r => (v.dictionary.getD []).getD (v.ids.getD r 0) 0)

/-- The row indexes pending in the region of partition `q`. -/
def pending {σ : Type} (m : Machine σ) (q : Nat) : List Nat :=
  (m.self.mCacheRegion q).mRowIndexes

/-- The row indexes the blocks `bs` serialized for partition `q`, block after
block. -/
def drainedRows (bs : List Block) (q : Nat) : List Nat :=
  (bs.filter (fun b => decide (b.partitionId = q))).flatMap Block.rowIndexes

/-- The regions are well formed: the row count of every region is the number of
its pending row indexes, and no row is pending beyond the partition count. -/
def RegionsWF {σ : Type} (m : Machine σ) : Prop :=
  (∀ q, (m.self.mCacheRegion q).mRowNum = (m.self.mCacheRegion q).mRowIndexes.length)
  ∧ (∀ q, m.self.mPartitionNum ≤ q → (m.self.mCacheRegion q).mRowIndexes = [])

/-- The machine `m1` was reached from `m` by accepting the rows `added q` for
each partition `q`: the mode and the partition count are the same, the regions
are well formed, and the blob grew by successfully drained blocks `nb` such that,
for every partition, the rows drained by `nb` followed by the rows pending in
`m1` are the rows pending in `m` followed by the added ones. -/
def Progress {σ : Type} (m m1 : Machine σ) (added : Nat → List Nat) : Prop :=
  m1.self.mIsSinglePt = m.self.mIsSinglePt
  ∧ m1.self.mPartitionNum = m.self.mPartitionNum
  ∧ RegionsWF m1
  ∧ ∃ nb, m1.blob = m.blob ++ nb
      ∧ (∀ b ∈ nb, b.ok = true)
      ∧ ∀ q, drainedRows nb q ++ pending m1 q = pending m q ++ added q

/-- A four-row batch for a two-partition splitter on the schema int, varchar:
rows 0 and 2 go to partition 0, rows 1 and 3 to partition 1. -/
def mixedBatch : VectorBatch :=
  { rowCount := 4
    vectors := [plainColumn [0, 0, 0, 0] [0, 1, 0, 1], plainColumn [0, 1, 0, 0] [10, 11, 12, 13],
                plainVarchar [0, 0, 0, 0] [[], [1, 2, 3, 4, 5], [7, 8, 9], []]] }

/-- A two-partition splitter on the schema int, varchar. -/
def mixedSplitter : OckSplitter :=
  (Initialize (OckSplitter.new 2 2 false 0) (typesOf [OMNI_INT, OMNI_VARCHAR])).2

/-- The per-row value cost of a descriptor: the fixed width, 16 for decimal128,
the 4-byte offset entry for a variable column. -/
def costOf : ShuffleTypeId → Nat
  | SHUFFLE_1BYTE => 1
  | SHUFFLE_2BYTE => 2
  | SHUFFLE_4BYTE => 4
  | SHUFFLE_8BYTE => 8
  | SHUFFLE_DECIMAL128 => 16
  | SHUFFLE_BINARY => 4
  | SHUFFLE_NOT_DEFINE => 0

/-- The byte length of the value of row `r` in batch column `c` (0 when the
batch has no such column). -/
def varLen (vb : VectorBatch) (c r : Nat) : Nat :=
  match vb.GetVector c with
  | none => 0
  | some v => (varValue v r).length

/-- The offset of the schema columns in the batch: 0 in single-partition mode,
1 behind the partition-id view otherwise. -/
def viewOffset (s : OckSplitter) : Nat :=
  if s.mIsSinglePt then 0 else 1

/-- The bytes the write pass spends on batch column `c` for the rows `rows`:
one null flag per row, then the fixed-width values, or the offsets array and the
value bytes of a variable column. -/
def columnBytes (s : OckSplitter) (vb : VectorBatch) (rows : List Nat) (c : Nat) : Nat :=
  rows.length
    + (if typeIdOf s c = SHUFFLE_BINARY then
        4 * (rows.length + 1) + (rows.map (fun r => varLen vb c r)).sum
      else costOf (typeIdOf s c) * rows.length)

/-- The schema members are consistent with the descriptor list: the per-row
cost is one null byte plus the value cost per column, the variable-column
indexes are the positions of the variable descriptors, the per-block overhead
is the header plus 4 bytes per variable column, and every descriptor is one the
splitter emits. -/
def SchemaConsistent (s : OckSplitter) : Prop :=
  s.mMinDataLenInVBByRow = s.mVBColShuffleTypes.length + (s.mVBColShuffleTypes.map costOf).sum
  ∧ s.mColIndexOfVarVec = (List.range s.mVBColShuffleTypes.length).filter
      (fun j => decide (s.mVBColShuffleTypes.getD j SHUFFLE_NOT_DEFINE = SHUFFLE_BINARY))
  ∧ s.mMinDataLenInVB = vbHeaderSize + 4 * s.mColIndexOfVarVec.length
  ∧ ∀ t ∈ s.mVBColShuffleTypes, t ≠ SHUFFLE_NOT_DEFINE

/-- No write of the batch can fail for want of a dictionary: every
dictionary-encoded vector gets its id buffer and yields its dictionary. -/
def DictionariesReadable (mAllocator : Nat → Bool) (vb : VectorBatch) : Prop :=
  ∀ v ∈ vb.vectors, v.encoding = Encoding.OMNI_VEC_ENCODING_DICTIONARY →
    mAllocator (vb.rowCount * 4) = true ∧ v.dictionary.isSome = true

/-! ## Recording the calls to the buffer -/

/-- One call of the splitter to its buffer, with the answer the buffer gave. -/
inductive BufferCall
  | preoccupied (partitionId size : Nat) (newRegion : Bool) (answer : ResultFlag)
  | getEndAddress (partitionId length address : Nat)
  | flush (force : Bool) (ok : Bool) (dataSize : Nat)
  | getNewBuffer (ok : Bool)
  deriving DecidableEq, Repr

/-- The buffer `B` together with a journal of the calls made to it: every method
answers as `B` does and appends the call and its answer to the journal. The
two queries `IsCompress` and `GetRegionSize` are not recorded. -/
def traced {σ : Type} (B : OckHashWriteBuffer σ) : OckHashWriteBuffer (σ × List BufferCall) :=
  { PreoccupiedDataSpace := fun st p size f =>
      ((B.PreoccupiedDataSpace st.1 p size f).1,
       ((B.PreoccupiedDataSpace st.1 p size f).2,
        st.2 ++ [BufferCall.preoccupied p size f (B.PreoccupiedDataSpace st.1 p size f).1]))
    GetEndAddressOfRegion := fun st p len =>
      ((B.GetEndAddressOfRegion st.1 p len).1,
       ((B.GetEndAddressOfRegion st.1 p len).2,
        st.2 ++ [BufferCall.getEndAddress p len (B.GetEndAddressOfRegion st.1 p len).1]))
    Flush := fun st force =>
      ((B.Flush st.1 force).1, (B.Flush st.1 force).2.1,
       ((B.Flush st.1 force).2.2,
        st.2 ++ [BufferCall.flush force (B.Flush st.1 force).1 (B.Flush st.1 force).2.1]))
    GetNewBuffer := fun st =>
      ((B.GetNewBuffer st.1).1,
       ((B.GetNewBuffer st.1).2, st.2 ++ [BufferCall.getNewBuffer (B.GetNewBuffer st.1).1]))
    IsCompress := fun st => B.IsCompress st.1
    GetRegionSize := fun st => B.GetRegionSize st.1 }

/-! ## Plain counterparts of dictionary-encoded columns -/

/-- The plain column that holds, at each row `r`, the value `dictionary[ids[r]]`
of the dictionary-encoded vector `v`. -/
def flattened (v : Vector) (dictionary : List Nat) : Vector :=
  { encoding := Encoding.OMNI_VEC_ENCODING_FLAT
    nulls := v.nulls
    values := v.ids.map (fun id => dictionary.getD id 0)
    varchars := []
    ids := []
    dictionary := none
    dictVarchars := [] }

/-! ## What a reservation may change -/

/-- The schema members of two splitters agree: everything `Initialize` derives,
together with the constructor arguments. -/
def SameSchema (s s1 : OckSplitter) : Prop :=
  s1.mColNum = s.mColNum
  ∧ s1.mPartitionNum = s.mPartitionNum
  ∧ s1.mIsSinglePt = s.mIsSinglePt
  ∧ s1.mThreadId = s.mThreadId
  ∧ s1.mVBColShuffleTypes = s.mVBColShuffleTypes
  ∧ s1.mColIndexOfVarVec = s.mColIndexOfVarVec
  ∧ s1.mMinDataLenInVBByRow = s.mMinDataLenInVBByRow
  ∧ s1.mMinDataLenInVB = s.mMinDataLenInVB

/-- The region `r1` is the region `r0` as it was, or it has been reset. -/
def Kept (r0 r1 : VBRegion) : Prop :=
  r1 = r0 ∨ r1 = VBRegion.empty

/-- Nothing was appended between `m` and `m1`: the schema members agree and
every region is as it was or has been reset. -/
def Frame {σ : Type} (m m1 : Machine σ) : Prop :=
  SameSchema m.self m1.self
  ∧ ∀ q, Kept (m.self.mCacheRegion q) (m1.self.mCacheRegion q)

/-- The region `base` after one row index was appended with `size` more
bytes. -/
def appended (base : VBRegion) (rowIndex size : Nat) : VBRegion :=
  { mRowIndexes := base.mRowIndexes ++ [rowIndex]
    mLength := (base.mLength + size) % u32
    mRowNum := base.mRowNum + 1 }

/-- The size `PreoccupiedBufferSpace` asks for when the region of the partition
is `base`: the row length, plus the per-block overhead when the region holds no
row. -/
def preoccupiedSizeFor (s : OckSplitter) (base : VBRegion) (rowLength : Nat) : Nat :=
  if base.mRowNum = 0 then (rowLength + s.mMinDataLenInVB) % u32 else rowLength

/-- The reservation of the row `rowIndex` of partition `p` was granted between
`m` and `m1`: the schema members agree, every other region is as it was or has
been reset, and the region of `p` is such a region with the row appended once,
its length grown by the size asked for. -/
def Reserved {σ : Type} (m m1 : Machine σ) (p rowIndex rowLength : Nat) : Prop :=
  SameSchema m.self m1.self
  ∧ (∀ q, q ≠ p → Kept (m.self.mCacheRegion q) (m1.self.mCacheRegion q))
  ∧ ∃ base, Kept (m.self.mCacheRegion p) base
      ∧ m1.self.mCacheRegion p
          = appended base rowIndex (preoccupiedSizeFor m.self base rowLength)

/-! ## Buffers for the termination question -/

/-- A buffer that gives the same answer to every reservation, hands out address
0, and flushes and renews itself successfully. -/
def constantAnswer (answer : ResultFlag) : OckHashWriteBuffer Unit :=
  { PreoccupiedDataSpace := fun st _ _ _ => (answer, st)
    GetEndAddressOfRegion := fun st _ _ => (0, st)
    Flush := fun st _ => (true, 0, st)
    GetNewBuffer := fun st => (true, st)
    IsCompress := fun _ => false
    GetRegionSize := fun _ => 1024 }

/-- The function `rank` bounds the `NEW_REGION` and `LACK` answers the buffer
`B` can still give: no other method raises it, and a reservation answered
`NEW_REGION` or `LACK` lowers it. -/
def BufferRank {σ : Type} (B : OckHashWriteBuffer σ) (rank : σ → Nat) : Prop :=
  (∀ b p l, rank (B.GetEndAddressOfRegion b p l).2 ≤ rank b)
  ∧ (∀ b f, rank (B.Flush b f).2.2 ≤ rank b)
  ∧ (∀ b, rank (B.GetNewBuffer b).2 ≤ rank b)
  ∧ (∀ b p l f, (B.PreoccupiedDataSpace b p l f).1 = NEW_REGION
        ∨ (B.PreoccupiedDataSpace b p l f).1 = LACK →
      rank (B.PreoccupiedDataSpace b p l f).2 < rank b)

/-- A one-row batch with a single plain int column. -/
def oneRowBatch : VectorBatch :=
  { rowCount := 1, vectors := [plainColumn [0] [42]] }

/-- A buffer of finite capacity, in bytes: the state is the number of bytes in
use. A reservation is granted while the bytes fit and answered `LACK` otherwise,
a flush succeeds and reports the bytes in use, and a new buffer is empty. -/
def finiteBuffer (capacity : Nat) : OckHashWriteBuffer Nat :=
  { PreoccupiedDataSpace := fun used _ size _ =>
      if used + size ≤ capacity then (ENOUGH, used + size) else (LACK, used)
    GetEndAddressOfRegion := fun used _ _ => (0, used)
    Flush := fun used _ => (true, used, used)
    GetNewBuffer := fun _ => (true, 0)
    IsCompress := fun _ => false
    GetRegionSize := fun _ => capacity }

/-- The retry `PreoccupiedBufferSpace` makes from the machine `m` when called
with `newRegion`, if it makes one: after a `NEW_REGION` answer and a successful
drain of the partition it retries with `true`, after a `LACK` answer and a
successful `FlushAllRegionAndGetNewBlob` it retries with `false`; in every other
case the call returns without a retry. -/
def nextRetry {σ : Type} (B : OckHashWriteBuffer σ) (mAllocator : Nat → Bool)
    (vb : VectorBatch) (partitionId rowLength : Nat) (m : Machine σ) (newRegion : Bool) :
    Option (Machine σ × Bool) :=
  let preoccupiedSize :=
    if (m.self.mCacheRegion partitionId).mRowNum = 0 then
      (rowLength + m.self.mMinDataLenInVB) % u32
    else rowLength
  match B.PreoccupiedDataSpace m.mOckBuffer partitionId preoccupiedSize newRegion with
  | (NEW_REGION, buf1) =>
    match WritePartVectorBatch B mAllocator vb { m with mOckBuffer := buf1 } partitionId with
    | (false, _) => none
    | (true, m1) => some (m1, true)
  | (LACK, buf1) =>
    match FlushAllRegionAndGetNewBlob B mAllocator vb { m with mOckBuffer := buf1 } with
    | (false, _) => none
    | (true, m1) => some (m1, false)
  | _ => none

/-- The measure `variant` bounds the retries from the states in `reach`: every
retry made from such a state leads to such a state and lowers the measure. -/
def RetryVariant {σ : Type} (B : OckHashWriteBuffer σ) (mAllocator : Nat → Bool)
    (vb : VectorBatch) (partitionId rowLength : Nat) (reach : Machine σ → Bool → Prop)
    (variant : Machine σ → Bool → Nat) : Prop :=
  ∀ m newRegion m1 newRegion1, reach m newRegion →
    nextRetry B mAllocator vb partitionId rowLength m newRegion = some (m1, newRegion1) →
    reach m1 newRegion1 ∧ variant m1 newRegion1 < variant m newRegion

/-- The buffer never satisfies the row from the states in `reach`: from every
such state the call makes a retry, which leads to such a state again. -/
def NeverSatisfied {σ : Type} (B : OckHashWriteBuffer σ) (mAllocator : Nat → Bool)
    (vb : VectorBatch) (partitionId rowLength : Nat) (reach : Machine σ → Bool → Prop) : Prop :=
  ∀ m newRegion, reach m newRegion →
    ∃ m1 newRegion1,
      nextRetry B mAllocator vb partitionId rowLength m newRegion = some (m1, newRegion1)
      ∧ reach m1 newRegion1

/-! ## A batch for the rollover scenarios -/

/-- A four-row batch for `sampleSplitter`: rows 0, 2 and 3 go to partition 0
and row 1 goes to partition 1. -/
def rolloverBatch : VectorBatch :=
  { rowCount := 4
    vectors := [plainColumn [0, 0, 0, 0] [0, 1, 0, 0], plainColumn [0, 1, 0, 0] [10, 11, 12, 13],
                plainColumn [0, 0, 1, 0] [100, 101, 102, 103]] }

/-! ## Reading the journal -/

/-- The partition and the length of an address request, the call a drain makes
to the buffer; `none` for every other call. -/
def drainCallOf : BufferCall → Option (Nat × Nat)
  | BufferCall.getEndAddress partitionId length _ => some (partitionId, length)
  | _ => none

/-- The partitions of `0 .. mPartitionNum - 1` whose region holds rows, in
increasing order, each with the length of its region. -/
def pendingPartitions {σ : Type} (m : Machine σ) : List (Nat × Nat) :=
  ((List.range m.self.mPartitionNum).filter
    (fun q => decide ((m.self.mCacheRegion q).mRowNum ≠ 0))).map
    (fun q => (q, (m.self.mCacheRegion q).mLength))

/-- A machine for the exhaustion scenario: both regions of the splitter hold
rows (rows 0 and 2 in partition 0, row 1 in partition 1), the buffer is
scripted with the answers `answers`, and the journal is empty. -/
def pendingMachine (answers : List ResultFlag) : Machine (List ResultFlag × List BufferCall) :=
  Machine.start (UpdateCacheRegion sampleSplitter 1 1 22) (answers, [])

/-! ## Byte accounting -/

/-- One call to the splitter after its initialization. -/
inductive SplitterCall
  | split (vb : VectorBatch)
  | stop

/-- A sequence of `Split` and `Stop` calls on one splitter, each `Split` with
`fuel` levels of reservation recursion per row; the results of the calls are
ignored, as a caller may, and `none` means a reservation did not return. -/
def runCalls {σ : Type} (B : OckHashWriteBuffer σ) (mAllocator : Nat → Bool) (fuel : Nat) :
    List SplitterCall → Machine σ → Option (Machine σ)
  | [], m => some m
  | SplitterCall.split vb :: rest, m =>
    match Split B mAllocator vb fuel m with
    | none => none
    | some r => runCalls B mAllocator fuel rest r.2
  | SplitterCall.stop :: rest, m => runCalls B mAllocator fuel rest (Stop B m)

/-- The header lengths of the blocks `bs` stored for partition `q`, summed. -/
def drainedBytes (bs : List Block) (q : Nat) : Nat :=
  ((bs.filter (fun b => decide (b.partitionId = q))).map Block.length).sum

/-- The size a call reported to the splitter: the `dataSize` of a successful
`Flush`, and 0 for every other call. -/
def flushSize : BufferCall → Nat
  | BufferCall.flush _ true dataSize => dataSize
  | _ => 0

/-- The sizes reported by the successful flushes among `calls`, summed. -/
def flushedBytes (calls : List BufferCall) : Nat :=
  (calls.map flushSize).sum

/-- The sum of the per-partition lengths over the partitions of the splitter. -/
def partitionLengthsSum (s : OckSplitter) : Nat :=
  ((List.range s.mPartitionNum).map s.mPartitionLengths).sum

/-- The accounting between the machine `m` and a later machine `m1` of a buffer
that compresses (`compress = true`) or not: the schema members agree, the blob
grew by blocks `nb` of partitions in range and the journal by `newCalls`, every
partition length grew by the header lengths of its blocks in `nb`, and the total
grew by the header lengths of `nb` without compression, by the sizes of the
successful flushes in `newCalls` with compression. -/
def Accounted {σ : Type} (compress : Bool) (m m1 : Machine (σ × List BufferCall)) : Prop :=
  SameSchema m.self m1.self
  ∧ ∃ (nb : List Block) (newCalls : List BufferCall),
      m1.blob = m.blob ++ nb
      ∧ m1.mOckBuffer.2 = m.mOckBuffer.2 ++ newCalls
      ∧ (∀ b ∈ nb, b.partitionId < m.self.mPartitionNum)
      ∧ (∀ q, m1.self.mPartitionLengths q = m.self.mPartitionLengths q + drainedBytes nb q)
      ∧ m1.self.mTotalWriteBytes = m.self.mTotalWriteBytes
          + (if compress then flushedBytes newCalls else (nb.map Block.length).sum)

/-! ## The length of a region -/

/-- The bytes a block for the rows of the region `r` takes: the per-block
overhead and the row length of every row of the region. -/
def regionBytes (s : OckSplitter) (vb : VectorBatch) (r : VBRegion) : Nat :=
  s.mMinDataLenInVB + (r.mRowIndexes.map (GetRowLengthInBytes s vb)).sum

/-- The length invariant of one region: the row count is the number of row
indexes, an empty region has length 0, and a region holding rows has the length
`regionBytes` in the 32-bit arithmetic of the counter. -/
def RegionInv (s : OckSplitter) (vb : VectorBatch) (r : VBRegion) : Prop :=
  r.mRowNum = r.mRowIndexes.length
  ∧ (r.mRowNum = 0 → r.mLength = 0)
  ∧ (r.mRowNum ≠ 0 → r.mLength = regionBytes s vb r % u32)

/-! ## Schema derivation: properties -/

theorem ToSplitterTypeIdCase_none (s : OckSplitter) (i : Nat) (t : DataTypeId)
    (h : isRecognized t = false) : ToSplitterTypeIdCase s i t = none := by
  cases t <;> simp_all [isRecognized, shuffleTypeOf, ToSplitterTypeIdCase]

theorem ToSplitterTypeIdCase_some (s : OckSplitter) (vBColTypes : Nat → DataTypeId) (i : Nat)
    (h : isRecognized (vBColTypes i) = true) :
    ToSplitterTypeIdCase s i (vBColTypes i) = some (withColumns s vBColTypes [i]) := by
  unfold withColumns
  simp only [List.filterMap_cons, List.filterMap_nil, List.filter_cons, List.filter_nil,
    List.map_cons, List.map_nil, List.sum_cons, List.sum_nil]
  generalize vBColTypes i = t at h
  cases t <;>
    simp_all [isRecognized, shuffleTypeOf, ToSplitterTypeIdCase, isVariable, valueCost,
      uint8Size, uint16Size, uint32Size, uint64Size, decimal128Size]

theorem withColumns_cons (s : OckSplitter) (vBColTypes : Nat → DataTypeId) (i : Nat)
    (rest : List Nat) (h : isRecognized (vBColTypes i) = true) :
    withColumns (withColumns s vBColTypes [i]) vBColTypes rest
      = withColumns s vBColTypes (i :: rest) := by
  obtain ⟨d, hd⟩ := Option.isSome_iff_exists.mp h
  simp [withColumns, hd, List.filter_cons, Nat.add_assoc]
  by_cases hv : isVariable (vBColTypes i) = true <;> simp [hv]

theorem isRecognized_iff_mem (t : DataTypeId) :
    isRecognized t = true ↔ t ∈ recognizedTypes := by
  cases t <;> simp [isRecognized, shuffleTypeOf, recognizedTypes]

theorem withColumns_nil (s : OckSplitter) (vBColTypes : Nat → DataTypeId)
    (hs : s.mMinDataLenInVBByRow < u32) : withColumns s vBColTypes [] = s := by
  cases s
  simp_all [withColumns, Nat.mod_eq_of_lt]

theorem withColumns_min_lt (s : OckSplitter) (vBColTypes : Nat → DataTypeId) (idxs : List Nat) :
    (withColumns s vBColTypes idxs).mMinDataLenInVBByRow < u32 := by
  simp only [withColumns]
  exact Nat.mod_lt _ (by decide)

theorem ToSplitterTypeIdLoop_ok (vBColTypes : Nat → DataTypeId) :
    ∀ (idxs : List Nat) (s : OckSplitter), s.mMinDataLenInVBByRow < u32 →
      (∀ i ∈ idxs, isRecognized (vBColTypes i) = true) →
      ToSplitterTypeIdLoop vBColTypes idxs s = (true, withColumns s vBColTypes idxs) := by
  intro idxs
  induction idxs with
  | nil => intro s hs _; simp [ToSplitterTypeIdLoop, withColumns_nil s vBColTypes hs]
  | cons i rest ih =>
    intro s hs hall
    have hi : isRecognized (vBColTypes i) = true := hall i (by simp)
    have hrest : ∀ k ∈ rest, isRecognized (vBColTypes k) = true :=
      fun k hk => hall k (by simp [hk])
    simp only [ToSplitterTypeIdLoop, ToSplitterTypeIdCase_some s vBColTypes i hi]
    rw [ih _ (withColumns_min_lt s vBColTypes [i]) hrest, withColumns_cons s vBColTypes i rest hi]

theorem ToSplitterTypeIdLoop_fail (vBColTypes : Nat → DataTypeId) :
    ∀ (pre : List Nat) (bad : Nat) (post : List Nat) (s : OckSplitter),
      s.mMinDataLenInVBByRow < u32 →
      (∀ i ∈ pre, isRecognized (vBColTypes i) = true) →
      isRecognized (vBColTypes bad) = false →
      ToSplitterTypeIdLoop vBColTypes (pre ++ bad :: post) s
        = (false, withColumns s vBColTypes pre) := by
  intro pre
  induction pre with
  | nil =>
    intro bad post s hs _ hbad
    simp [ToSplitterTypeIdLoop, ToSplitterTypeIdCase_none s bad _ hbad,
      withColumns_nil s vBColTypes hs]
  | cons i rest ih =>
    intro bad post s hs hall hbad
    have hi : isRecognized (vBColTypes i) = true := hall i (by simp)
    have hrest : ∀ k ∈ rest, isRecognized (vBColTypes k) = true :=
      fun k hk => hall k (by simp [hk])
    rw [List.cons_append]
    simp only [ToSplitterTypeIdLoop, ToSplitterTypeIdCase_some s vBColTypes i hi]
    rw [ih bad post _ (withColumns_min_lt s vBColTypes [i]) hrest hbad,
      withColumns_cons s vBColTypes i rest hi]

theorem ToSplitterTypeIdLoop_true_iff (vBColTypes : Nat → DataTypeId) :
    ∀ (idxs : List Nat) (s : OckSplitter),
      (ToSplitterTypeIdLoop vBColTypes idxs s).1 = true
        ↔ ∀ i ∈ idxs, isRecognized (vBColTypes i) = true := by
  intro idxs
  induction idxs with
  | nil => intro s; simp [ToSplitterTypeIdLoop]
  | cons i rest ih =>
    intro s
    by_cases hi : isRecognized (vBColTypes i) = true
    · simp [ToSplitterTypeIdLoop, ToSplitterTypeIdCase_some s vBColTypes i hi, ih, hi]
    · have hi2 : isRecognized (vBColTypes i) = false := by simpa using hi
      simp [ToSplitterTypeIdLoop, ToSplitterTypeIdCase_none s i _ hi2, hi2]

theorem Initialize_fst (s : OckSplitter) (colTypeIds : Nat → DataTypeId) :
    (Initialize s colTypeIds).1
      = (ToSplitterTypeIdLoop colTypeIds (List.range s.mColNum)
          { s with mMinDataLenInVBByRow := s.mColNum % u32 }).1 := by
  unfold Initialize ToSplitterTypeId
  simp only
  rcases h : ToSplitterTypeIdLoop colTypeIds (List.range s.mColNum)
    { s with mMinDataLenInVBByRow := s.mColNum % u32 } with ⟨b, s1⟩
  cases b <;> simp

/-- C7: `Initialize` (through `ToSplitterTypeId`) returns true if and only if
every one of the `colNum` column type ids is in the recognized set, and `Create`
returns no instance exactly when `Initialize` returns false. -/
theorem Initialize_true_iff_all_recognized (colTypeIds : Nat → DataTypeId)
    (colNum partitionNum : Nat) (isSinglePt : Bool) (threadId : Nat) :
    ((Initialize (OckSplitter.new colNum partitionNum isSinglePt threadId) colTypeIds).1 = true
        ↔ ∀ i, i < colNum → colTypeIds i ∈ recognizedTypes)
    ∧ (Create colTypeIds colNum partitionNum isSinglePt threadId = none
        ↔ (Initialize (OckSplitter.new colNum partitionNum isSinglePt threadId)
            colTypeIds).1 = false) := by
  constructor
  · rw [Initialize_fst, ToSplitterTypeIdLoop_true_iff]
    simp [isRecognized_iff_mem, OckSplitter.new]
  · unfold Create
    simp only
    rcases h : Initialize (OckSplitter.new colNum partitionNum isSinglePt threadId)
      colTypeIds with ⟨b, s1⟩
    cases b <;> simp

theorem filterMap_map_some (vBColTypes : Nat → DataTypeId) (l : List Nat)
    (h : ∀ i ∈ l, isRecognized (vBColTypes i) = true) :
    (l.filterMap (fun i => shuffleTypeOf (vBColTypes i))).map some
      = l.map (fun i => shuffleTypeOf (vBColTypes i)) := by
  induction l with
  | nil => simp
  | cons a rest ih =>
    have ha : isRecognized (vBColTypes a) = true := h a (by simp)
    obtain ⟨d, hd⟩ := Option.isSome_iff_exists.mp ha
    have hrest := ih (fun i hi => h i (by simp [hi]))
    simp [List.filterMap_cons, hd, hrest]

theorem range_split (n j : Nat) (hj : j < n) :
    List.range n = List.range j ++ j :: List.range' (j + 1) (n - j - 1) := by
  rw [List.range_eq_range', List.range_eq_range']
  have h := @List.range'_append_1 0 j (n - j - 1 + 1)
  rw [show n - j - 1 + 1 + j = n by omega] at h
  rw [← h, List.range'_succ]
  simp

theorem Initialize_of_fail (s : OckSplitter) (colTypeIds : Nat → DataTypeId) (j : Nat)
    (hj : j < s.mColNum)
    (hpre : ∀ i, i < j → isRecognized (colTypeIds i) = true)
    (hbad : isRecognized (colTypeIds j) = false) :
    Initialize s colTypeIds
      = (false, withColumns { s with mMinDataLenInVBByRow := s.mColNum % u32 } colTypeIds
          (List.range j)) := by
  unfold Initialize ToSplitterTypeId
  simp only
  rw [range_split s.mColNum j hj, ToSplitterTypeIdLoop_fail colTypeIds (List.range j) j _ _
    (Nat.mod_lt _ (by decide)) (fun i hi => hpre i (List.mem_range.mp hi)) hbad]

theorem Initialize_of_ok (s : OckSplitter) (colTypeIds : Nat → DataTypeId)
    (hall : ∀ i, i < s.mColNum → isRecognized (colTypeIds i) = true) :
    Initialize s colTypeIds
      = (true, { withColumns { s with mMinDataLenInVBByRow := s.mColNum % u32 } colTypeIds
          (List.range s.mColNum) with
            mMinDataLenInVB := (vbDataHeadLen + uint32Size *
              (s.mColIndexOfVarVec ++ (List.range s.mColNum).filter
                (fun i => isVariable (colTypeIds i))).length) % u32
            mPartitionLengths := fun _ => 0 }) := by
  unfold Initialize ToSplitterTypeId
  simp only
  rw [ToSplitterTypeIdLoop_ok colTypeIds (List.range s.mColNum) _
    (Nat.mod_lt _ (by decide)) (fun i hi => hall i (List.mem_range.mp hi))]
  simp [withColumns]

/-- C8, counterexample: on the columns int, varchar and an unrecognized id,
`Initialize` returns false although the descriptor list, the variable-column
index list and the per-row cost are no longer empty or zero. -/
theorem Initialize_partial_state_counterexample :
    ¬ ((Initialize (OckSplitter.new 3 1 true 0)
          (typesOf [OMNI_INT, OMNI_VARCHAR, OTHER 99])).1 = false →
        (Initialize (OckSplitter.new 3 1 true 0)
          (typesOf [OMNI_INT, OMNI_VARCHAR, OTHER 99])).2.mVBColShuffleTypes = []
        ∧ (Initialize (OckSplitter.new 3 1 true 0)
          (typesOf [OMNI_INT, OMNI_VARCHAR, OTHER 99])).2.mColIndexOfVarVec = []
        ∧ (Initialize (OckSplitter.new 3 1 true 0)
          (typesOf [OMNI_INT, OMNI_VARCHAR, OTHER 99])).2.mMinDataLenInVBByRow = 0) := by
  decide

/-- C8, amended: when column `j` is the first unrecognized one, `Initialize`
returns false and the instance keeps what the columns before `j` contributed:
their descriptors, the indexes of the variable ones among them, and the per-row
cost `colNum` plus their value costs (modulo `2 ^ 32`); `Create` drops the
failed instance and returns none. -/
theorem Initialize_failure_keeps_preceding_columns (colTypeIds : Nat → DataTypeId)
    (colNum partitionNum : Nat) (isSinglePt : Bool) (threadId : Nat) (j : Nat)
    (hj : j < colNum)
    (hpre : ∀ i, i < j → colTypeIds i ∈ recognizedTypes)
    (hbad : colTypeIds j ∉ recognizedTypes) :
    (Initialize (OckSplitter.new colNum partitionNum isSinglePt threadId) colTypeIds).1 = false
    ∧ (Initialize (OckSplitter.new colNum partitionNum isSinglePt threadId)
        colTypeIds).2.mVBColShuffleTypes.map some
        = (List.range j).map (fun i => shuffleTypeOf (colTypeIds i))
    ∧ (Initialize (OckSplitter.new colNum partitionNum isSinglePt threadId)
        colTypeIds).2.mColIndexOfVarVec
        = (List.range j).filter (fun i => isVariable (colTypeIds i))
    ∧ (Initialize (OckSplitter.new colNum partitionNum isSinglePt threadId)
        colTypeIds).2.mMinDataLenInVBByRow
        = (colNum + ((List.range j).map (fun i => valueCost (colTypeIds i))).sum) % u32
    ∧ Create colTypeIds colNum partitionNum isSinglePt threadId = none := by
  have hpre2 : ∀ i, i < j → isRecognized (colTypeIds i) = true :=
    fun i hi => (isRecognized_iff_mem _).mpr (hpre i hi)
  have hbad2 : isRecognized (colTypeIds j) = false := by
    cases h : isRecognized (colTypeIds j)
    · rfl
    · exact absurd ((isRecognized_iff_mem _).mp h) hbad
  have hI := Initialize_of_fail (OckSplitter.new colNum partitionNum isSinglePt threadId)
    colTypeIds j hj hpre2 hbad2
  refine ⟨by rw [hI], ?_, by rw [hI]; simp [withColumns, OckSplitter.new], ?_, ?_⟩
  · rw [hI]
    simp only [withColumns, OckSplitter.new, List.nil_append]
    exact filterMap_map_some _ _ (fun i hi => hpre2 i (List.mem_range.mp hi))
  · rw [hI]; simp [withColumns, OckSplitter.new]
  · unfold Create
    simp only [hI]

theorem four_mul_variable_le_cost (vBColTypes : Nat → DataTypeId) (l : List Nat) :
    4 * (l.filter (fun i => isVariable (vBColTypes i))).length
      ≤ (l.map (fun i => valueCost (vBColTypes i))).sum := by
  induction l with
  | nil => simp
  | cons a rest ih =>
    simp only [List.filter_cons, List.map_cons, List.sum_cons]
    by_cases hv : isVariable (vBColTypes a) = true
    · have hc : valueCost (vBColTypes a) = 4 := by
        revert hv
        cases vBColTypes a <;> simp [isVariable, valueCost]
      simp only [hv, if_true, List.length_cons, hc]
      omega
    · simp only [hv]
      simp only [Bool.false_eq_true, if_false]
      omega

/-- C9: after a successful `Initialize` on `colNum` columns whose per-row cost
fits in 32 bits, the descriptor of column `i` is the one the specification
assigns to its type, `mMinDataLenInVBByRow` is `colNum` plus the sum of the
value costs (1, 2, 4, 8, 16, or 4 for a variable column), the variable-column
indexes are exactly the char and varchar columns in increasing order, and
`mMinDataLenInVB` is the header length plus 4 per variable column. -/
theorem Initialize_derives_schema (colTypeIds : Nat → DataTypeId)
    (colNum partitionNum : Nat) (isSinglePt : Bool) (threadId : Nat)
    (hinit : (Initialize (OckSplitter.new colNum partitionNum isSinglePt threadId)
      colTypeIds).1 = true)
    (hfit : colNum + ((List.range colNum).map (fun i => valueCost (colTypeIds i))).sum < u32) :
    (Initialize (OckSplitter.new colNum partitionNum isSinglePt threadId)
        colTypeIds).2.mVBColShuffleTypes.map some
        = (List.range colNum).map (fun i => shuffleTypeOf (colTypeIds i))
    ∧ (Initialize (OckSplitter.new colNum partitionNum isSinglePt threadId)
        colTypeIds).2.mMinDataLenInVBByRow
        = colNum + ((List.range colNum).map (fun i => valueCost (colTypeIds i))).sum
    ∧ (Initialize (OckSplitter.new colNum partitionNum isSinglePt threadId)
        colTypeIds).2.mColIndexOfVarVec
        = (List.range colNum).filter (fun i => isVariable (colTypeIds i))
    ∧ (Initialize (OckSplitter.new colNum partitionNum isSinglePt threadId)
        colTypeIds).2.mMinDataLenInVB
        = vbHeaderSize
          + 4 * ((List.range colNum).filter (fun i => isVariable (colTypeIds i))).length := by
  have hall : ∀ i, i < colNum → isRecognized (colTypeIds i) = true := by
    have h := hinit
    rw [Initialize_fst, ToSplitterTypeIdLoop_true_iff] at h
    exact fun i hi => h i (List.mem_range.mpr hi)
  have hI := Initialize_of_ok (OckSplitter.new colNum partitionNum isSinglePt threadId)
    colTypeIds hall
  have hvar := four_mul_variable_le_cost colTypeIds (List.range colNum)
  have hlen : ((List.range colNum).filter (fun i => isVariable (colTypeIds i))).length
      ≤ colNum := by
    have := List.length_filter_le (fun i => isVariable (colTypeIds i)) (List.range colNum)
    simpa using this
  have hu : u32 = 4294967296 := by decide
  rw [hI]
  refine ⟨?_, ?_, ?_, ?_⟩
  · simp only [withColumns, OckSplitter.new, List.nil_append]
    exact filterMap_map_some _ _ (fun i hi => hall i (List.mem_range.mp hi))
  · simp only [withColumns, OckSplitter.new]
    rw [Nat.mod_add_mod, Nat.mod_eq_of_lt hfit]
  · simp [withColumns, OckSplitter.new]
  · simp only [withColumns, OckSplitter.new, List.nil_append, vbDataHeadLen, uint32Size,
      vbHeaderSize]
    apply Nat.mod_eq_of_lt
    omega

/-- Witness of C9 on the schema int, varchar, decimal128. -/
theorem Initialize_derives_schema_witness :
    (Initialize (OckSplitter.new 3 2 false 0)
        (typesOf [OMNI_INT, OMNI_VARCHAR, OMNI_DECIMAL128])).2.mVBColShuffleTypes.map some
        = (List.range 3).map
          (fun i => shuffleTypeOf (typesOf [OMNI_INT, OMNI_VARCHAR, OMNI_DECIMAL128] i))
    ∧ (Initialize (OckSplitter.new 3 2 false 0)
        (typesOf [OMNI_INT, OMNI_VARCHAR, OMNI_DECIMAL128])).2.mMinDataLenInVBByRow
        = 3 + ((List.range 3).map
          (fun i => valueCost (typesOf [OMNI_INT, OMNI_VARCHAR, OMNI_DECIMAL128] i))).sum
    ∧ (Initialize (OckSplitter.new 3 2 false 0)
        (typesOf [OMNI_INT, OMNI_VARCHAR, OMNI_DECIMAL128])).2.mColIndexOfVarVec
        = (List.range 3).filter
          (fun i => isVariable (typesOf [OMNI_INT, OMNI_VARCHAR, OMNI_DECIMAL128] i))
    ∧ (Initialize (OckSplitter.new 3 2 false 0)
        (typesOf [OMNI_INT, OMNI_VARCHAR, OMNI_DECIMAL128])).2.mMinDataLenInVB
        = vbHeaderSize + 4 * ((List.range 3).filter
          (fun i => isVariable (typesOf [OMNI_INT, OMNI_VARCHAR, OMNI_DECIMAL128] i))).length :=
  Initialize_derives_schema (typesOf [OMNI_INT, OMNI_VARCHAR, OMNI_DECIMAL128]) 3 2 false 0
    (by decide) (by decide)

/-- Witness of C8 (amended) on the columns int, varchar, unrecognized. -/
theorem Initialize_failure_keeps_preceding_columns_witness :
    (Initialize (OckSplitter.new 3 1 true 0)
        (typesOf [OMNI_INT, OMNI_VARCHAR, OTHER 99])).1 = false
    ∧ (Initialize (OckSplitter.new 3 1 true 0)
        (typesOf [OMNI_INT, OMNI_VARCHAR, OTHER 99])).2.mVBColShuffleTypes.map some
        = (List.range 2).map
          (fun i => shuffleTypeOf (typesOf [OMNI_INT, OMNI_VARCHAR, OTHER 99] i))
    ∧ (Initialize (OckSplitter.new 3 1 true 0)
        (typesOf [OMNI_INT, OMNI_VARCHAR, OTHER 99])).2.mColIndexOfVarVec
        = (List.range 2).filter
          (fun i => isVariable (typesOf [OMNI_INT, OMNI_VARCHAR, OTHER 99] i))
    ∧ (Initialize (OckSplitter.new 3 1 true 0)
        (typesOf [OMNI_INT, OMNI_VARCHAR, OTHER 99])).2.mMinDataLenInVBByRow
        = (3 + ((List.range 2).map
          (fun i => valueCost (typesOf [OMNI_INT, OMNI_VARCHAR, OTHER 99] i))).sum) % u32
    ∧ Create (typesOf [OMNI_INT, OMNI_VARCHAR, OTHER 99]) 3 1 true 0 = none :=
  Initialize_failure_keeps_preceding_columns (typesOf [OMNI_INT, OMNI_VARCHAR, OTHER 99])
    3 1 true 0 2 (by decide) (by decide) (by decide)

/-! ## Variable-width writer: properties -/

theorem WriteVariableWidthValueLoop_eq (vector : Vector) :
    ∀ (rs : List Nat) (offsets bytes : List Cell) (valueAddress : Nat),
      (∀ r ∈ rs, (varValue vector r).length ≤ 0x7fffffff) →
      WriteVariableWidthValueLoop vector
          (decide (vector.encoding = Encoding.OMNI_VEC_ENCODING_DICTIONARY))
          rs offsets bytes valueAddress
        = some (offsets ++ rs.map (fun r => ⟨4, (varValue vector r).length⟩),
                bytes ++ rs.flatMap (fun r => (varValue vector r).map (fun b => ⟨1, b⟩)),
                valueAddress + (rs.map (fun r => (varValue vector r).length)).sum) := by
  intro rs
  induction rs with
  | nil => intro offsets bytes va _; simp [WriteVariableWidthValueLoop]
  | cons r rest ih =>
    intro offsets bytes va hall
    have hr : (varValue vector r).length ≤ 0x7fffffff := hall r (by simp)
    have hrest : ∀ k ∈ rest, (varValue vector k).length ≤ 0x7fffffff :=
      fun k hk => hall k (by simp [hk])
    have hv : (if decide (vector.encoding = Encoding.OMNI_VEC_ENCODING_DICTIONARY) = true
        then vector.GetVarchar r else vector.GetValue r) = varValue vector r := by
      simp [varValue]
    unfold WriteVariableWidthValueLoop
    simp only [hv]
    have hcopy : ¬ (0 < (varValue vector r).length
        ∧ memcpy_s (varValue vector r).length (varValue vector r).length = false) := by
      intro ⟨hpos, hfail⟩
      simp [memcpy_s] at hfail
      omega
    rw [if_neg hcopy, ih _ _ _ hrest]
    simp [List.flatMap_cons, Nat.add_assoc]

theorem WriteVariableWidthValue_eq (vector : Vector) (rowIndexes : List Nat)
    (rowNum address : Nat)
    (htotal : ((rowsOf rowIndexes rowNum).map (fun r => (varValue vector r).length)).sum
      < 2 ^ 31) :
    WriteVariableWidthValue vector rowIndexes rowNum address
      = { ok := true
          address := address + (rowNum + 1) * 4
            + ((rowsOf rowIndexes rowNum).map (fun r => (varValue vector r).length)).sum
          cells := (rowsOf rowIndexes rowNum).map (fun r => ⟨4, (varValue vector r).length⟩)
            ++ [⟨4, ((rowsOf rowIndexes rowNum).map
                  (fun r => (varValue vector r).length)).sum⟩]
            ++ (rowsOf rowIndexes rowNum).flatMap
                  (fun r => (varValue vector r).map (fun b => ⟨1, b⟩)) } := by
  have hall : ∀ r ∈ rowsOf rowIndexes rowNum, (varValue vector r).length ≤ 0x7fffffff := by
    intro r hr
    have := List.single_le_sum (fun x _ => Nat.zero_le x) _
      (List.mem_map_of_mem (fun r => (varValue vector r).length) hr)
    simp only at this
    omega
  unfold WriteVariableWidthValue
  simp only [WriteVariableWidthValueLoop_eq vector _ [] [] _ hall, List.nil_append]
  have hmod : ((rowsOf rowIndexes rowNum).map (fun r => (varValue vector r).length)).sum % u32
      = ((rowsOf rowIndexes rowNum).map (fun r => (varValue vector r).length)).sum := by
    apply Nat.mod_eq_of_lt
    have : u32 = 2 ^ 32 := rfl
    omega
  simp [hmod]

theorem rowsOf_length (rowIndexes : List Nat) (rowNum : Nat) :
    (rowsOf rowIndexes rowNum).length = rowNum := by
  simp [rowsOf]

/-- C5, counterexample: for rows of lengths 0, 5, 3, 0 the five entries written
are 0, 5, 3, 0, 8, so entry `i` is not the cumulative length of rows `0 .. i`
(entry 2 is 3, not 8). -/
theorem WriteVariableWidthValue_offsets_not_cumulative :
    offsetEntries (WriteVariableWidthValue
        (plainVarchar [0, 0, 0, 0] [[], [1, 2, 3, 4, 5], [6, 7, 8], []]) [0, 1, 2, 3] 4 0) 4
      = [0, 5, 3, 0, 8]
    ∧ ¬ (∀ i, i < 4 →
        (offsetEntries (WriteVariableWidthValue
          (plainVarchar [0, 0, 0, 0] [[], [1, 2, 3, 4, 5], [6, 7, 8], []]) [0, 1, 2, 3] 4 0)
          4).getD i 0
        = ((List.range (i + 1)).map (fun j =>
            (varValue (plainVarchar [0, 0, 0, 0] [[], [1, 2, 3, 4, 5], [6, 7, 8], []])
              ([0, 1, 2, 3].getD j 0)).length)).sum) := by
  decide

/-- C5, amended: for values of less than `2 ^ 31` bytes in total, the offsets
array written holds, for each accumulated row in order, the byte length of the
value of that row alone, and then one last entry with the total byte length of
all the values. -/
theorem WriteVariableWidthValue_offsets_are_lengths_then_total (vector : Vector)
    (rowIndexes : List Nat) (rowNum address : Nat)
    (htotal : ((rowsOf rowIndexes rowNum).map (fun r => (varValue vector r).length)).sum
      < 2 ^ 31) :
    offsetEntries (WriteVariableWidthValue vector rowIndexes rowNum address) rowNum
      = (rowsOf rowIndexes rowNum).map (fun r => (varValue vector r).length)
        ++ [((rowsOf rowIndexes rowNum).map (fun r => (varValue vector r).length)).sum] := by
  rw [WriteVariableWidthValue_eq vector rowIndexes rowNum address htotal]
  unfold offsetEntries
  simp only
  rw [List.take_left' (by simp [rowsOf_length])]
  simp

/-- Witness of C5 (amended) on rows of lengths 0, 5, 3, 0. -/
theorem WriteVariableWidthValue_offsets_are_lengths_then_total_witness :
    offsetEntries (WriteVariableWidthValue
        (plainVarchar [0, 0, 0, 0] [[], [1, 2, 3, 4, 5], [6, 7, 8], []]) [0, 1, 2, 3] 4 0) 4
      = (rowsOf [0, 1, 2, 3] 4).map (fun r =>
          (varValue (plainVarchar [0, 0, 0, 0] [[], [1, 2, 3, 4, 5], [6, 7, 8], []]) r).length)
        ++ [((rowsOf [0, 1, 2, 3] 4).map (fun r =>
          (varValue (plainVarchar [0, 0, 0, 0] [[], [1, 2, 3, 4, 5], [6, 7, 8], []])
            r).length)).sum] :=
  WriteVariableWidthValue_offsets_are_lengths_then_total
    (plainVarchar [0, 0, 0, 0] [[], [1, 2, 3, 4, 5], [6, 7, 8], []]) [0, 1, 2, 3] 4 0
    (by decide)

/-- C6: for a plain or dictionary-encoded variable-width column and `rowNum`
accumulated rows whose values take less than `2 ^ 31` bytes in total,
`WriteVariableWidthValue` returns true, writes exactly `rowNum + 1` cells of
4 bytes whose last one holds the total byte length, then the bytes of the values
in accumulation order, and advances the cursor by `4 * (rowNum + 1)` plus that
total. -/
theorem WriteVariableWidthValue_layout (vector : Vector)
    (rowIndexes : List Nat) (rowNum address : Nat)
    (htotal : ((rowsOf rowIndexes rowNum).map (fun r => (varValue vector r).length)).sum
      < 2 ^ 31) :
    (WriteVariableWidthValue vector rowIndexes rowNum address).ok = true
    ∧ ((WriteVariableWidthValue vector rowIndexes rowNum address).cells.take
        (rowNum + 1)).length = rowNum + 1
    ∧ (∀ c ∈ (WriteVariableWidthValue vector rowIndexes rowNum address).cells.take
        (rowNum + 1), c.width = 4)
    ∧ (WriteVariableWidthValue vector rowIndexes rowNum address).cells[rowNum]?
        = some ⟨4, ((rowsOf rowIndexes rowNum).map
            (fun r => (varValue vector r).length)).sum⟩
    ∧ (WriteVariableWidthValue vector rowIndexes rowNum address).cells.drop (rowNum + 1)
        = (rowsOf rowIndexes rowNum).flatMap
            (fun r => (varValue vector r).map (fun b => ⟨1, b⟩))
    ∧ (WriteVariableWidthValue vector rowIndexes rowNum address).address
        = address + 4 * (rowNum + 1)
          + ((rowsOf rowIndexes rowNum).map (fun r => (varValue vector r).length)).sum := by
  rw [WriteVariableWidthValue_eq vector rowIndexes rowNum address htotal]
  simp only
  have hlen : ((rowsOf rowIndexes rowNum).map
      (fun r => (⟨4, (varValue vector r).length⟩ : Cell))
      ++ [(⟨4, ((rowsOf rowIndexes rowNum).map
          (fun r => (varValue vector r).length)).sum⟩ : Cell)]).length = rowNum + 1 := by
    simp [rowsOf_length]
  refine ⟨trivial, ?_, ?_, ?_, ?_, ?_⟩
  · rw [List.take_left' hlen, hlen]
  · rw [List.take_left' hlen]
    intro c hc
    simp only [List.mem_append, List.mem_map, List.mem_singleton] at hc
    rcases hc with ⟨r, _, rfl⟩ | rfl <;> rfl
  · rw [List.append_assoc, List.getElem?_append_right (by simp [rowsOf_length])]
    simp [rowsOf_length]
  · rw [List.drop_left' hlen]
  · omega

/-- Witness of C6 on a dictionary-encoded column: rows 2 and 0 of a column whose
ids are 1, 0, 1 into the dictionary "ab", "cde". -/
theorem WriteVariableWidthValue_layout_witness :
    (WriteVariableWidthValue (dictVarchar [0, 0, 0] [1, 0, 1] [[97, 98], [99, 100, 101]])
        [2, 0] 2 16).ok = true
    ∧ ((WriteVariableWidthValue (dictVarchar [0, 0, 0] [1, 0, 1] [[97, 98], [99, 100, 101]])
        [2, 0] 2 16).cells.take (2 + 1)).length = 2 + 1
    ∧ (∀ c ∈ (WriteVariableWidthValue
        (dictVarchar [0, 0, 0] [1, 0, 1] [[97, 98], [99, 100, 101]]) [2, 0] 2 16).cells.take
        (2 + 1), c.width = 4)
    ∧ (WriteVariableWidthValue (dictVarchar [0, 0, 0] [1, 0, 1] [[97, 98], [99, 100, 101]])
        [2, 0] 2 16).cells[2]?
        = some ⟨4, ((rowsOf [2, 0] 2).map (fun r =>
            (varValue (dictVarchar [0, 0, 0] [1, 0, 1] [[97, 98], [99, 100, 101]])
              r).length)).sum⟩
    ∧ (WriteVariableWidthValue (dictVarchar [0, 0, 0] [1, 0, 1] [[97, 98], [99, 100, 101]])
        [2, 0] 2 16).cells.drop (2 + 1)
        = (rowsOf [2, 0] 2).flatMap (fun r =>
            (varValue (dictVarchar [0, 0, 0] [1, 0, 1] [[97, 98], [99, 100, 101]]) r).map
              (fun b => ⟨1, b⟩))
    ∧ (WriteVariableWidthValue (dictVarchar [0, 0, 0] [1, 0, 1] [[97, 98], [99, 100, 101]])
        [2, 0] 2 16).address
        = 16 + 4 * (2 + 1) + ((rowsOf [2, 0] 2).map (fun r =>
            (varValue (dictVarchar [0, 0, 0] [1, 0, 1] [[97, 98], [99, 100, 101]])
              r).length)).sum :=
  WriteVariableWidthValue_layout (dictVarchar [0, 0, 0] [1, 0, 1] [[97, 98], [99, 100, 101]])
    [2, 0] 2 16 (by decide)

/-! ## Partition drain: properties -/

theorem rowsOf_self (l : List Nat) : rowsOf l l.length = l := by
  apply List.ext_getElem
  · simp [rowsOf]
  · intro n h1 h2
    simp [rowsOf, List.getD_eq_getElem?_getD, List.getElem?_eq_getElem h2]

theorem WriteVariableWidthValueLoop_shift (vector : Vector) (isDict : Bool) :
    ∀ (rs : List Nat) (offsets bytes : List Cell) (va : Nat),
      WriteVariableWidthValueLoop vector isDict rs offsets bytes va
        = (WriteVariableWidthValueLoop vector isDict rs offsets bytes 0).map
            (fun t => (t.1, t.2.1, t.2.2 + va)) := by
  intro rs
  induction rs with
  | nil => intro offsets bytes va; simp [WriteVariableWidthValueLoop]
  | cons r rest ih =>
    intro offsets bytes va
    unfold WriteVariableWidthValueLoop
    simp only
    generalize (if isDict = true then vector.GetVarchar r else vector.GetValue r) = src
    by_cases hc : 0 < src.length ∧ memcpy_s src.length src.length = false
    · simp [hc]
    · rw [if_neg hc, if_neg hc, ih _ _ (va + _), ih _ _ (0 + _)]
      simp only [Option.map_map]
      congr 1
      funext t
      simp only [Function.comp]
      congr 2
      omega

theorem WriteVariableWidthValue_address_free (vector : Vector) (rowIndexes : List Nat)
    (rowNum address : Nat) :
    (WriteVariableWidthValue vector rowIndexes rowNum address).cells
        = (WriteVariableWidthValue vector rowIndexes rowNum 0).cells
    ∧ (WriteVariableWidthValue vector rowIndexes rowNum address).ok
        = (WriteVariableWidthValue vector rowIndexes rowNum 0).ok := by
  unfold WriteVariableWidthValue
  simp only
  rw [WriteVariableWidthValueLoop_shift vector _ _ [] [] (address + (rowNum + 1) * 4),
    WriteVariableWidthValueLoop_shift vector _ _ [] [] (0 + (rowNum + 1) * 4)]
  cases WriteVariableWidthValueLoop vector
    (decide (vector.encoding = Encoding.OMNI_VEC_ENCODING_DICTIONARY))
    (rowsOf rowIndexes rowNum) [] [] 0 with
  | none => simp
  | some t =>
    obtain ⟨o, b, a⟩ := t
    simp

theorem WriteFixedWidthValueTemple_address_free (mAllocator : Nat → Bool) (rowCount w : Nat)
    (vector : Vector) (isDict : Bool) (rowIndexes : List Nat) (rowNum address : Nat) :
    (WriteFixedWidthValueTemple mAllocator rowCount w vector isDict rowIndexes rowNum
        address).cells
      = (WriteFixedWidthValueTemple mAllocator rowCount w vector isDict rowIndexes rowNum
          0).cells := by
  unfold WriteFixedWidthValueTemple
  cases isDict <;> cases mAllocator (rowCount * 4) <;> cases vector.dictionary <;> simp

theorem WriteDecimal128_address_free (mAllocator : Nat → Bool) (rowCount : Nat)
    (vector : Vector) (isDict : Bool) (rowIndexes : List Nat) (rowNum address : Nat) :
    (WriteDecimal128 mAllocator rowCount vector isDict rowIndexes rowNum address).cells
      = (WriteDecimal128 mAllocator rowCount vector isDict rowIndexes rowNum 0).cells := by
  unfold WriteDecimal128
  cases isDict <;> cases mAllocator (rowCount * 4) <;> cases vector.dictionary <;> simp

theorem WriteFixedWidthValue_address_free (mAllocator : Nat → Bool) (rowCount : Nat)
    (vector : Vector) (typeId : ShuffleTypeId) (rowIndexes : List Nat) (rowNum address : Nat) :
    (WriteFixedWidthValue mAllocator rowCount vector typeId rowIndexes rowNum address).cells
        = (WriteFixedWidthValue mAllocator rowCount vector typeId rowIndexes rowNum 0).cells
    ∧ (WriteFixedWidthValue mAllocator rowCount vector typeId rowIndexes rowNum address).ok
        = (WriteFixedWidthValue mAllocator rowCount vector typeId rowIndexes rowNum 0).ok := by
  unfold WriteFixedWidthValue
  cases typeId <;>
    simp [WriteFixedWidthValueTemple_address_free mAllocator rowCount _ vector _ rowIndexes
      rowNum address,
      WriteDecimal128_address_free mAllocator rowCount vector _ rowIndexes rowNum address]

theorem WriteOneVector_address_free (mAllocator : Nat → Bool) (s : OckSplitter)
    (vb : VectorBatch) (colIndex : Nat) (rowIndexes : List Nat) (rowNum address : Nat) :
    (WriteOneVector mAllocator s vb colIndex rowIndexes rowNum address).cells
        = columnImage mAllocator s vb rowIndexes rowNum colIndex
    ∧ (WriteOneVector mAllocator s vb colIndex rowIndexes rowNum address).ok
        = (WriteOneVector mAllocator s vb colIndex rowIndexes rowNum 0).ok := by
  unfold columnImage WriteOneVector
  cases vb.GetVector colIndex with
  | none => simp
  | some vector =>
    simp only [WriteNullValues]
    simp only [Bool.true_eq_false, if_false]
    generalize typeIdOf s colIndex = typeId
    by_cases ht : typeId = SHUFFLE_BINARY
    · simp only [ht, if_true]
      rw [(WriteVariableWidthValue_address_free vector rowIndexes rowNum (address + rowNum)).1,
        (WriteVariableWidthValue_address_free vector rowIndexes rowNum (address + rowNum)).2,
        (WriteVariableWidthValue_address_free vector rowIndexes rowNum (0 + rowNum)).1,
        (WriteVariableWidthValue_address_free vector rowIndexes rowNum (0 + rowNum)).2]
      simp
    · simp only [ht, if_false]
      rw [(WriteFixedWidthValue_address_free mAllocator vb.rowCount vector _ rowIndexes rowNum
          (address + rowNum)).1,
        (WriteFixedWidthValue_address_free mAllocator vb.rowCount vector _ rowIndexes rowNum
          (address + rowNum)).2,
        (WriteFixedWidthValue_address_free mAllocator vb.rowCount vector _ rowIndexes rowNum
          (0 + rowNum)).1,
        (WriteFixedWidthValue_address_free mAllocator vb.rowCount vector _ rowIndexes rowNum
          (0 + rowNum)).2]
      simp

theorem WriteColumns_of_ok (mAllocator : Nat → Bool) (s : OckSplitter) (vb : VectorBatch)
    (rowIndexes : List Nat) (rowNum : Nat) :
    ∀ (cols : List Nat) (address : Nat) (cells : List Cell),
      (∀ c ∈ cols, (WriteOneVector mAllocator s vb c rowIndexes rowNum 0).ok = true) →
      (WriteColumns mAllocator s vb rowIndexes rowNum cols address cells).ok = true
      ∧ (WriteColumns mAllocator s vb rowIndexes rowNum cols address cells).cells
          = cells ++ cols.flatMap (columnImage mAllocator s vb rowIndexes rowNum) := by
  intro cols
  induction cols with
  | nil => intro address cells _; simp [WriteColumns]
  | cons c rest ih =>
    intro address cells hall
    have hc := hall c (by simp)
    have hfree := WriteOneVector_address_free mAllocator s vb c rowIndexes rowNum address
    have hok : (WriteOneVector mAllocator s vb c rowIndexes rowNum address).ok = true := by
      rw [hfree.2, hc]
    unfold WriteColumns
    simp only [hok, Bool.true_eq_false, if_false]
    have := ih (WriteOneVector mAllocator s vb c rowIndexes rowNum address).address
      (cells ++ (WriteOneVector mAllocator s vb c rowIndexes rowNum address).cells)
      (fun k hk => hall k (by simp [hk]))
    rw [this.1, this.2, hfree.1]
    simp [List.flatMap_cons]

theorem WriteOneVector_ok (mAllocator : Nat → Bool) (s : OckSplitter) (vb : VectorBatch)
    (colIndex : Nat) (rowIndexes : List Nat) (rowNum address : Nat) (vector : Vector)
    (hvec : vb.GetVector colIndex = some vector)
    (htype : typeIdOf s colIndex ≠ SHUFFLE_NOT_DEFINE)
    (hvar : typeIdOf s colIndex = SHUFFLE_BINARY →
      ∀ r ∈ rowsOf rowIndexes rowNum, (varValue vector r).length ≤ 0x7fffffff) :
    (WriteOneVector mAllocator s vb colIndex rowIndexes rowNum address).ok = true := by
  unfold WriteOneVector
  simp only [hvec, WriteNullValues, Bool.true_eq_false, if_false]
  by_cases ht : typeIdOf s colIndex = SHUFFLE_BINARY
  · simp only [ht, if_true]
    unfold WriteVariableWidthValue
    simp only [WriteVariableWidthValueLoop_eq vector _ [] [] _ (hvar ht)]
  · simp only [ht, if_false]
    unfold WriteFixedWidthValue
    cases h : typeIdOf s colIndex <;> simp_all

theorem columnImage_nulls (mAllocator : Nat → Bool) (s : OckSplitter) (vb : VectorBatch)
    (colIndex : Nat) (rowIndexes : List Nat) (rowNum : Nat) (vector : Vector)
    (hvec : vb.GetVector colIndex = some vector) :
    (columnImage mAllocator s vb rowIndexes rowNum colIndex).take rowNum
      = nullCells vector (rowsOf rowIndexes rowNum) := by
  unfold columnImage WriteOneVector
  simp only [hvec, WriteNullValues, Bool.true_eq_false, if_false, nullCells]
  rw [List.take_left' (by simp [rowsOf_length])]

theorem columnImage_plain_fixed (mAllocator : Nat → Bool) (s : OckSplitter) (vb : VectorBatch)
    (colIndex : Nat) (rowIndexes : List Nat) (rowNum : Nat) (vector : Vector) (w : Nat)
    (hvec : vb.GetVector colIndex = some vector)
    (hflat : vector.encoding = Encoding.OMNI_VEC_ENCODING_FLAT)
    (hw : fixedWidthOf (typeIdOf s colIndex) = some w) :
    columnImage mAllocator s vb rowIndexes rowNum colIndex
      = nullCells vector (rowsOf rowIndexes rowNum)
        ++ (rowsOf rowIndexes rowNum).map (fun r => ⟨w, vector.values.getD r 0⟩) := by
  unfold columnImage WriteOneVector
  simp only [hvec, WriteNullValues, Bool.true_eq_false, if_false, nullCells]
  cases h : typeIdOf s colIndex <;>
    simp_all [fixedWidthOf, WriteFixedWidthValue, WriteFixedWidthValueTemple]

theorem WriteOneVector_congr (mAllocator : Nat → Bool) (s1 s2 : OckSplitter)
    (h1 : s1.mIsSinglePt = s2.mIsSinglePt)
    (h2 : s1.mVBColShuffleTypes = s2.mVBColShuffleTypes) (vb : VectorBatch)
    (colIndex : Nat) (rowIndexes : List Nat) (rowNum address : Nat) :
    WriteOneVector mAllocator s1 vb colIndex rowIndexes rowNum address
      = WriteOneVector mAllocator s2 vb colIndex rowIndexes rowNum address := by
  unfold WriteOneVector typeIdOf
  rw [h1, h2]

theorem WriteColumns_congr (mAllocator : Nat → Bool) (s1 s2 : OckSplitter)
    (h1 : s1.mIsSinglePt = s2.mIsSinglePt)
    (h2 : s1.mVBColShuffleTypes = s2.mVBColShuffleTypes) (vb : VectorBatch)
    (rowIndexes : List Nat) (rowNum : Nat) :
    ∀ (cols : List Nat) (address : Nat) (cells : List Cell),
      WriteColumns mAllocator s1 vb rowIndexes rowNum cols address cells
        = WriteColumns mAllocator s2 vb rowIndexes rowNum cols address cells := by
  intro cols
  induction cols with
  | nil => intro address cells; simp [WriteColumns]
  | cons c rest ih =>
    intro address cells
    unfold WriteColumns
    simp only [WriteOneVector_congr mAllocator s1 s2 h1 h2, ih]

/-- C2: for a partition region holding `k >= 1` accumulated rows, on a batch
whose written columns have a descriptor and whose variable-width values fit a
signed 32-bit length, `WritePartVectorBatch` returns true and stores one block:
the header cells `length` (the accumulated length of the region) and `rowNum`
(`k`), then, for each batch column in declared order (from column 1 in
multi-partition mode, from column 0 in single-partition mode), the image of the
column. Every image starts with the `k` null-flag bytes of the accumulated rows
in order, and the image of a plain fixed-width column of width `w` is those null
flags followed by the `k` source values at the accumulated rows, each in `w`
bytes, in order. -/
theorem WritePartVectorBatch_layout {σ : Type} (B : OckHashWriteBuffer σ)
    (mAllocator : Nat → Bool) (vb : VectorBatch) (m : Machine σ) (partitionId : Nat)
    (hk : 1 ≤ (m.self.mCacheRegion partitionId).mRowNum)
    (hrows : (m.self.mCacheRegion partitionId).mRowIndexes.length
      = (m.self.mCacheRegion partitionId).mRowNum)
    (htypes : ∀ c ∈ columnsToWrite m.self vb, typeIdOf m.self c ≠ SHUFFLE_NOT_DEFINE)
    (hvar : ∀ c ∈ columnsToWrite m.self vb, ∀ vector, vb.GetVector c = some vector →
      typeIdOf m.self c = SHUFFLE_BINARY →
      ∀ r ∈ (m.self.mCacheRegion partitionId).mRowIndexes,
        (varValue vector r).length ≤ 0x7fffffff) :
    (WritePartVectorBatch B mAllocator vb m partitionId).1 = true
    ∧ (∃ block : Block,
        (WritePartVectorBatch B mAllocator vb m partitionId).2.blob = m.blob ++ [block]
        ∧ block.partitionId = partitionId
        ∧ block.rowIndexes = (m.self.mCacheRegion partitionId).mRowIndexes
        ∧ block.cells
            = [⟨4, (m.self.mCacheRegion partitionId).mLength⟩,
               ⟨4, (m.self.mCacheRegion partitionId).mRowNum⟩]
              ++ ((List.range vb.GetVectorCount).drop (if m.self.mIsSinglePt then 0 else 1)).flatMap
                  (columnImage mAllocator m.self vb
                    (m.self.mCacheRegion partitionId).mRowIndexes
                    (m.self.mCacheRegion partitionId).mRowNum))
    ∧ (∀ c ∈ columnsToWrite m.self vb, ∀ vector, vb.GetVector c = some vector →
        (columnImage mAllocator m.self vb (m.self.mCacheRegion partitionId).mRowIndexes
            (m.self.mCacheRegion partitionId).mRowNum c).take
            (m.self.mCacheRegion partitionId).mRowNum
          = nullCells vector (m.self.mCacheRegion partitionId).mRowIndexes)
    ∧ (∀ c ∈ columnsToWrite m.self vb, ∀ vector w, vb.GetVector c = some vector →
        vector.encoding = Encoding.OMNI_VEC_ENCODING_FLAT →
        fixedWidthOf (typeIdOf m.self c) = some w →
        columnImage mAllocator m.self vb (m.self.mCacheRegion partitionId).mRowIndexes
            (m.self.mCacheRegion partitionId).mRowNum c
          = nullCells vector (m.self.mCacheRegion partitionId).mRowIndexes
            ++ (m.self.mCacheRegion partitionId).mRowIndexes.map
                (fun r => ⟨w, vector.values.getD r 0⟩)) := by
  have hrowsOf : rowsOf (m.self.mCacheRegion partitionId).mRowIndexes
      (m.self.mCacheRegion partitionId).mRowNum
      = (m.self.mCacheRegion partitionId).mRowIndexes := by
    rw [← hrows, rowsOf_self]
  have hne : (m.self.mCacheRegion partitionId).mRowNum ≠ 0 := by omega
  have hcolok : ∀ c ∈ columnsToWrite m.self vb,
      (WriteOneVector mAllocator m.self vb c (m.self.mCacheRegion partitionId).mRowIndexes
        (m.self.mCacheRegion partitionId).mRowNum 0).ok = true := by
    intro c hc
    have hlt : c < vb.vectors.length := by
      have := List.mem_of_mem_drop hc
      simpa [VectorBatch.GetVectorCount] using this
    have hvec : vb.GetVector c = some (vb.vectors[c]) := by
      simp [VectorBatch.GetVector, List.getElem?_eq_getElem hlt]
    exact WriteOneVector_ok mAllocator m.self vb c _ _ 0 _ hvec (htypes c hc)
      (fun ht r hr => hvar c hc _ hvec ht r (by rwa [hrowsOf] at hr))
  have hw := WriteColumns_of_ok mAllocator m.self vb
    (m.self.mCacheRegion partitionId).mRowIndexes (m.self.mCacheRegion partitionId).mRowNum
    (columnsToWrite m.self vb)
    ((B.GetEndAddressOfRegion m.mOckBuffer partitionId
      (m.self.mCacheRegion partitionId).mLength).1 + vbHeaderSize)
    [⟨4, (m.self.mCacheRegion partitionId).mLength⟩,
     ⟨4, (m.self.mCacheRegion partitionId).mRowNum⟩] hcolok
  refine ⟨?_, ?_, ?_, ?_⟩
  · unfold WritePartVectorBatch
    simp only [GetCacheRegion, hne, if_false]
    rw [WriteColumns_congr mAllocator (RecordWriteBytes _ m.self _ _) m.self rfl rfl]
    change (if (WriteColumns mAllocator m.self vb _ _ (columnsToWrite m.self vb) _ _).ok = false
      then _ else _ : Bool × Machine σ).1 = true
    rw [hw.1]
    simp
  · unfold WritePartVectorBatch
    simp only [GetCacheRegion, hne, if_false]
    rw [WriteColumns_congr mAllocator (RecordWriteBytes _ m.self _ _) m.self rfl rfl]
    change ∃ block : Block, (if (WriteColumns mAllocator m.self vb _ _
      (columnsToWrite m.self vb) _ _).ok = false then _ else _ : Bool × Machine σ).2.blob
        = m.blob ++ [block] ∧ _
    rw [hw.1]
    simp only [Bool.true_eq_false, if_false]
    refine ⟨_, rfl, rfl, hrowsOf, ?_⟩
    change (WriteColumns mAllocator m.self vb _ _ (columnsToWrite m.self vb) _ _).cells = _
    rw [hw.2]
    rfl
  · intro c _ vector hvec
    rw [columnImage_nulls mAllocator m.self vb c _ _ vector hvec, hrowsOf]
  · intro c _ vector w hvec hflat hwd
    rw [columnImage_plain_fixed mAllocator m.self vb c _ _ vector w hvec hflat hwd, hrowsOf]

theorem sampleBatch_has_no_variable_column :
    ∀ c ∈ columnsToWrite (Machine.start sampleSplitter ()).self sampleBatch,
      ∀ vector, sampleBatch.GetVector c = some vector →
      typeIdOf (Machine.start sampleSplitter ()).self c = SHUFFLE_BINARY →
      ∀ r ∈ ((Machine.start sampleSplitter ()).self.mCacheRegion 0).mRowIndexes,
        (varValue vector r).length ≤ 0x7fffffff := by
  intro c hc vector _ ht
  have hcols : columnsToWrite (Machine.start sampleSplitter ()).self sampleBatch = [1, 2] := by
    decide
  rw [hcols] at hc
  have hc2 : c = 1 ∨ c = 2 := by simpa using hc
  rcases hc2 with rfl | rfl <;> exact absurd ht (by decide)

/-- Witness of C2: draining region 0 of `sampleSplitter` (rows 0 and 2) on
`sampleBatch`. -/
theorem WritePartVectorBatch_layout_witness :
    (WritePartVectorBatch alwaysEnough (fun _ => true) sampleBatch
        (Machine.start sampleSplitter ()) 0).1 = true
    ∧ (∃ block : Block,
        (WritePartVectorBatch alwaysEnough (fun _ => true) sampleBatch
          (Machine.start sampleSplitter ()) 0).2.blob = [] ++ [block]
        ∧ block.partitionId = 0
        ∧ block.rowIndexes = [0, 2]
        ∧ block.cells
            = [⟨4, 36⟩, ⟨4, 2⟩]
              ++ ((List.range 3).drop 1).flatMap
                  (columnImage (fun _ => true) sampleSplitter sampleBatch [0, 2] 2)) :=
  ⟨(WritePartVectorBatch_layout alwaysEnough (fun _ => true) sampleBatch
      (Machine.start sampleSplitter ()) 0 (by decide) (by decide) (by decide)
      sampleBatch_has_no_variable_column).1,
   (WritePartVectorBatch_layout alwaysEnough (fun _ => true) sampleBatch
      (Machine.start sampleSplitter ()) 0 (by decide) (by decide) (by decide)
      sampleBatch_has_no_variable_column).2.1⟩


/-! ## Allocation failure while a dictionary-encoded column is written -/

theorem WriteFixedWidthValue_ok_whatever_the_writer_returns (mAllocator : Nat → Bool)
    (rowCount : Nat) (vector : Vector) (typeId : ShuffleTypeId) (rowIndexes : List Nat)
    (rowNum address : Nat) (hb : typeId ≠ SHUFFLE_BINARY) (hd : typeId ≠ SHUFFLE_NOT_DEFINE) :
    (WriteFixedWidthValue mAllocator rowCount vector typeId rowIndexes rowNum address).ok
      = true := by
  unfold WriteFixedWidthValue
  cases typeId <;> simp_all

/-- C10, the code at the failing input: with an allocator that returns no
buffer, the typed writers report the failure (`WriteFixedWidthValueTemple` and
`WriteDecimal128` return false) but `WriteFixedWidthValue` returns true for the
4-byte and the decimal128 column, and so do `WriteOneVector`,
`WritePartVectorBatch` and `Split`; the same happens when the dictionary cannot
be extracted. -/
theorem alloc_failure_is_swallowed :
    (WriteFixedWidthValueTemple (fun _ => false) 2 4 (dictColumn [0, 0] [1, 0] [100, 200])
        true [0, 1] 2 10).ok = false
    ∧ (WriteFixedWidthValue (fun _ => false) 2 (dictColumn [0, 0] [1, 0] [100, 200])
        SHUFFLE_4BYTE [0, 1] 2 10).ok = true
    ∧ (WriteDecimal128 (fun _ => false) 2 (dictColumn [0, 0] [1, 0] [1, 2, 3, 4])
        true [0, 1] 2 10).ok = false
    ∧ (WriteFixedWidthValue (fun _ => false) 2 (dictColumn [0, 0] [1, 0] [1, 2, 3, 4])
        SHUFFLE_DECIMAL128 [0, 1] 2 10).ok = true
    ∧ (WriteFixedWidthValueTemple (fun _ => true) 2 4
        { dictColumn [0, 0] [1, 0] [] with dictionary := none } true [0, 1] 2 10).ok = false
    ∧ (WriteFixedWidthValue (fun _ => true) 2
        { dictColumn [0, 0] [1, 0] [] with dictionary := none }
        SHUFFLE_4BYTE [0, 1] 2 10).ok = true
    ∧ (WriteOneVector (fun _ => false) intSplitter (dictBatch [100, 200]) 0 [0, 1] 2 8).ok = true
    ∧ (WritePartVectorBatch alwaysEnough (fun _ => false) (dictBatch [100, 200])
        (Machine.start (UpdateCacheRegion (UpdateCacheRegion intSplitter 0 0 13) 0 1 5) ())
        0).1 = true
    ∧ (Split alwaysEnough (fun _ => false) (dictBatch [100, 200]) 1
        (Machine.start intSplitter ())).map (fun r => r.1) = some true
    ∧ (Split alwaysEnough (fun _ => false) (dictBatch [1, 2, 3, 4]) 1
        (Machine.start decimalSplitter ())).map (fun r => r.1) = some true := by
  decide

/-- C1, the code at the failing input: with an allocator that returns no buffer,
`Split` of a two-row batch with one dictionary-encoded int column returns true
and drains one block whose header length is 18 (8 for the header plus twice the
row length 5) while the write pass advanced the cursor by 10 bytes only (the
header and the two null flags). -/
theorem header_length_differs_from_bytes_written :
    (Split alwaysEnough (fun _ => false) (dictBatch [100, 200]) 1
        (Machine.start intSplitter ())).map
      (fun r => (r.1, r.2.blob.map
        (fun b => (b.ok, b.rowNum, b.length, b.endAddress - b.address, cellBytes b.cells))))
      = some (true, [(true, 2, 18, 10, 10)])
    ∧ intSplitter.mMinDataLenInVB = 8
    ∧ GetRowLengthInBytes intSplitter (dictBatch [100, 200]) 0 = 5
    ∧ GetRowLengthInBytes intSplitter (dictBatch [100, 200]) 1 = 5 := by
  refine ⟨?_, ?_, ?_, ?_⟩ <;> rfl

/-- C3, the code at the failing input: with an allocator that returns no buffer,
two batches whose rows hold different values (200, 100 and 9, 7) are split into
the same blocks, so no reader can give back the rows of both. -/
theorem split_blocks_do_not_determine_rows :
    dictRowValues (dictColumn [0, 0] [1, 0] [100, 200]) 2 = [200, 100]
    ∧ dictRowValues (dictColumn [0, 0] [1, 0] [7, 9]) 2 = [9, 7]
    ∧ (Split alwaysEnough (fun _ => false) (dictBatch [100, 200]) 1
        (Machine.start intSplitter ())).map (fun r => (r.1, r.2.blob))
      = (Split alwaysEnough (fun _ => false) (dictBatch [7, 9]) 1
        (Machine.start intSplitter ())).map (fun r => (r.1, r.2.blob))
    ∧ (Split alwaysEnough (fun _ => false) (dictBatch [100, 200]) 1
        (Machine.start intSplitter ())).map (fun r => (r.1, r.2.blob.map Block.cells))
      = some (true, [[⟨4, 18⟩, ⟨4, 2⟩, ⟨1, 0⟩, ⟨1, 0⟩]])
    ∧ (∀ Merge : Option (Bool × List Block) → List Nat,
        ¬ (Merge ((Split alwaysEnough (fun _ => false) (dictBatch [100, 200]) 1
              (Machine.start intSplitter ())).map (fun r => (r.1, r.2.blob)))
            = dictRowValues (dictColumn [0, 0] [1, 0] [100, 200]) 2
          ∧ Merge ((Split alwaysEnough (fun _ => false) (dictBatch [7, 9]) 1
              (Machine.start intSplitter ())).map (fun r => (r.1, r.2.blob)))
            = dictRowValues (dictColumn [0, 0] [1, 0] [7, 9]) 2)) := by
  have h : (Split alwaysEnough (fun _ => false) (dictBatch [100, 200]) 1
        (Machine.start intSplitter ())).map (fun r => (r.1, r.2.blob))
      = (Split alwaysEnough (fun _ => false) (dictBatch [7, 9]) 1
        (Machine.start intSplitter ())).map (fun r => (r.1, r.2.blob)) := by rfl
  refine ⟨by decide, by decide, h, by rfl, ?_⟩
  intro Merge hm
  rw [h] at hm
  have h2 : dictRowValues (dictColumn [0, 0] [1, 0] [100, 200]) 2
      = dictRowValues (dictColumn [0, 0] [1, 0] [7, 9]) 2 := hm.1.symm.trans hm.2
  exact absurd h2 (by decide)

/-! ## Row conservation across `Split` -/

theorem drainedRows_nil (q : Nat) : drainedRows [] q = [] := by
  simp [drainedRows]

theorem drainedRows_append (a b : List Block) (q : Nat) :
    drainedRows (a ++ b) q = drainedRows a q ++ drainedRows b q := by
  simp [drainedRows, List.filter_append, List.flatMap_append]

theorem Progress_same {σ : Type} (m m1 : Machine σ) (hself : m1.self = m.self)
    (hblob : m1.blob = m.blob) (hwf : RegionsWF m) : Progress m m1 (fun _ => []) := by
  refine ⟨by rw [hself], by rw [hself], ?_, [], by simp [hblob], by simp, ?_⟩
  · unfold RegionsWF
    rw [hself]
    exact hwf
  · intro q
    simp [drainedRows_nil, pending, hself]

theorem Progress_trans {σ : Type} (m m1 m2 : Machine σ) (a1 a2 : Nat → List Nat)
    (h1 : Progress m m1 a1) (h2 : Progress m1 m2 a2) :
    Progress m m2 (fun q => a1 q ++ a2 q) := by
  obtain ⟨hs1, hp1, _, nb1, hb1, hok1, hr1⟩ := h1
  obtain ⟨hs2, hp2, hwf2, nb2, hb2, hok2, hr2⟩ := h2
  refine ⟨hs2.trans hs1, hp2.trans hp1, hwf2, nb1 ++ nb2, ?_, ?_, ?_⟩
  · rw [hb2, hb1, List.append_assoc]
  · intro b hb
    rcases List.mem_append.mp hb with h | h
    · exact hok1 b h
    · exact hok2 b h
  · intro q
    rw [drainedRows_append, List.append_assoc, hr2 q, ← List.append_assoc, hr1 q,
      List.append_assoc]

theorem Progress_congr {σ : Type} (m m1 : Machine σ) (a a2 : Nat → List Nat)
    (h : Progress m m1 a) (ha : ∀ q, a q = a2 q) : Progress m m1 a2 := by
  have : a = a2 := funext ha
  rw [← this]
  exact h

theorem Progress_pending_nil {σ : Type} (m m1 : Machine σ) (h : Progress m m1 (fun _ => []))
    (q : Nat) (hq : pending m q = []) : pending m1 q = [] := by
  obtain ⟨_, _, _, nb, _, _, hr⟩ := h
  have := hr q
  rw [hq] at this
  simp at this
  exact this.2

theorem WritePartVectorBatch_progress {σ : Type} (B : OckHashWriteBuffer σ)
    (mAllocator : Nat → Bool) (vb : VectorBatch) (m m1 : Machine σ) (p : Nat)
    (hwf : RegionsWF m)
    (h : WritePartVectorBatch B mAllocator vb m p = (true, m1)) :
    Progress m m1 (fun _ => []) ∧ pending m1 p = [] := by
  unfold WritePartVectorBatch at h
  simp only [GetCacheRegion] at h
  by_cases h0 : (m.self.mCacheRegion p).mRowNum = 0
  · simp only [h0, if_true, Prod.mk.injEq, true_and] at h
    subst h
    have hp : pending m p = [] := by
      have := hwf.1 p
      rw [h0] at this
      exact List.length_eq_zero.mp this.symm
    exact ⟨Progress_same m m rfl rfl hwf, hp⟩
  · simp only [h0, if_false] at h
    split at h
    · simp at h
    · simp only [Prod.mk.injEq, true_and] at h
      subst h
      have hrows : rowsOf (m.self.mCacheRegion p).mRowIndexes (m.self.mCacheRegion p).mRowNum
          = (m.self.mCacheRegion p).mRowIndexes := by
        rw [hwf.1 p, rowsOf_self]
      refine ⟨⟨rfl, rfl, ⟨?_, ?_⟩, _, rfl, ?_, ?_⟩, ?_⟩
      · intro q
        by_cases hq : q = p
        · subst hq; simp [ResetCacheRegion, VBRegion.empty]
        · simpa [ResetCacheRegion, RecordWriteBytes, Function.update_noteq hq] using hwf.1 q
      · intro q hq
        by_cases hqp : q = p
        · subst hqp; simp [ResetCacheRegion, VBRegion.empty]
        · simpa [ResetCacheRegion, RecordWriteBytes, Function.update_noteq hqp] using hwf.2 q hq
      · intro b hb
        simp only [List.mem_singleton] at hb
        subst hb
        simp_all
      · intro q
        by_cases hq : q = p
        · subst hq
          simp [drainedRows, pending, ResetCacheRegion, VBRegion.empty, hrows]
        · have hne : ¬ p = q := fun h => hq h.symm
          simp [drainedRows, pending, ResetCacheRegion, RecordWriteBytes,
            Function.update_noteq hq, hne]
      · simp [pending, ResetCacheRegion, VBRegion.empty]

theorem DrainPartitions_progress {σ : Type} (B : OckHashWriteBuffer σ)
    (mAllocator : Nat → Bool) (vb : VectorBatch) :
    ∀ (ps : List Nat) (m m1 : Machine σ), RegionsWF m →
      DrainPartitions B mAllocator vb ps m = (true, m1) →
      Progress m m1 (fun _ => []) ∧ ∀ p ∈ ps, pending m1 p = [] := by
  intro ps
  induction ps with
  | nil =>
    intro m m1 hwf h
    simp only [DrainPartitions, Prod.mk.injEq, true_and] at h
    subst h
    exact ⟨Progress_same m m rfl rfl hwf, by simp⟩
  | cons p rest ih =>
    intro m m1 hwf h
    unfold DrainPartitions at h
    by_cases h0 : (m.self.mCacheRegion p).mRowNum = 0
    · simp only [h0, if_true] at h
      obtain ⟨hprog, hrest⟩ := ih m m1 hwf h
      have hp : pending m p = [] := by
        have := hwf.1 p
        rw [h0] at this
        exact List.length_eq_zero.mp this.symm
      refine ⟨hprog, ?_⟩
      intro q hq
      rcases List.mem_cons.mp hq with rfl | hq
      · exact Progress_pending_nil m m1 hprog _ hp
      · exact hrest q hq
    · simp only [h0, if_false] at h
      rcases hw : WritePartVectorBatch B mAllocator vb m p with ⟨b, m2⟩
      rw [hw] at h
      cases b
      · simp at h
      · simp only at h
        obtain ⟨hprog1, hp1⟩ := WritePartVectorBatch_progress B mAllocator vb m m2 p hwf hw
        obtain ⟨hprog2, hrest⟩ := ih m2 m1 hprog1.2.2.1 h
        refine ⟨Progress_congr _ _ _ _ (Progress_trans m m2 m1 _ _ hprog1 hprog2) (by simp), ?_⟩
        intro q hq
        rcases List.mem_cons.mp hq with rfl | hq
        · exact Progress_pending_nil m2 m1 hprog2 _ hp1
        · exact hrest q hq

theorem FlushAllRegionAndGetNewBlob_progress {σ : Type} (B : OckHashWriteBuffer σ)
    (mAllocator : Nat → Bool) (vb : VectorBatch) (m m1 : Machine σ) (hwf : RegionsWF m)
    (h : FlushAllRegionAndGetNewBlob B mAllocator vb m = (true, m1)) :
    Progress m m1 (fun _ => []) ∧ ∀ q, pending m1 q = [] := by
  unfold FlushAllRegionAndGetNewBlob at h
  rcases hd : DrainPartitions B mAllocator vb (List.range m.self.mPartitionNum) m with ⟨b, m2⟩
  rw [hd] at h
  cases b
  · simp at h
  · obtain ⟨hprog, hdr⟩ := DrainPartitions_progress B mAllocator vb _ m m2 hwf hd
    have hall : ∀ q, pending m2 q = [] := by
      intro q
      by_cases hq : q < m.self.mPartitionNum
      · exact hdr q (List.mem_range.mpr hq)
      · have : m2.self.mPartitionNum ≤ q := by rw [hprog.2.1]; omega
        exact hprog.2.2.1.2 q this
    simp only at h
    have key : ∀ (s3 : OckSplitter) (buf : σ),
        s3.mIsSinglePt = m2.self.mIsSinglePt → s3.mPartitionNum = m2.self.mPartitionNum →
        s3.mCacheRegion = (fun _ => VBRegion.empty) →
        Progress m2 { m2 with self := s3, mOckBuffer := buf } (fun _ => [])
        ∧ ∀ q, pending { m2 with self := s3, mOckBuffer := buf } q = [] := by
      intro s3 buf h1 h2 h3
      refine ⟨⟨h1, h2, ⟨?_, ?_⟩, [], by simp, by simp, ?_⟩, ?_⟩
      · intro q; simp [h3, VBRegion.empty]
      · intro q _; simp [h3, VBRegion.empty]
      · intro q; simp [drainedRows_nil, pending, h3, VBRegion.empty, hall q] 
        have := hall q
        simpa [pending] using this
      · intro q; simp [pending, h3, VBRegion.empty]
    split at h
    · simp at h
    · split at h
      · simp at h
      · simp only [Prod.mk.injEq, true_and] at h
        subst h
        rename_i hflush _
        split
        · obtain ⟨hp, hn⟩ := key { ResetCacheRegionAll m2.self with
            mTotalWriteBytes := (ResetCacheRegionAll m2.self).mTotalWriteBytes
              + (B.Flush m2.mOckBuffer false).2.1 }
            (B.GetNewBuffer (B.Flush m2.mOckBuffer false).2.2).2 rfl rfl rfl
          exact ⟨Progress_congr _ _ _ _ (Progress_trans m m2 _ _ _ hprog hp) (by simp), hn⟩
        · obtain ⟨hp, hn⟩ := key (ResetCacheRegionAll m2.self)
            (B.GetNewBuffer (B.Flush m2.mOckBuffer false).2.2).2 rfl rfl rfl
          exact ⟨Progress_congr _ _ _ _ (Progress_trans m m2 _ _ _ hprog hp) (by simp), hn⟩

theorem Progress_buffer {σ : Type} (m : Machine σ) (buf : σ) (hwf : RegionsWF m) :
    Progress m { m with mOckBuffer := buf } (fun _ => []) :=
  Progress_same m { m with mOckBuffer := buf } rfl rfl hwf

theorem UpdateCacheRegion_progress {σ : Type} (m : Machine σ) (buf : σ)
    (p rowIndex length : Nat) (hwf : RegionsWF m) (hp : p < m.self.mPartitionNum) :
    Progress m { m with self := UpdateCacheRegion m.self p rowIndex length, mOckBuffer := buf }
      (fun q => if q = p then [rowIndex] else []) := by
  refine ⟨rfl, rfl, ⟨?_, ?_⟩, [], by simp, by simp, ?_⟩
  · intro q
    by_cases hq : q = p
    · subst hq; simp [UpdateCacheRegion, hwf.1 q]
    · simpa [UpdateCacheRegion, Function.update_noteq hq] using hwf.1 q
  · intro q hq
    have hqp : q ≠ p := by
      intro h
      subst h
      exact absurd hp (by simp only [UpdateCacheRegion] at hq; omega)
    simpa [UpdateCacheRegion, Function.update_noteq hqp] using hwf.2 q hq
  · intro q
    by_cases hq : q = p
    · subst hq; simp [drainedRows_nil, pending, UpdateCacheRegion]
    · simp [drainedRows_nil, pending, UpdateCacheRegion, Function.update_noteq hq, hq]

theorem PreoccupiedBufferSpace_progress {σ : Type} (B : OckHashWriteBuffer σ)
    (mAllocator : Nat → Bool) (vb : VectorBatch) (p rowIndex rowLength : Nat) :
    ∀ (fuel : Nat) (m m1 : Machine σ) (newRegion : Bool), RegionsWF m →
      p < m.self.mPartitionNum →
      PreoccupiedBufferSpace B mAllocator vb fuel m p rowIndex rowLength newRegion
        = some (true, m1) →
      Progress m m1 (fun q => if q = p then [rowIndex] else []) := by
  intro fuel
  induction fuel with
  | zero => intro m m1 newRegion _ _ h; simp [PreoccupiedBufferSpace] at h
  | succ fuel ih =>
    intro m m1 newRegion hwf hp h
    unfold PreoccupiedBufferSpace at h
    simp only at h
    generalize (if (m.self.mCacheRegion p).mRowNum = 0 then
      (rowLength + m.self.mMinDataLenInVB) % u32 else rowLength) = preoccupiedSize at h
    rcases hb : B.PreoccupiedDataSpace m.mOckBuffer p preoccupiedSize newRegion with ⟨flag, buf1⟩
    rw [hb] at h
    cases flag
    · simp only [Option.some.injEq, Prod.mk.injEq, true_and] at h
      subst h
      exact UpdateCacheRegion_progress m buf1 p rowIndex preoccupiedSize hwf hp
    · simp only at h
      rcases hw : WritePartVectorBatch B mAllocator vb { m with mOckBuffer := buf1 } p
        with ⟨b, m2⟩
      rw [hw] at h
      cases b
      · simp at h
      · simp only at h
        have h0 := Progress_buffer m buf1 hwf
        obtain ⟨h1, _⟩ := WritePartVectorBatch_progress B mAllocator vb _ m2 p h0.2.2.1 hw
        have hp2 : p < m2.self.mPartitionNum := by rw [h1.2.1]; exact hp
        have h2 := ih m2 m1 true h1.2.2.1 hp2 h
        exact Progress_congr _ _ _ _
          (Progress_trans m _ m1 _ _ h0 (Progress_trans _ m2 m1 _ _ h1 h2)) (by simp)
    · simp only at h
      rcases hw : FlushAllRegionAndGetNewBlob B mAllocator vb { m with mOckBuffer := buf1 }
        with ⟨b, m2⟩
      rw [hw] at h
      cases b
      · simp at h
      · simp only at h
        have h0 := Progress_buffer m buf1 hwf
        obtain ⟨h1, _⟩ := FlushAllRegionAndGetNewBlob_progress B mAllocator vb _ m2 h0.2.2.1 hw
        have hp2 : p < m2.self.mPartitionNum := by rw [h1.2.1]; exact hp
        have h2 := ih m2 m1 false h1.2.2.1 hp2 h
        exact Progress_congr _ _ _ _
          (Progress_trans m _ m1 _ _ h0 (Progress_trans _ m2 m1 _ _ h1 h2)) (by simp)
    · simp at h

theorem GetPartitionIdOfRow_congr (s1 s2 : OckSplitter) (h : s1.mIsSinglePt = s2.mIsSinglePt)
    (vb : VectorBatch) (rowIndex : Nat) :
    GetPartitionIdOfRow s1 vb rowIndex = GetPartitionIdOfRow s2 vb rowIndex := by
  unfold GetPartitionIdOfRow
  rw [h]

theorem SplitRows_progress {σ : Type} (B : OckHashWriteBuffer σ)
    (mAllocator : Nat → Bool) (vb : VectorBatch) (fuel : Nat) :
    ∀ (rows : List Nat) (m m1 : Machine σ), RegionsWF m →
      (∀ r ∈ rows, GetPartitionIdOfRow m.self vb r < m.self.mPartitionNum) →
      SplitRows B mAllocator vb fuel rows m = some (true, m1) →
      Progress m m1
        (fun q => rows.filter (fun r => decide (GetPartitionIdOfRow m.self vb r = q))) := by
  intro rows
  induction rows with
  | nil =>
    intro m m1 hwf _ h
    simp only [SplitRows, Option.some.injEq, Prod.mk.injEq, true_and] at h
    subst h
    exact Progress_same m m rfl rfl hwf
  | cons r rest ih =>
    intro m m1 hwf hpid h
    unfold SplitRows at h
    simp only at h
    rcases hpre : PreoccupiedBufferSpace B mAllocator vb fuel m (GetPartitionIdOfRow m.self vb r)
      r (GetRowLengthInBytes m.self vb r) false with _ | ⟨b, m2⟩
    · rw [hpre] at h; simp at h
    · rw [hpre] at h
      cases b
      · simp at h
      · simp only at h
        have h1 := PreoccupiedBufferSpace_progress B mAllocator vb _ r _ fuel m m2 false hwf
          (hpid r (by simp)) hpre
        have hsame : ∀ x, GetPartitionIdOfRow m2.self vb x = GetPartitionIdOfRow m.self vb x :=
          fun x => GetPartitionIdOfRow_congr _ _ h1.1 vb x
        have hpid2 : ∀ x ∈ rest, GetPartitionIdOfRow m2.self vb x < m2.self.mPartitionNum := by
          intro x hx
          rw [hsame x, h1.2.1]
          exact hpid x (by simp [hx])
        have h2 := ih m2 m1 h1.2.2.1 hpid2 h
        refine Progress_congr _ _ _ _ (Progress_trans m m2 m1 _ _ h1 h2) ?_
        intro q
        simp only [hsame, List.filter_cons]
        by_cases hq : GetPartitionIdOfRow m.self vb r = q
        · simp [hq]
        · have hq2 : ¬ q = GetPartitionIdOfRow m.self vb r := fun h => hq h.symm
          simp [hq, hq2]

theorem count_flatMap_rowIndexes (r p : Nat) :
    ∀ (bs : List Block), (∀ b ∈ bs, r ∈ b.rowIndexes → b.partitionId = p) →
      (bs.flatMap Block.rowIndexes).count r = (drainedRows bs p).count r := by
  intro bs
  induction bs with
  | nil => intro _; simp [drainedRows]
  | cons b rest ih =>
    intro hall
    have hrest := ih (fun b2 hb2 => hall b2 (by simp [hb2]))
    have hcons : drainedRows (b :: rest) p
        = (if b.partitionId = p then b.rowIndexes else []) ++ drainedRows rest p := by
      unfold drainedRows
      by_cases hb : b.partitionId = p <;> simp [List.filter_cons, hb]
    rw [hcons, List.flatMap_cons, List.count_append, List.count_append, hrest]
    by_cases hb : b.partitionId = p
    · simp [hb]
    · have hnot : r ∉ b.rowIndexes := fun hr => hb (hall b (by simp) hr)
      simp [hb, List.count_eq_zero_of_not_mem hnot]

theorem mem_drainedRows (bs : List Block) (b : Block) (r : Nat) (hb : b ∈ bs)
    (hr : r ∈ b.rowIndexes) : r ∈ drainedRows bs b.partitionId := by
  unfold drainedRows
  simp only [List.mem_flatMap, List.mem_filter, decide_eq_true_eq]
  exact ⟨b, ⟨hb, rfl⟩, hr⟩

/-- C4: whenever `Split` returns true on a batch whose partition ids are below
the partition count, whatever the buffer answered, no row is lost or duplicated:
the blocks drained by the call are all complete, every row index below the row
count occurs exactly once in them, a block holds only rows of its own partition
id (0 in single-partition mode, otherwise the value of the partition-id column),
the row indexes one partition drained, block after block, are exactly the rows of
that partition in increasing source order, and every region is empty at the
end. -/
theorem Split_conserves_rows {σ : Type} (B : OckHashWriteBuffer σ) (mAllocator : Nat → Bool)
    (vb : VectorBatch) (fuel : Nat) (m : Machine σ)
    (hpid : ∀ r, r < vb.rowCount → GetPartitionIdOfRow m.self vb r < m.self.mPartitionNum)
    (hret : (Split B mAllocator vb fuel m).map (fun r => r.1) = some true) :
    ∃ (m1 : Machine σ) (nb : List Block),
      Split B mAllocator vb fuel m = some (true, m1)
      ∧ m1.blob = m.blob ++ nb
      ∧ (∀ b ∈ nb, b.ok = true ∧ ∀ r ∈ b.rowIndexes,
          r < vb.rowCount ∧ GetPartitionIdOfRow m.self vb r = b.partitionId)
      ∧ (∀ r, r < vb.rowCount → (nb.flatMap Block.rowIndexes).count r = 1)
      ∧ (∀ q, (nb.filter (fun b => decide (b.partitionId = q))).flatMap Block.rowIndexes
          = (List.range vb.rowCount).filter
              (fun r => decide (GetPartitionIdOfRow m.self vb r = q)))
      ∧ (∀ q, (m1.self.mCacheRegion q).mRowNum = 0
          ∧ (m1.self.mCacheRegion q).mRowIndexes = []) := by
  rcases hs : Split B mAllocator vb fuel m with _ | ⟨b, m1⟩
  · rw [hs] at hret; simp at hret
  rw [hs] at hret
  simp only [Option.map_some', Option.some.injEq] at hret
  subst hret
  have hwf0 : RegionsWF { m with self := ResetCacheRegionAll m.self } :=
    ⟨fun q => by simp [ResetCacheRegionAll, VBRegion.empty],
     fun q _ => by simp [ResetCacheRegionAll, VBRegion.empty]⟩
  unfold Split at hs
  simp only at hs
  rcases hrows : SplitRows B mAllocator vb fuel (List.range vb.rowCount)
    { m with self := ResetCacheRegionAll m.self } with _ | ⟨b, m2⟩
  · rw [hrows] at hs; simp at hs
  rw [hrows] at hs
  cases b
  · simp at hs
  simp only [Option.some.injEq] at hs
  have h1 := SplitRows_progress B mAllocator vb fuel (List.range vb.rowCount) _ m2 hwf0
    (fun r hr => hpid r (List.mem_range.mp hr)) hrows
  obtain ⟨h2, hdr⟩ := DrainPartitions_progress B mAllocator vb _ m2 m1 h1.2.2.1 hs
  have hall : ∀ q, pending m1 q = [] := by
    intro q
    by_cases hq : q < m2.self.mPartitionNum
    · exact hdr q (List.mem_range.mpr hq)
    · have : m1.self.mPartitionNum ≤ q := by rw [h2.2.1]; omega
      exact h2.2.2.1.2 q this
  obtain ⟨_, _, hwf1, nb, hblob, hok, hrel⟩ := Progress_trans _ m2 m1 _ _ h1 h2
  have hdrained : ∀ q, drainedRows nb q = (List.range vb.rowCount).filter
      (fun r => decide (GetPartitionIdOfRow m.self vb r = q)) := by
    intro q
    have := hrel q
    rw [hall q] at this
    simpa [pending, ResetCacheRegionAll, VBRegion.empty, GetPartitionIdOfRow] using this
  have hmem : ∀ b ∈ nb, ∀ r ∈ b.rowIndexes,
      r < vb.rowCount ∧ GetPartitionIdOfRow m.self vb r = b.partitionId := by
    intro b hb r hr
    have := mem_drainedRows nb b r hb hr
    rw [hdrained] at this
    simpa using this
  refine ⟨m1, nb, rfl, hblob, fun b hb => ⟨hok b hb, hmem b hb⟩, ?_, hdrained, ?_⟩
  · intro r hr
    rw [count_flatMap_rowIndexes r (GetPartitionIdOfRow m.self vb r) nb
      (fun b hb hrb => ((hmem b hb r hrb).2).symm), hdrained]
    apply List.count_eq_one_of_mem
    · exact (List.nodup_range _).filter _
    · simp [hr]
  · intro q
    have hq := hall q
    unfold pending at hq
    exact ⟨by rw [hwf1.1 q, hq]; rfl, hq⟩

/-- Witness of C4: `mixedBatch` split while the buffer answers `ENOUGH`,
`NEW_REGION`, `LACK` and then `ENOUGH` to every reservation. -/
theorem Split_conserves_rows_witness :
    ∃ (m1 : Machine (List ResultFlag)) (nb : List Block),
      Split (scripted false) (fun _ => true) mixedBatch 3
        (Machine.start mixedSplitter [ENOUGH, NEW_REGION, LACK]) = some (true, m1)
      ∧ m1.blob = [] ++ nb
      ∧ (∀ b ∈ nb, b.ok = true ∧ ∀ r ∈ b.rowIndexes,
          r < 4 ∧ GetPartitionIdOfRow mixedSplitter mixedBatch r = b.partitionId)
      ∧ (∀ r, r < 4 → (nb.flatMap Block.rowIndexes).count r = 1)
      ∧ (∀ q, (nb.filter (fun b => decide (b.partitionId = q))).flatMap Block.rowIndexes
          = (List.range 4).filter
              (fun r => decide (GetPartitionIdOfRow mixedSplitter mixedBatch r = q)))
      ∧ (∀ q, (m1.self.mCacheRegion q).mRowNum = 0
          ∧ (m1.self.mCacheRegion q).mRowIndexes = []) :=
  Split_conserves_rows (scripted false) (fun _ => true) mixedBatch 3
    (Machine.start mixedSplitter [ENOUGH, NEW_REGION, LACK]) (by decide) (by decide)

/-! ## The length invariant when no dictionary read fails -/

theorem WriteFixedWidthValue_address (mAllocator : Nat → Bool) (rowCount : Nat)
    (vector : Vector) (typeId : ShuffleTypeId) (rowIndexes : List Nat) (rowNum address : Nat)
    (hb : typeId ≠ SHUFFLE_BINARY)
    (hread : vector.encoding = Encoding.OMNI_VEC_ENCODING_DICTIONARY →
      mAllocator (rowCount * 4) = true ∧ vector.dictionary.isSome = true) :
    (WriteFixedWidthValue mAllocator rowCount vector typeId rowIndexes rowNum address).address
      = address + costOf typeId * rowNum := by
  unfold WriteFixedWidthValue
  by_cases hd : vector.encoding = Encoding.OMNI_VEC_ENCODING_DICTIONARY
  · obtain ⟨ha, hdict⟩ := hread hd
    obtain ⟨dv, hdv⟩ := Option.isSome_iff_exists.mp hdict
    cases typeId <;> simp_all [WriteFixedWidthValueTemple, WriteDecimal128, costOf]
    all_goals omega
  · cases typeId <;> simp_all [WriteFixedWidthValueTemple, WriteDecimal128, costOf]
    all_goals omega

theorem WriteOneVector_address (mAllocator : Nat → Bool) (s : OckSplitter) (vb : VectorBatch)
    (colIndex : Nat) (rowIndexes : List Nat) (rowNum address : Nat) (vector : Vector)
    (hvec : vb.GetVector colIndex = some vector)
    (hread : vector.encoding = Encoding.OMNI_VEC_ENCODING_DICTIONARY →
      mAllocator (vb.rowCount * 4) = true ∧ vector.dictionary.isSome = true)
    (hvar : typeIdOf s colIndex = SHUFFLE_BINARY →
      ∀ r ∈ rowsOf rowIndexes rowNum, (varValue vector r).length ≤ 0x7fffffff) :
    (WriteOneVector mAllocator s vb colIndex rowIndexes rowNum address).address
      = address + columnBytes s vb (rowsOf rowIndexes rowNum) colIndex := by
  unfold WriteOneVector columnBytes
  simp only [hvec, WriteNullValues, Bool.true_eq_false, if_false, rowsOf_length]
  by_cases ht : typeIdOf s colIndex = SHUFFLE_BINARY
  · simp only [ht, if_true]
    unfold WriteVariableWidthValue
    simp only [WriteVariableWidthValueLoop_eq vector _ [] [] _ (hvar ht)]
    have hl : (rowsOf rowIndexes rowNum).map (fun r => varLen vb colIndex r)
        = (rowsOf rowIndexes rowNum).map (fun r => (varValue vector r).length) := by
      simp [varLen, hvec]
    rw [hl]
    omega
  · simp only [ht, if_false]
    rw [WriteFixedWidthValue_address mAllocator vb.rowCount vector _ rowIndexes rowNum _ ht
      hread]
    omega

theorem WriteColumns_address (mAllocator : Nat → Bool) (s : OckSplitter) (vb : VectorBatch)
    (rowIndexes : List Nat) (rowNum : Nat)
    (hread : DictionariesReadable mAllocator vb) :
    ∀ (cols : List Nat) (address : Nat) (cells : List Cell),
      (∀ c ∈ cols, c < vb.vectors.length) →
      (∀ c ∈ cols, ∀ vector, vb.GetVector c = some vector →
        typeIdOf s c = SHUFFLE_BINARY →
        ∀ r ∈ rowsOf rowIndexes rowNum, (varValue vector r).length ≤ 0x7fffffff) →
      (∀ c ∈ cols, (WriteOneVector mAllocator s vb c rowIndexes rowNum 0).ok = true) →
      (WriteColumns mAllocator s vb rowIndexes rowNum cols address cells).address
        = address + (cols.map (columnBytes s vb (rowsOf rowIndexes rowNum))).sum := by
  intro cols
  induction cols with
  | nil => intro address cells _ _ _; simp [WriteColumns]
  | cons c rest ih =>
    intro address cells hlt hvar hok
    have hc : c < vb.vectors.length := hlt c (by simp)
    have hvec : vb.GetVector c = some (vb.vectors[c]) := by
      simp [VectorBatch.GetVector, List.getElem?_eq_getElem hc]
    have hcok : (WriteOneVector mAllocator s vb c rowIndexes rowNum address).ok = true := by
      rw [(WriteOneVector_address_free mAllocator s vb c rowIndexes rowNum address).2]
      exact hok c (by simp)
    unfold WriteColumns
    simp only [hcok, Bool.true_eq_false, if_false]
    rw [ih _ _ (fun k hk => hlt k (by simp [hk])) (fun k hk => hvar k (by simp [hk]))
      (fun k hk => hok k (by simp [hk])),
      WriteOneVector_address mAllocator s vb c rowIndexes rowNum address _ hvec
        (hread _ (List.getElem_mem hc)) (hvar c (by simp) _ hvec)]
    simp only [List.map_cons, List.sum_cons]
    omega

theorem foldl_add_mod (f : Nat → Nat) :
    ∀ (l : List Nat) (init : Nat), init + (l.map f).sum < u32 →
      l.foldl (fun acc j => (acc + f j % u32) % u32) init = init + (l.map f).sum := by
  intro l
  induction l with
  | nil => intro init _; simp
  | cons a rest ih =>
    intro init h
    simp only [List.map_cons, List.sum_cons] at h
    have h1 : f a % u32 = f a := Nat.mod_eq_of_lt (by omega)
    have h2 : (init + f a) % u32 = init + f a := Nat.mod_eq_of_lt (by omega)
    simp only [List.foldl_cons, List.map_cons, List.sum_cons, h1, h2]
    rw [ih (init + f a) (by omega)]
    omega

theorem GetVarVecValue_eq (s : OckSplitter) (vb : VectorBatch) (rowIndex colIndex : Nat) :
    GetVarVecValue s vb rowIndex colIndex
      = varLen vb (colIndex + viewOffset s) rowIndex % u32 := by
  unfold GetVarVecValue varLen viewOffset
  by_cases hs : s.mIsSinglePt = true
  · simp only [hs, if_true, Nat.add_zero]
    cases h : vb.GetVector colIndex with
    | none => simp
    | some v =>
      by_cases hd : v.encoding = Encoding.OMNI_VEC_ENCODING_DICTIONARY <;> simp [hd, varValue]
  · simp only [hs, if_false]
    cases h : vb.GetVector (colIndex + 1) with
    | none => simp [h]
    | some v =>
      by_cases hd : v.encoding = Encoding.OMNI_VEC_ENCODING_DICTIONARY <;>
        simp [h, hd, varValue]

theorem GetRowLengthInBytes_eq (s : OckSplitter) (vb : VectorBatch) (rowIndex : Nat)
    (hfit : s.mMinDataLenInVBByRow
      + (s.mColIndexOfVarVec.map (fun j => varLen vb (j + viewOffset s) rowIndex)).sum < u32) :
    GetRowLengthInBytes s vb rowIndex
      = s.mMinDataLenInVBByRow
        + (s.mColIndexOfVarVec.map (fun j => varLen vb (j + viewOffset s) rowIndex)).sum := by
  unfold GetRowLengthInBytes
  simp only [GetVarVecValue_eq]
  exact foldl_add_mod (fun j => varLen vb (j + viewOffset s) rowIndex) _ _ hfit

theorem sum_swap (f : Nat → Nat → Nat) (rows : List Nat) :
    ∀ (l : List Nat),
      (l.map (fun j => (rows.map (fun r => f j r)).sum)).sum
        = (rows.map (fun r => (l.map (fun j => f j r)).sum)).sum := by
  intro l
  induction l with
  | nil => simp
  | cons j rest ih =>
    simp only [List.map_cons, List.sum_cons, ih, List.sum_map_add]

theorem column_sum (k : Nat) (ty : Nat → ShuffleTypeId) (L : Nat → Nat) :
    ∀ (idxs : List Nat),
      (idxs.map (fun j => k + (if ty j = SHUFFLE_BINARY then 4 * (k + 1) + L j
          else costOf (ty j) * k))).sum
        = k * idxs.length + k * (idxs.map (fun j => costOf (ty j))).sum
          + 4 * (idxs.filter (fun j => decide (ty j = SHUFFLE_BINARY))).length
          + ((idxs.filter (fun j => decide (ty j = SHUFFLE_BINARY))).map L).sum := by
  intro idxs
  induction idxs with
  | nil => simp
  | cons j rest ih =>
    simp only [List.map_cons, List.sum_cons, List.length_cons, List.filter_cons, ih]
    by_cases hj : ty j = SHUFFLE_BINARY
    · simp only [hj, if_true, decide_True, List.length_cons, List.map_cons, List.sum_cons,
        costOf]
      ring
    · simp only [hj, if_false, decide_False]
      simp only [Bool.false_eq_true, if_false]
      ring

theorem range_drop_eq_map (n off : Nat) :
    (List.range (n + off)).drop off = (List.range n).map (fun j => j + off) := by
  apply List.ext_getElem
  · simp
  · intro i h1 h2
    simp [Nat.add_comm]

theorem range_map_getD (T : List ShuffleTypeId) :
    (List.range T.length).map (fun j => T.getD j SHUFFLE_NOT_DEFINE) = T := by
  apply List.ext_getElem
  · simp
  · intro i h1 h2
    simp [List.getD_eq_getElem?_getD, List.getElem?_eq_getElem h2]

theorem typeIdOf_add_viewOffset (s : OckSplitter) (j : Nat) :
    typeIdOf s (j + viewOffset s) = s.mVBColShuffleTypes.getD j SHUFFLE_NOT_DEFINE := by
  unfold typeIdOf viewOffset
  by_cases hs : s.mIsSinglePt = true <;> simp [hs]

theorem columnsToWrite_eq (s : OckSplitter) (vb : VectorBatch)
    (hcount : vb.vectors.length = s.mVBColShuffleTypes.length + viewOffset s) :
    columnsToWrite s vb
      = (List.range s.mVBColShuffleTypes.length).map (fun j => j + viewOffset s) := by
  unfold columnsToWrite VectorBatch.GetVectorCount
  rw [hcount]
  exact range_drop_eq_map _ _

theorem sum_map_const_add (a : Nat) (g : Nat → Nat) (rows : List Nat) :
    (rows.map (fun r => a + g r)).sum = rows.length * a + (rows.map g).sum := by
  induction rows with
  | nil => simp
  | cons r rest ih =>
    simp only [List.map_cons, List.sum_cons, List.length_cons, ih]
    ring

theorem columns_sum_eq_reserved (s : OckSplitter) (vb : VectorBatch) (rows : List Nat)
    (hschema : SchemaConsistent s)
    (hcount : vb.vectors.length = s.mVBColShuffleTypes.length + viewOffset s)
    (hrowfit : ∀ r ∈ rows, s.mMinDataLenInVBByRow
      + (s.mColIndexOfVarVec.map (fun j => varLen vb (j + viewOffset s) r)).sum < u32) :
    vbHeaderSize + ((columnsToWrite s vb).map (columnBytes s vb rows)).sum
      = s.mMinDataLenInVB + (rows.map (GetRowLengthInBytes s vb)).sum := by
  obtain ⟨hT, hV, hH, _⟩ := hschema
  have hrow : rows.map (GetRowLengthInBytes s vb)
      = rows.map (fun r => s.mMinDataLenInVBByRow
          + (s.mColIndexOfVarVec.map (fun j => varLen vb (j + viewOffset s) r)).sum) := by
    apply List.map_congr_left
    intro r hr
    exact GetRowLengthInBytes_eq s vb r (hrowfit r hr)
  rw [hrow, sum_map_const_add, columnsToWrite_eq s vb hcount, List.map_map]
  have hcol : (columnBytes s vb rows ∘ fun j => j + viewOffset s)
      = fun j => rows.length
          + (if s.mVBColShuffleTypes.getD j SHUFFLE_NOT_DEFINE = SHUFFLE_BINARY then
              4 * (rows.length + 1)
                + (fun j => (rows.map (fun r => varLen vb (j + viewOffset s) r)).sum) j
            else costOf (s.mVBColShuffleTypes.getD j SHUFFLE_NOT_DEFINE) * rows.length) := by
    funext j
    simp only [Function.comp, columnBytes, typeIdOf_add_viewOffset]
  rw [hcol, column_sum rows.length (fun j => s.mVBColShuffleTypes.getD j SHUFFLE_NOT_DEFINE)
    (fun j => (rows.map (fun r => varLen vb (j + viewOffset s) r)).sum), ← hV,
    sum_swap (fun j r => varLen vb (j + viewOffset s) r) rows s.mColIndexOfVarVec, hH, hT]
  have hcost : ((List.range s.mVBColShuffleTypes.length).map
      (fun j => costOf (s.mVBColShuffleTypes.getD j SHUFFLE_NOT_DEFINE))).sum
      = (s.mVBColShuffleTypes.map costOf).sum := by
    have := congrArg (fun l => (l.map costOf).sum) (range_map_getD s.mVBColShuffleTypes)
    simpa [List.map_map, Function.comp] using this
  rw [hcost, List.length_range]
  ring

/-- The length invariant of a drain, apart from failed dictionary reads: when
the schema members are consistent, the batch has one vector per schema column
(behind the partition-id view in multi-partition mode), every dictionary can be
read, no row length wraps around 32 bits, and the region length is the per-block
overhead plus the row lengths of the accumulated rows, `WritePartVectorBatch`
returns true and advances the cursor by exactly the header length. -/
theorem WritePartVectorBatch_advance_eq_length {σ : Type} (B : OckHashWriteBuffer σ)
    (mAllocator : Nat → Bool) (vb : VectorBatch) (m : Machine σ) (partitionId : Nat)
    (hschema : SchemaConsistent m.self)
    (hcount : vb.vectors.length = m.self.mVBColShuffleTypes.length + viewOffset m.self)
    (hread : DictionariesReadable mAllocator vb)
    (hk : 1 ≤ (m.self.mCacheRegion partitionId).mRowNum)
    (hrows : (m.self.mCacheRegion partitionId).mRowIndexes.length
      = (m.self.mCacheRegion partitionId).mRowNum)
    (hvar : ∀ c ∈ columnsToWrite m.self vb, ∀ vector, vb.GetVector c = some vector →
      typeIdOf m.self c = SHUFFLE_BINARY →
      ∀ r ∈ (m.self.mCacheRegion partitionId).mRowIndexes,
        (varValue vector r).length ≤ 0x7fffffff)
    (hrowfit : ∀ r ∈ (m.self.mCacheRegion partitionId).mRowIndexes,
      m.self.mMinDataLenInVBByRow
        + (m.self.mColIndexOfVarVec.map
            (fun j => varLen vb (j + viewOffset m.self) r)).sum < u32)
    (hlen : (m.self.mCacheRegion partitionId).mLength
      = m.self.mMinDataLenInVB
        + ((m.self.mCacheRegion partitionId).mRowIndexes.map
            (GetRowLengthInBytes m.self vb)).sum) :
    (WritePartVectorBatch B mAllocator vb m partitionId).1 = true
    ∧ ∃ block : Block,
        (WritePartVectorBatch B mAllocator vb m partitionId).2.blob = m.blob ++ [block]
        ∧ block.length = (m.self.mCacheRegion partitionId).mLength
        ∧ block.endAddress = block.address + block.length := by
  have hrowsOf : rowsOf (m.self.mCacheRegion partitionId).mRowIndexes
      (m.self.mCacheRegion partitionId).mRowNum
      = (m.self.mCacheRegion partitionId).mRowIndexes := by
    rw [← hrows, rowsOf_self]
  have hne : (m.self.mCacheRegion partitionId).mRowNum ≠ 0 := by omega
  have hcols := columnsToWrite_eq m.self vb hcount
  have hlt : ∀ c ∈ columnsToWrite m.self vb, c < vb.vectors.length := by
    intro c hc
    have := List.mem_of_mem_drop hc
    simpa [VectorBatch.GetVectorCount] using this
  have htypes : ∀ c ∈ columnsToWrite m.self vb, typeIdOf m.self c ≠ SHUFFLE_NOT_DEFINE := by
    intro c hc
    rw [hcols] at hc
    obtain ⟨j, hj, rfl⟩ := List.mem_map.mp hc
    have hjl : j < m.self.mVBColShuffleTypes.length := List.mem_range.mp hj
    rw [typeIdOf_add_viewOffset, List.getD_eq_getElem?_getD, List.getElem?_eq_getElem hjl]
    exact hschema.2.2.2 _ (List.getElem_mem hjl)
  have hvar2 : ∀ c ∈ columnsToWrite m.self vb, ∀ vector, vb.GetVector c = some vector →
      typeIdOf m.self c = SHUFFLE_BINARY →
      ∀ r ∈ rowsOf (m.self.mCacheRegion partitionId).mRowIndexes
        (m.self.mCacheRegion partitionId).mRowNum, (varValue vector r).length ≤ 0x7fffffff := by
    rw [hrowsOf]; exact hvar
  have hcolok : ∀ c ∈ columnsToWrite m.self vb,
      (WriteOneVector mAllocator m.self vb c (m.self.mCacheRegion partitionId).mRowIndexes
        (m.self.mCacheRegion partitionId).mRowNum 0).ok = true := by
    intro c hc
    have hc2 : c < vb.vectors.length := hlt c hc
    have hvec : vb.GetVector c = some (vb.vectors[c]) := by
      simp [VectorBatch.GetVector, List.getElem?_eq_getElem hc2]
    exact WriteOneVector_ok mAllocator m.self vb c _ _ 0 _ hvec (htypes c hc)
      (fun ht => hvar2 c hc _ hvec ht)
  have hwok := (WriteColumns_of_ok mAllocator m.self vb
    (m.self.mCacheRegion partitionId).mRowIndexes (m.self.mCacheRegion partitionId).mRowNum
    (columnsToWrite m.self vb)
    ((B.GetEndAddressOfRegion m.mOckBuffer partitionId
      (m.self.mCacheRegion partitionId).mLength).1 + vbHeaderSize)
    [⟨4, (m.self.mCacheRegion partitionId).mLength⟩,
     ⟨4, (m.self.mCacheRegion partitionId).mRowNum⟩] hcolok).1
  have hwaddr := WriteColumns_address mAllocator m.self vb
    (m.self.mCacheRegion partitionId).mRowIndexes (m.self.mCacheRegion partitionId).mRowNum
    hread (columnsToWrite m.self vb)
    ((B.GetEndAddressOfRegion m.mOckBuffer partitionId
      (m.self.mCacheRegion partitionId).mLength).1 + vbHeaderSize)
    [⟨4, (m.self.mCacheRegion partitionId).mLength⟩,
     ⟨4, (m.self.mCacheRegion partitionId).mRowNum⟩] hlt hvar2 hcolok
  rw [hrowsOf] at hwaddr
  have hsum := columns_sum_eq_reserved m.self vb (m.self.mCacheRegion partitionId).mRowIndexes
    hschema hcount hrowfit
  constructor
  · unfold WritePartVectorBatch
    simp only [GetCacheRegion, hne, if_false]
    rw [WriteColumns_congr mAllocator (RecordWriteBytes _ m.self _ _) m.self rfl rfl]
    change (if (WriteColumns mAllocator m.self vb _ _ (columnsToWrite m.self vb) _ _).ok = false
      then _ else _ : Bool × Machine σ).1 = true
    rw [hwok]
    simp
  · unfold WritePartVectorBatch
    simp only [GetCacheRegion, hne, if_false]
    rw [WriteColumns_congr mAllocator (RecordWriteBytes _ m.self _ _) m.self rfl rfl]
    change ∃ block : Block, (if (WriteColumns mAllocator m.self vb _ _
      (columnsToWrite m.self vb) _ _).ok = false then _ else _ : Bool × Machine σ).2.blob
        = m.blob ++ [block] ∧ _
    rw [hwok]
    simp only [Bool.true_eq_false, if_false]
    refine ⟨_, rfl, rfl, ?_⟩
    change (WriteColumns mAllocator m.self vb _ _ (columnsToWrite m.self vb) _ _).address
      = (B.GetEndAddressOfRegion m.mOckBuffer partitionId
          (m.self.mCacheRegion partitionId).mLength).1
        + (m.self.mCacheRegion partitionId).mLength
    rw [hwaddr]
    omega

theorem isVariable_iff (t : DataTypeId) :
    isVariable t = true ↔ shuffleTypeOf t = some SHUFFLE_BINARY := by
  cases t <;> simp [isVariable, shuffleTypeOf]

theorem valueCost_eq (t : DataTypeId) :
    valueCost t = ((shuffleTypeOf t).map costOf).getD 0 := by
  cases t <;> rfl

theorem shuffleTypeOf_ne_not_define (t : DataTypeId) :
    shuffleTypeOf t ≠ some SHUFFLE_NOT_DEFINE := by
  cases t <;> simp [shuffleTypeOf]

theorem Initialize_schema_consistent (colTypeIds : Nat → DataTypeId)
    (colNum partitionNum : Nat) (isSinglePt : Bool) (threadId : Nat)
    (hinit : (Initialize (OckSplitter.new colNum partitionNum isSinglePt threadId)
      colTypeIds).1 = true)
    (hfit : colNum + ((List.range colNum).map (fun i => valueCost (colTypeIds i))).sum < u32) :
    SchemaConsistent
      (Initialize (OckSplitter.new colNum partitionNum isSinglePt threadId) colTypeIds).2 := by
  have hall : ∀ i, i < colNum → isRecognized (colTypeIds i) = true := by
    have h := hinit
    rw [Initialize_fst, ToSplitterTypeIdLoop_true_iff] at h
    exact fun i hi => h i (List.mem_range.mpr hi)
  have hI := Initialize_of_ok (OckSplitter.new colNum partitionNum isSinglePt threadId)
    colTypeIds hall
  have hmap := filterMap_map_some colTypeIds (List.range colNum)
    (fun i hi => hall i (List.mem_range.mp hi))
  have hlenT : ((List.range colNum).filterMap (fun i => shuffleTypeOf (colTypeIds i))).length
      = colNum := by
    have := congrArg List.length hmap
    simpa using this
  have hTj : ∀ j, j < colNum → shuffleTypeOf (colTypeIds j)
      = some (((List.range colNum).filterMap
          (fun i => shuffleTypeOf (colTypeIds i))).getD j SHUFFLE_NOT_DEFINE) := by
    intro j hj
    have h1 := congrArg (fun l => l[j]?) hmap
    simp only [List.getElem?_map, List.getElem?_range hj, Option.map_some'] at h1
    have hj2 : j < ((List.range colNum).filterMap
        (fun i => shuffleTypeOf (colTypeIds i))).length := by rw [hlenT]; exact hj
    rw [List.getElem?_eq_getElem hj2, Option.map_some'] at h1
    rw [List.getD_eq_getElem?_getD, List.getElem?_eq_getElem hj2]
    simpa using h1.symm
  have hvarlen := four_mul_variable_le_cost colTypeIds (List.range colNum)
  have hfl : ((List.range colNum).filter (fun i => isVariable (colTypeIds i))).length
      ≤ colNum := by
    have := List.length_filter_le (fun i => isVariable (colTypeIds i)) (List.range colNum)
    simpa using this
  have hu : u32 = 4294967296 := by decide
  rw [hI]
  refine ⟨?_, ?_, ?_, ?_⟩
  · simp only [withColumns, OckSplitter.new, List.nil_append, hlenT]
    rw [Nat.mod_add_mod, Nat.mod_eq_of_lt hfit]
    congr 1
    have := congrArg (fun l => (l.map (fun o => (Option.map costOf o).getD 0)).sum) hmap
    simp only [List.map_map] at this
    have h2 : ((fun o => (Option.map costOf o).getD 0) ∘ some) = costOf := by
      funext d; simp
    rw [h2] at this
    rw [this]
    congr 1
    apply List.map_congr_left
    intro i _
    simp [valueCost_eq]
  · simp only [withColumns, OckSplitter.new, List.nil_append, hlenT]
    apply List.filter_congr
    intro j hj
    have := hTj j (List.mem_range.mp hj)
    rw [Bool.eq_iff_iff, isVariable_iff, this]
    simp
  · simp only [withColumns, OckSplitter.new, List.nil_append, vbDataHeadLen, uint32Size,
      vbHeaderSize]
    apply Nat.mod_eq_of_lt
    omega
  · simp only [withColumns, OckSplitter.new, List.nil_append]
    intro t ht
    obtain ⟨i, _, hi⟩ := List.mem_filterMap.mp ht
    intro hnd
    rw [hnd] at hi
    exact shuffleTypeOf_ne_not_define _ hi

/-- The length invariant holds on the sample: non-vacuity of
`WritePartVectorBatch_advance_eq_length`. -/
theorem WritePartVectorBatch_advance_eq_length_sample :
    (WritePartVectorBatch alwaysEnough (fun _ => false) sampleBatch
        (Machine.start sampleSplitter ()) 0).1 = true
    ∧ ∃ block : Block,
        (WritePartVectorBatch alwaysEnough (fun _ => false) sampleBatch
          (Machine.start sampleSplitter ()) 0).2.blob = [] ++ [block]
        ∧ block.length = 36
        ∧ block.endAddress = block.address + block.length :=
  WritePartVectorBatch_advance_eq_length alwaysEnough (fun _ => false) sampleBatch
    (Machine.start sampleSplitter ()) 0
    (by unfold SchemaConsistent; decide) (by decide)
    (by unfold DictionariesReadable; decide) (by decide) (by decide)
    sampleBatch_has_no_variable_column (by decide) (by decide)

/-! ## Draining an empty partition, and the choice of the layout -/

/-- C19: draining a partition whose region holds zero rows is a no-op.
`WritePartVectorBatch` returns true and leaves the whole machine as it was: the
total written bytes, every partition length, every region, the stored blocks
and the state of the buffer; with a buffer that records its calls the journal
does not grow, so no write address is requested. -/
theorem WritePartVectorBatch_empty_is_noop {σ : Type} (B : OckHashWriteBuffer σ)
    (mAllocator : Nat → Bool) (vb : VectorBatch) (m : Machine σ)
    (mt : Machine (σ × List BufferCall)) (partitionId : Nat)
    (h0 : (m.self.mCacheRegion partitionId).mRowNum = 0)
    (ht : (mt.self.mCacheRegion partitionId).mRowNum = 0) :
    WritePartVectorBatch B mAllocator vb m partitionId = (true, m)
    ∧ (WritePartVectorBatch (traced B) mAllocator vb mt partitionId).1 = true
    ∧ (WritePartVectorBatch (traced B) mAllocator vb mt partitionId).2.mOckBuffer.2
        = mt.mOckBuffer.2
    ∧ (WritePartVectorBatch (traced B) mAllocator vb mt partitionId).2.blob = mt.blob := by
  have h : ∀ {τ : Type} (B2 : OckHashWriteBuffer τ) (m2 : Machine τ),
      (m2.self.mCacheRegion partitionId).mRowNum = 0 →
      WritePartVectorBatch B2 mAllocator vb m2 partitionId = (true, m2) := by
    intro τ B2 m2 h2
    unfold WritePartVectorBatch
    simp [GetCacheRegion, h2]
  exact ⟨h B m h0, by rw [h (traced B) mt ht], by rw [h (traced B) mt ht],
    by rw [h (traced B) mt ht]⟩

/-- Witness of C19: region 1 of `sampleSplitter` holds no row. -/
theorem WritePartVectorBatch_empty_is_noop_witness :
    WritePartVectorBatch alwaysEnough (fun _ => true) sampleBatch
        (Machine.start sampleSplitter ()) 1 = (true, Machine.start sampleSplitter ())
    ∧ (WritePartVectorBatch (traced alwaysEnough) (fun _ => true) sampleBatch
        (Machine.start sampleSplitter ((), [])) 1).1 = true
    ∧ (WritePartVectorBatch (traced alwaysEnough) (fun _ => true) sampleBatch
        (Machine.start sampleSplitter ((), [])) 1).2.mOckBuffer.2 = []
    ∧ (WritePartVectorBatch (traced alwaysEnough) (fun _ => true) sampleBatch
        (Machine.start sampleSplitter ((), [])) 1).2.blob = [] :=
  WritePartVectorBatch_empty_is_noop alwaysEnough (fun _ => true) sampleBatch
    (Machine.start sampleSplitter ()) (Machine.start sampleSplitter ((), [])) 1
    (by decide) (by decide)

theorem Initialize_fst_iff (colTypeIds : Nat → DataTypeId) (colNum partitionNum : Nat)
    (isSinglePt : Bool) (threadId : Nat) :
    (Initialize (OckSplitter.new colNum partitionNum isSinglePt threadId) colTypeIds).1 = true
      ↔ ∀ i, i < colNum → colTypeIds i ∈ recognizedTypes := by
  rw [Initialize_fst, ToSplitterTypeIdLoop_true_iff]
  simp [isRecognized_iff_mem, OckSplitter.new]

theorem Create_isSome_iff (colTypeIds : Nat → DataTypeId) (colNum partitionNum : Nat)
    (isSinglePt : Bool) (threadId : Nat) :
    (Create colTypeIds colNum partitionNum isSinglePt threadId).isSome = true
      ↔ ∀ i, i < colNum → colTypeIds i ∈ recognizedTypes := by
  rw [← Initialize_fst_iff colTypeIds colNum partitionNum isSinglePt threadId]
  unfold Create
  simp only
  rcases h : Initialize (OckSplitter.new colNum partitionNum isSinglePt threadId)
    colTypeIds with ⟨b, s1⟩
  cases b <;> simp

theorem Create_mode (colTypeIds : Nat → DataTypeId) (colNum partitionNum : Nat)
    (isSinglePt : Bool) (threadId : Nat) (s : OckSplitter)
    (h : Create colTypeIds colNum partitionNum isSinglePt threadId = some s) :
    s.mIsSinglePt = isSinglePt ∧ s.mPartitionNum = partitionNum ∧ s.mColNum = colNum := by
  have hsome : (Create colTypeIds colNum partitionNum isSinglePt threadId).isSome = true := by
    rw [h]; rfl
  have hall := (Create_isSome_iff colTypeIds colNum partitionNum isSinglePt threadId).mp hsome
  have hI := Initialize_of_ok (OckSplitter.new colNum partitionNum isSinglePt threadId)
    colTypeIds (fun i hi => (isRecognized_iff_mem _).mpr
      (hall i (by simpa [OckSplitter.new] using hi)))
  unfold Create at h
  simp only [hI, Option.some.injEq] at h
  subst h
  simp [withColumns, OckSplitter.new]

/-- C16: `Make` selects the layout from the partitioning mode string. For
"hash", "rr" and "range" it is `Create` with `isSinglePt = false` and an
instance it returns is in multi-partition mode; for "single" it is `Create`
with `isSinglePt = true` and an instance it returns is in single-partition mode;
for every other string it returns no instance. For a recognized mode it returns
an instance exactly when all the column type ids are in the recognized set. -/
theorem Make_selects_layout (partitionMethod : String) (partitionNum : Nat)
    (colTypeIds : Nat → DataTypeId) (colNum : Nat) (threadId : Nat) :
    ((partitionMethod = "hash" ∨ partitionMethod = "rr" ∨ partitionMethod = "range") →
        Make partitionMethod partitionNum colTypeIds colNum threadId
          = Create colTypeIds colNum partitionNum false threadId
        ∧ ∀ s, Make partitionMethod partitionNum colTypeIds colNum threadId = some s →
            s.mIsSinglePt = false)
    ∧ (partitionMethod = "single" →
        Make partitionMethod partitionNum colTypeIds colNum threadId
          = Create colTypeIds colNum partitionNum true threadId
        ∧ ∀ s, Make partitionMethod partitionNum colTypeIds colNum threadId = some s →
            s.mIsSinglePt = true)
    ∧ (partitionMethod ∉ ["hash", "rr", "range", "single"] →
        Make partitionMethod partitionNum colTypeIds colNum threadId = none)
    ∧ (partitionMethod ∈ ["hash", "rr", "range", "single"] →
        ((Make partitionMethod partitionNum colTypeIds colNum threadId).isSome = true
          ↔ ∀ i, i < colNum → colTypeIds i ∈ recognizedTypes)) := by
  have hmulti : (partitionMethod = "hash" ∨ partitionMethod = "rr" ∨ partitionMethod = "range") →
      Make partitionMethod partitionNum colTypeIds colNum threadId
        = Create colTypeIds colNum partitionNum false threadId := by
    intro h
    unfold Make
    rw [if_pos h]
  have hsingle : partitionMethod = "single" →
      Make partitionMethod partitionNum colTypeIds colNum threadId
        = Create colTypeIds colNum partitionNum true threadId := by
    intro h
    subst h
    unfold Make
    rw [if_neg (by decide), if_pos rfl]
  refine ⟨?_, ?_, ?_, ?_⟩
  · intro h
    refine ⟨hmulti h, ?_⟩
    intro s hs
    rw [hmulti h] at hs
    exact (Create_mode _ _ _ _ _ s hs).1
  · intro h
    refine ⟨hsingle h, ?_⟩
    intro s hs
    rw [hsingle h] at hs
    exact (Create_mode _ _ _ _ _ s hs).1
  · intro h
    simp only [List.mem_cons, List.mem_singleton, List.not_mem_nil, or_false, not_or] at h
    unfold Make
    rw [if_neg (by simp [h.1, h.2.1, h.2.2.1]), if_neg h.2.2.2]
  · intro h
    simp only [List.mem_cons, List.mem_singleton, List.not_mem_nil, or_false] at h
    rcases h with h | h | h | h
    · rw [hmulti (Or.inl h)]; exact Create_isSome_iff _ _ _ _ _
    · rw [hmulti (Or.inr (Or.inl h))]; exact Create_isSome_iff _ _ _ _ _
    · rw [hmulti (Or.inr (Or.inr h))]; exact Create_isSome_iff _ _ _ _ _
    · rw [hsingle h]; exact Create_isSome_iff _ _ _ _ _

/-- Witness of C16: the mode "hash" on the schema int. -/
theorem Make_selects_layout_witness :
    Make "hash" 2 (typesOf [OMNI_INT]) 1 0 = Create (typesOf [OMNI_INT]) 1 2 false 0
    ∧ ∀ s, Make "hash" 2 (typesOf [OMNI_INT]) 1 0 = some s → s.mIsSinglePt = false :=
  (Make_selects_layout "hash" 2 (typesOf [OMNI_INT]) 1 0).1 (Or.inl rfl)

/-! ## Dictionary indirection and decimal128 words -/

theorem getD_map_of_lt (ids : List Nat) (f : Nat → Nat) (r : Nat) (hr : r < ids.length) :
    (ids.map f).getD r 0 = f (ids.getD r 0) := by
  simp [List.getD_eq_getElem?_getD, List.getElem?_eq_getElem hr]

/-- C18: dictionary indirection is transparent for fixed-width columns. When the
id buffer is allocated and the dictionary extracted, for every width, every
dictionary, every per-row index array with in-range entries and every list of
accumulated rows of the batch, `WriteFixedWidthValueTemple` on the
dictionary-encoded column returns the same boolean, stores the same cells and
leaves the same cursor as on the plain column whose value at each row `r` is
`dictionary[ids[r]]`. -/
theorem WriteFixedWidthValueTemple_dictionary_transparent (mAllocator : Nat → Bool)
    (rowCount w : Nat) (vector : Vector) (dictionary : List Nat) (rowIndexes : List Nat)
    (rowNum address : Nat)
    (halloc : mAllocator (rowCount * 4) = true)
    (hdict : vector.dictionary = some dictionary)
    (hrows : ∀ r ∈ rowsOf rowIndexes rowNum, r < vector.ids.length)
    (hids : ∀ r ∈ rowsOf rowIndexes rowNum, vector.ids.getD r 0 < dictionary.length) :
    WriteFixedWidthValueTemple mAllocator rowCount w vector true rowIndexes rowNum address
      = WriteFixedWidthValueTemple mAllocator rowCount w (flattened vector dictionary) false
          rowIndexes rowNum address
    ∧ (WriteFixedWidthValueTemple mAllocator rowCount w vector true rowIndexes rowNum
        address).ok = true
    ∧ (WriteFixedWidthValueTemple mAllocator rowCount w vector true rowIndexes rowNum
        address).address = address + w * rowNum
    ∧ (WriteFixedWidthValueTemple mAllocator rowCount w vector true rowIndexes rowNum
        address).cells
        = (rowsOf rowIndexes rowNum).map
            (fun r => ⟨w, dictionary.getD (vector.ids.getD r 0) 0⟩) := by
  have _ := hids
  have hcells : (rowsOf rowIndexes rowNum).map
      (fun r => (⟨w, dictionary.getD (vector.ids.getD r 0) 0⟩ : Cell))
      = (rowsOf rowIndexes rowNum).map
          (fun r => (⟨w, (flattened vector dictionary).values.getD r 0⟩ : Cell)) := by
    apply List.map_congr_left
    intro r hr
    simp only [flattened]
    rw [getD_map_of_lt vector.ids _ r (hrows r hr)]
  unfold WriteFixedWidthValueTemple
  simp only [if_true, halloc, hdict, Bool.true_eq_false, if_false, Bool.false_eq_true]
  exact ⟨by rw [hcells], trivial, trivial, trivial⟩

/-- Witness of C18: rows 1 and 0 of a column with ids 1, 0 into the dictionary
100, 200. -/
theorem WriteFixedWidthValueTemple_dictionary_transparent_witness :
    WriteFixedWidthValueTemple (fun _ => true) 2 4 (dictColumn [0, 0] [1, 0] [100, 200]) true
        [1, 0] 2 8
      = WriteFixedWidthValueTemple (fun _ => true) 2 4
          (flattened (dictColumn [0, 0] [1, 0] [100, 200]) [100, 200]) false [1, 0] 2 8
    ∧ (WriteFixedWidthValueTemple (fun _ => true) 2 4 (dictColumn [0, 0] [1, 0] [100, 200]) true
        [1, 0] 2 8).ok = true
    ∧ (WriteFixedWidthValueTemple (fun _ => true) 2 4 (dictColumn [0, 0] [1, 0] [100, 200]) true
        [1, 0] 2 8).address = 8 + 4 * 2
    ∧ (WriteFixedWidthValueTemple (fun _ => true) 2 4 (dictColumn [0, 0] [1, 0] [100, 200]) true
        [1, 0] 2 8).cells
        = (rowsOf [1, 0] 2).map
            (fun r => ⟨4, [100, 200].getD ((dictColumn [0, 0] [1, 0] [100, 200]).ids.getD r 0)
              0⟩) :=
  WriteFixedWidthValueTemple_dictionary_transparent (fun _ => true) 2 4
    (dictColumn [0, 0] [1, 0] [100, 200]) [100, 200] [1, 0] 2 8 rfl rfl (by decide) (by decide)

theorem shl1_eq (n : Nat) (h : n < 2 ^ 31) : shl1 n = 2 * n := by
  unfold shl1 u32
  rw [Nat.shiftLeft_eq, Nat.mod_eq_of_lt (by omega)]
  omega

theorem shl1_or_one (n : Nat) (h : n < 2 ^ 31) : shl1 n ||| 1 = 2 * n + 1 := by
  rw [shl1_eq n h]
  have := @Nat.mul_add_lt_is_or 1 1 (by decide) n
  simpa using this.symm

theorem flatMap_pair_getElem (f g : Nat → Cell) :
    ∀ (rows : List Nat) (i : Nat) (hi : i < rows.length),
      (rows.flatMap (fun r => [f r, g r]))[2 * i]? = some (f (rows[i]))
      ∧ (rows.flatMap (fun r => [f r, g r]))[2 * i + 1]? = some (g (rows[i])) := by
  intro rows
  induction rows with
  | nil => intro i hi; simp at hi
  | cons r rest ih =>
    intro i hi
    cases i with
    | zero => simp [List.flatMap_cons]
    | succ j =>
      have hj : j < rest.length := by simpa using hi
      have := ih j hj
      have e1 : 2 * (j + 1) = 2 * j + 2 := by omega
      have e2 : 2 * (j + 1) + 1 = 2 * j + 1 + 2 := by omega
      simp only [List.flatMap_cons, List.getElem_cons_succ]
      rw [e2, e1]
      simpa using this

theorem flatMap_pair_length (f g : Nat → Cell) (rows : List Nat) :
    (rows.flatMap (fun r => [f r, g r])).length = 2 * rows.length := by
  induction rows with
  | nil => simp
  | cons r rest ih => simp only [List.flatMap_cons, List.length_append, ih]; simp; omega

theorem flatMap_congr_mem (f g : Nat → List Cell) :
    ∀ (rows : List Nat), (∀ r ∈ rows, f r = g r) → rows.flatMap f = rows.flatMap g := by
  intro rows
  induction rows with
  | nil => intro _; rfl
  | cons r rest ih =>
    intro h
    simp only [List.flatMap_cons]
    rw [h r (by simp), ih (fun k hk => h k (by simp [hk]))]

theorem rowsOf_getElem (rowIndexes : List Nat) (rowNum i : Nat)
    (hi : i < (rowsOf rowIndexes rowNum).length) :
    (rowsOf rowIndexes rowNum)[i] = rowIndexes.getD i 0 := by
  simp [rowsOf]

theorem decimal_words (src : List Nat) (key : Nat → Nat) (rowIndexes : List Nat) (rowNum : Nat)
    (hkey : ∀ r ∈ rowsOf rowIndexes rowNum, key r < 2 ^ 31) :
    ((rowsOf rowIndexes rowNum).flatMap
        (fun r => [(⟨8, src.getD (shl1 (key r)) 0⟩ : Cell),
                   ⟨8, src.getD (shl1 (key r) ||| 1) 0⟩])).length = 2 * rowNum
    ∧ (∀ c ∈ (rowsOf rowIndexes rowNum).flatMap
        (fun r => [(⟨8, src.getD (shl1 (key r)) 0⟩ : Cell),
                   ⟨8, src.getD (shl1 (key r) ||| 1) 0⟩]), c.width = 8)
    ∧ (∀ i, i < rowNum →
        ((rowsOf rowIndexes rowNum).flatMap
          (fun r => [(⟨8, src.getD (shl1 (key r)) 0⟩ : Cell),
                     ⟨8, src.getD (shl1 (key r) ||| 1) 0⟩]))[2 * i]?
          = some ⟨8, src.getD (2 * key (rowIndexes.getD i 0)) 0⟩
        ∧ ((rowsOf rowIndexes rowNum).flatMap
          (fun r => [(⟨8, src.getD (shl1 (key r)) 0⟩ : Cell),
                     ⟨8, src.getD (shl1 (key r) ||| 1) 0⟩]))[2 * i + 1]?
          = some ⟨8, src.getD (2 * key (rowIndexes.getD i 0) + 1) 0⟩) := by
  have hcongr := flatMap_congr_mem
    (fun r => [(⟨8, src.getD (shl1 (key r)) 0⟩ : Cell), ⟨8, src.getD (shl1 (key r) ||| 1) 0⟩])
    (fun r => [(⟨8, src.getD (2 * key r) 0⟩ : Cell), ⟨8, src.getD (2 * key r + 1) 0⟩])
    (rowsOf rowIndexes rowNum)
    (fun r hr => by
      show [(⟨8, src.getD (shl1 (key r)) 0⟩ : Cell), ⟨8, src.getD (shl1 (key r) ||| 1) 0⟩]
        = [(⟨8, src.getD (2 * key r) 0⟩ : Cell), ⟨8, src.getD (2 * key r + 1) 0⟩]
      rw [shl1_or_one _ (hkey r hr), shl1_eq _ (hkey r hr)])
  rw [hcongr]
  refine ⟨?_, ?_, ?_⟩
  · rw [flatMap_pair_length, rowsOf_length]
  · intro c hc
    simp only [List.mem_flatMap, List.mem_cons, List.mem_singleton, List.not_mem_nil,
      or_false] at hc
    obtain ⟨r, _, rfl | rfl⟩ := hc <;> rfl
  · intro i hi
    have hi2 : i < (rowsOf rowIndexes rowNum).length := by rw [rowsOf_length]; exact hi
    have := flatMap_pair_getElem (fun r => (⟨8, src.getD (2 * key r) 0⟩ : Cell))
      (fun r => ⟨8, src.getD (2 * key r + 1) 0⟩) (rowsOf rowIndexes rowNum) i hi2
    rw [rowsOf_getElem rowIndexes rowNum i hi2] at this
    exact this

theorem decimal_shape (src : List Nat) (key : Nat → Nat) (rows : List Nat) :
    (rows.flatMap
        (fun r => [(⟨8, src.getD (shl1 (key r)) 0⟩ : Cell),
                   ⟨8, src.getD (shl1 (key r) ||| 1) 0⟩])).length = 2 * rows.length
    ∧ (∀ c ∈ rows.flatMap
        (fun r => [(⟨8, src.getD (shl1 (key r)) 0⟩ : Cell),
                   ⟨8, src.getD (shl1 (key r) ||| 1) 0⟩]), c.width = 8) := by
  refine ⟨flatMap_pair_length _ _ rows, ?_⟩
  intro c hc
  simp only [List.mem_flatMap, List.mem_cons, List.mem_singleton, List.not_mem_nil,
    or_false] at hc
  obtain ⟨r, _, rfl | rfl⟩ := hc <;> rfl

/-- C15: for a decimal128 column and accumulated rows `r_0 .. r_(k-1)`. On a
plain column `WriteDecimal128` returns true whatever the allocator does, writes
`2 * k` cells of 8 bytes and advances the cursor by `16 * k` bytes, and (row
indexes below `2 ^ 31`) the cells `2 * i` and `2 * i + 1` hold the source words
`2 * r_i` and `2 * r_i + 1`. On a dictionary-encoded column whose id buffer is
allocated and whose dictionary is extracted it does the same with the
dictionary words `2 * ids[r_i]` and `2 * ids[r_i] + 1` (ids below `2 ^ 31`);
when the allocation fails or no dictionary is extracted it returns false and
writes nothing. -/
theorem WriteDecimal128_words (mAllocator : Nat → Bool) (rowCount : Nat)
    (plain vector : Vector) (dictionary : List Nat) (rowIndexes : List Nat)
    (rowNum address : Nat) :
    ((WriteDecimal128 mAllocator rowCount plain false rowIndexes rowNum address).ok = true
      ∧ (WriteDecimal128 mAllocator rowCount plain false rowIndexes rowNum address).address
          = address + 16 * rowNum
      ∧ (WriteDecimal128 mAllocator rowCount plain false rowIndexes rowNum
          address).cells.length = 2 * rowNum
      ∧ (∀ c ∈ (WriteDecimal128 mAllocator rowCount plain false rowIndexes rowNum
          address).cells, c.width = 8)
      ∧ ((∀ r ∈ rowsOf rowIndexes rowNum, r < 2 ^ 31) →
          ∀ i, i < rowNum →
          (WriteDecimal128 mAllocator rowCount plain false rowIndexes rowNum
            address).cells[2 * i]?
            = some ⟨8, plain.values.getD (2 * rowIndexes.getD i 0) 0⟩
          ∧ (WriteDecimal128 mAllocator rowCount plain false rowIndexes rowNum
            address).cells[2 * i + 1]?
            = some ⟨8, plain.values.getD (2 * rowIndexes.getD i 0 + 1) 0⟩))
    ∧ (mAllocator (rowCount * 4) = true → vector.dictionary = some dictionary →
        (WriteDecimal128 mAllocator rowCount vector true rowIndexes rowNum address).ok = true
        ∧ (WriteDecimal128 mAllocator rowCount vector true rowIndexes rowNum address).address
            = address + 16 * rowNum
        ∧ (WriteDecimal128 mAllocator rowCount vector true rowIndexes rowNum
            address).cells.length = 2 * rowNum
        ∧ (∀ c ∈ (WriteDecimal128 mAllocator rowCount vector true rowIndexes rowNum
            address).cells, c.width = 8)
        ∧ ((∀ r ∈ rowsOf rowIndexes rowNum, vector.ids.getD r 0 < 2 ^ 31) →
            ∀ i, i < rowNum →
            (WriteDecimal128 mAllocator rowCount vector true rowIndexes rowNum
              address).cells[2 * i]?
              = some ⟨8, dictionary.getD (2 * vector.ids.getD (rowIndexes.getD i 0) 0) 0⟩
            ∧ (WriteDecimal128 mAllocator rowCount vector true rowIndexes rowNum
              address).cells[2 * i + 1]?
              = some ⟨8, dictionary.getD
                  (2 * vector.ids.getD (rowIndexes.getD i 0) 0 + 1) 0⟩))
    ∧ (mAllocator (rowCount * 4) = false ∨ vector.dictionary = none →
        (WriteDecimal128 mAllocator rowCount vector true rowIndexes rowNum address).ok = false
        ∧ (WriteDecimal128 mAllocator rowCount vector true rowIndexes rowNum address).address
            = address
        ∧ (WriteDecimal128 mAllocator rowCount vector true rowIndexes rowNum address).cells
            = []) := by
  have hps := decimal_shape plain.values (fun r => r) (rowsOf rowIndexes rowNum)
  rw [rowsOf_length] at hps
  refine ⟨?_, ?_, ?_⟩
  · unfold WriteDecimal128
    simp only [Bool.false_eq_true, if_false]
    refine ⟨trivial, by omega, hps.1, hps.2, fun hrows => ?_⟩
    exact (decimal_words plain.values (fun r => r) rowIndexes rowNum hrows).2.2
  · intro halloc hdict
    have hds := decimal_shape dictionary (fun r => vector.ids.getD r 0)
      (rowsOf rowIndexes rowNum)
    rw [rowsOf_length] at hds
    unfold WriteDecimal128
    simp only [if_true, halloc, hdict, Bool.true_eq_false, if_false]
    refine ⟨trivial, by omega, hds.1, hds.2, fun hids => ?_⟩
    exact (decimal_words dictionary (fun r => vector.ids.getD r 0) rowIndexes rowNum hids).2.2
  · intro h
    unfold WriteDecimal128
    rcases h with h | h
    · simp [h]
    · by_cases ha : mAllocator (rowCount * 4) = false
      · simp [ha]
      · simp [ha, h]

/-- Witness of C15: rows 1 and 0 of a plain two-row column with the words
1, 2, 3, 4 while every allocation fails, and of a dictionary-encoded column with
ids 1, 0 into the same words while allocations succeed. -/
theorem WriteDecimal128_words_witness :
    ((WriteDecimal128 (fun _ => false) 2 (plainColumn [0, 0] [1, 2, 3, 4]) false [1, 0] 2
        0).ok = true
      ∧ (WriteDecimal128 (fun _ => false) 2 (plainColumn [0, 0] [1, 2, 3, 4]) false [1, 0] 2
        0).address = 0 + 16 * 2
      ∧ (WriteDecimal128 (fun _ => false) 2 (plainColumn [0, 0] [1, 2, 3, 4]) false [1, 0] 2
        0).cells[2 * 0]? = some ⟨8, 3⟩)
    ∧ ((WriteDecimal128 (fun _ => true) 2 (dictColumn [0, 0] [1, 0] [1, 2, 3, 4]) true [1, 0] 2
        0).ok = true
      ∧ (WriteDecimal128 (fun _ => true) 2 (dictColumn [0, 0] [1, 0] [1, 2, 3, 4]) true [1, 0] 2
        0).address = 0 + 16 * 2
      ∧ (WriteDecimal128 (fun _ => true) 2 (dictColumn [0, 0] [1, 0] [1, 2, 3, 4]) true [1, 0] 2
        0).cells[2 * 0 + 1]? = some ⟨8, 2⟩) :=
  ⟨⟨(WriteDecimal128_words (fun _ => false) 2 (plainColumn [0, 0] [1, 2, 3, 4])
      (dictColumn [0, 0] [1, 0] [1, 2, 3, 4]) [1, 2, 3, 4] [1, 0] 2 0).1.1,
    (WriteDecimal128_words (fun _ => false) 2 (plainColumn [0, 0] [1, 2, 3, 4])
      (dictColumn [0, 0] [1, 0] [1, 2, 3, 4]) [1, 2, 3, 4] [1, 0] 2 0).1.2.1,
    ((WriteDecimal128_words (fun _ => false) 2 (plainColumn [0, 0] [1, 2, 3, 4])
      (dictColumn [0, 0] [1, 0] [1, 2, 3, 4]) [1, 2, 3, 4] [1, 0] 2 0).1.2.2.2.2
      (by decide) 0 (by decide)).1⟩,
   ⟨((WriteDecimal128_words (fun _ => true) 2 (plainColumn [0, 0] [1, 2, 3, 4])
      (dictColumn [0, 0] [1, 0] [1, 2, 3, 4]) [1, 2, 3, 4] [1, 0] 2 0).2.1 rfl rfl).1,
    ((WriteDecimal128_words (fun _ => true) 2 (plainColumn [0, 0] [1, 2, 3, 4])
      (dictColumn [0, 0] [1, 0] [1, 2, 3, 4]) [1, 2, 3, 4] [1, 0] 2 0).2.1 rfl rfl).2.1,
    (((WriteDecimal128_words (fun _ => true) 2 (plainColumn [0, 0] [1, 2, 3, 4])
      (dictColumn [0, 0] [1, 0] [1, 2, 3, 4]) [1, 2, 3, 4] [1, 0] 2 0).2.1 rfl rfl).2.2.2.2
      (by decide) 0 (by decide)).2⟩⟩

/-! ## A row is appended only by a granted reservation -/

theorem SameSchema_refl (s : OckSplitter) : SameSchema s s :=
  ⟨rfl, rfl, rfl, rfl, rfl, rfl, rfl, rfl⟩

theorem SameSchema_trans (s s1 s2 : OckSplitter) (h1 : SameSchema s s1)
    (h2 : SameSchema s1 s2) : SameSchema s s2 := by
  obtain ⟨a1, a2, a3, a4, a5, a6, a7, a8⟩ := h1
  obtain ⟨b1, b2, b3, b4, b5, b6, b7, b8⟩ := h2
  exact ⟨b1.trans a1, b2.trans a2, b3.trans a3, b4.trans a4, b5.trans a5, b6.trans a6,
    b7.trans a7, b8.trans a8⟩

theorem Kept_refl (r : VBRegion) : Kept r r := Or.inl rfl

theorem Kept_trans (r0 r1 r2 : VBRegion) (h1 : Kept r0 r1) (h2 : Kept r1 r2) : Kept r0 r2 := by
  rcases h2 with h2 | h2
  · rw [h2]; exact h1
  · exact Or.inr h2

theorem Frame_refl {σ : Type} (m : Machine σ) : Frame m m :=
  ⟨SameSchema_refl _, fun _ => Kept_refl _⟩

theorem Frame_trans {σ : Type} (m m1 m2 : Machine σ) (h1 : Frame m m1) (h2 : Frame m1 m2) :
    Frame m m2 :=
  ⟨SameSchema_trans _ _ _ h1.1 h2.1, fun q => Kept_trans _ _ _ (h1.2 q) (h2.2 q)⟩

theorem Frame_of_self_eq {σ : Type} (m m1 : Machine σ) (h : m1.self = m.self) : Frame m m1 := by
  unfold Frame
  rw [h]
  exact ⟨SameSchema_refl _, fun _ => Kept_refl _⟩

theorem WritePartVectorBatch_frame {σ : Type} (B : OckHashWriteBuffer σ)
    (mAllocator : Nat → Bool) (vb : VectorBatch) (m : Machine σ) (p : Nat) :
    Frame m (WritePartVectorBatch B mAllocator vb m p).2 := by
  unfold WritePartVectorBatch
  simp only [GetCacheRegion]
  by_cases h0 : (m.self.mCacheRegion p).mRowNum = 0
  · simp only [h0, if_true]
    exact Frame_refl m
  · simp only [h0, if_false]
    split
    · exact ⟨⟨rfl, rfl, rfl, rfl, rfl, rfl, rfl, rfl⟩, fun q => Or.inl rfl⟩
    · refine ⟨⟨rfl, rfl, rfl, rfl, rfl, rfl, rfl, rfl⟩, fun q => ?_⟩
      by_cases hq : q = p
      · subst hq
        exact Or.inr (by simp [ResetCacheRegion])
      · exact Or.inl (by simp [ResetCacheRegion, RecordWriteBytes, Function.update_noteq hq])

theorem DrainPartitions_frame {σ : Type} (B : OckHashWriteBuffer σ)
    (mAllocator : Nat → Bool) (vb : VectorBatch) :
    ∀ (ps : List Nat) (m : Machine σ), Frame m (DrainPartitions B mAllocator vb ps m).2 := by
  intro ps
  induction ps with
  | nil => intro m; exact Frame_refl m
  | cons p rest ih =>
    intro m
    unfold DrainPartitions
    by_cases h0 : (m.self.mCacheRegion p).mRowNum = 0
    · simp only [h0, if_true]
      exact ih m
    · simp only [h0, if_false]
      have hw := WritePartVectorBatch_frame B mAllocator vb m p
      rcases hr : WritePartVectorBatch B mAllocator vb m p with ⟨b, m2⟩
      rw [hr] at hw
      cases b
      · exact hw
      · exact Frame_trans m m2 _ hw (ih m2)

theorem FlushAllRegionAndGetNewBlob_frame {σ : Type} (B : OckHashWriteBuffer σ)
    (mAllocator : Nat → Bool) (vb : VectorBatch) (m : Machine σ) :
    Frame m (FlushAllRegionAndGetNewBlob B mAllocator vb m).2 := by
  unfold FlushAllRegionAndGetNewBlob
  have hd := DrainPartitions_frame B mAllocator vb (List.range m.self.mPartitionNum) m
  rcases hr : DrainPartitions B mAllocator vb (List.range m.self.mPartitionNum) m with ⟨b, m2⟩
  rw [hr] at hd
  cases b
  · exact hd
  · have key : ∀ (s3 : OckSplitter) (buf : σ), SameSchema m2.self s3 →
        s3.mCacheRegion = (fun _ => VBRegion.empty) →
        Frame m { m2 with self := s3, mOckBuffer := buf } := by
      intro s3 buf h1 h2
      refine Frame_trans m m2 _ hd ⟨h1, fun q => Or.inr ?_⟩
      simp [h2]
    simp only
    split
    · exact key _ _ ⟨rfl, rfl, rfl, rfl, rfl, rfl, rfl, rfl⟩ rfl
    · split <;> split <;>
        exact key _ _ ⟨rfl, rfl, rfl, rfl, rfl, rfl, rfl, rfl⟩ rfl

theorem Reserved_of_frame {σ : Type} (m m2 m1 : Machine σ) (p rowIndex rowLength : Nat)
    (h1 : Frame m m2) (h2 : Reserved m2 m1 p rowIndex rowLength) :
    Reserved m m1 p rowIndex rowLength := by
  obtain ⟨hs2, hq2, base, hb, hreg⟩ := h2
  refine ⟨SameSchema_trans _ _ _ h1.1 hs2,
    fun q hq => Kept_trans _ _ _ (h1.2 q) (hq2 q hq), base, Kept_trans _ _ _ (h1.2 p) hb, ?_⟩
  rw [hreg]
  unfold preoccupiedSizeFor
  rw [h1.1.2.2.2.2.2.2.2]

theorem PreoccupiedBufferSpace_outcome {σ : Type} (B : OckHashWriteBuffer σ)
    (mAllocator : Nat → Bool) (vb : VectorBatch) (p rowIndex rowLength : Nat) :
    ∀ (fuel : Nat) (m : Machine σ) (newRegion : Bool) (b : Bool) (m1 : Machine σ),
      PreoccupiedBufferSpace B mAllocator vb fuel m p rowIndex rowLength newRegion
        = some (b, m1) →
      (b = false → Frame m m1) ∧ (b = true → Reserved m m1 p rowIndex rowLength) := by
  intro fuel
  induction fuel with
  | zero => intro m newRegion b m1 h; simp [PreoccupiedBufferSpace] at h
  | succ fuel ih =>
    intro m newRegion b m1 h
    unfold PreoccupiedBufferSpace at h
    simp only at h
    rcases hb : B.PreoccupiedDataSpace m.mOckBuffer p
      (if (m.self.mCacheRegion p).mRowNum = 0 then (rowLength + m.self.mMinDataLenInVB) % u32
        else rowLength) newRegion with ⟨flag, buf1⟩
    rw [hb] at h
    cases flag
    · simp only [Option.some.injEq, Prod.mk.injEq] at h
      obtain ⟨hb1, hm1⟩ := h
      subst hb1 hm1
      refine ⟨fun h => absurd h (by simp), fun _ => ?_⟩
      refine ⟨⟨rfl, rfl, rfl, rfl, rfl, rfl, rfl, rfl⟩, fun q hq => Or.inl ?_,
        m.self.mCacheRegion p, Or.inl rfl, ?_⟩
      · simp [UpdateCacheRegion, Function.update_noteq hq]
      · simp [UpdateCacheRegion, appended, preoccupiedSizeFor]
    · simp only at h
      have hw := WritePartVectorBatch_frame B mAllocator vb { m with mOckBuffer := buf1 } p
      rcases hr : WritePartVectorBatch B mAllocator vb { m with mOckBuffer := buf1 } p
        with ⟨b2, m2⟩
      rw [hr] at h hw
      have hw2 : Frame m m2 := Frame_trans m { m with mOckBuffer := buf1 } m2
        (Frame_of_self_eq _ _ rfl) hw
      cases b2
      · simp only [Option.some.injEq, Prod.mk.injEq] at h
        obtain ⟨hb1, hm1⟩ := h
        subst hb1 hm1
        exact ⟨fun _ => hw2, fun h => absurd h (by simp)⟩
      · simp only at h
        obtain ⟨hf, ht⟩ := ih m2 true b m1 h
        exact ⟨fun hb => Frame_trans m m2 m1 hw2 (hf hb),
          fun hb => Reserved_of_frame m m2 m1 p rowIndex rowLength hw2 (ht hb)⟩
    · simp only at h
      have hw := FlushAllRegionAndGetNewBlob_frame B mAllocator vb { m with mOckBuffer := buf1 }
      rcases hr : FlushAllRegionAndGetNewBlob B mAllocator vb { m with mOckBuffer := buf1 }
        with ⟨b2, m2⟩
      rw [hr] at h hw
      have hw2 : Frame m m2 := Frame_trans m { m with mOckBuffer := buf1 } m2
        (Frame_of_self_eq _ _ rfl) hw
      cases b2
      · simp only [Option.some.injEq, Prod.mk.injEq] at h
        obtain ⟨hb1, hm1⟩ := h
        subst hb1 hm1
        exact ⟨fun _ => hw2, fun h => absurd h (by simp)⟩
      · simp only at h
        obtain ⟨hf, ht⟩ := ih m2 false b m1 h
        exact ⟨fun hb => Frame_trans m m2 m1 hw2 (hf hb),
          fun hb => Reserved_of_frame m m2 m1 p rowIndex rowLength hw2 (ht hb)⟩
    · simp only [Option.some.injEq, Prod.mk.injEq] at h
      obtain ⟨hb1, hm1⟩ := h
      subst hb1 hm1
      exact ⟨fun _ => Frame_of_self_eq _ _ rfl, fun h => absurd h (by simp)⟩

/-- C11: a row is appended to a region only after its reservation fully
succeeds. Whenever `PreoccupiedBufferSpace` returns for a row of partition
`partitionId`: if it returns false (a drain, flush or new-buffer step failed,
or the buffer gave an outcome other than `ENOUGH`, `NEW_REGION`, `LACK`), every
region is exactly as it was before the call or has been reset to the empty
region, so the row index was added to no region and no length grew; if it
returns true, every other region is as it was or reset, and the region of
`partitionId` is the region it was (or the empty region, after a drain) with the
row index appended exactly once, its row count one higher and its length grown
by the size asked for (the row length, plus the per-block overhead when that
region held no row). -/
theorem PreoccupiedBufferSpace_appends_only_on_success {σ : Type}
    (B : OckHashWriteBuffer σ) (mAllocator : Nat → Bool) (vb : VectorBatch) (fuel : Nat)
    (m : Machine σ) (partitionId rowIndex rowLength : Nat) (newRegion : Bool) (b : Bool)
    (hret : (PreoccupiedBufferSpace B mAllocator vb fuel m partitionId rowIndex rowLength
      newRegion).map (fun r => r.1) = some b) :
    ∃ m1 : Machine σ,
      PreoccupiedBufferSpace B mAllocator vb fuel m partitionId rowIndex rowLength newRegion
        = some (b, m1)
      ∧ (b = false → ∀ q, m1.self.mCacheRegion q = m.self.mCacheRegion q
          ∨ m1.self.mCacheRegion q = VBRegion.empty)
      ∧ (b = true →
          (∀ q, q ≠ partitionId → m1.self.mCacheRegion q = m.self.mCacheRegion q
            ∨ m1.self.mCacheRegion q = VBRegion.empty)
          ∧ ∃ base : VBRegion,
              (base = m.self.mCacheRegion partitionId ∨ base = VBRegion.empty)
              ∧ (m1.self.mCacheRegion partitionId).mRowIndexes
                  = base.mRowIndexes ++ [rowIndex]
              ∧ (m1.self.mCacheRegion partitionId).mRowNum = base.mRowNum + 1
              ∧ (m1.self.mCacheRegion partitionId).mLength
                  = (base.mLength
                      + (if base.mRowNum = 0 then (rowLength + m.self.mMinDataLenInVB) % u32
                          else rowLength)) % u32) := by
  rcases hs : PreoccupiedBufferSpace B mAllocator vb fuel m partitionId rowIndex rowLength
    newRegion with _ | ⟨b1, m1⟩
  · rw [hs] at hret; simp at hret
  rw [hs] at hret
  simp only [Option.map_some', Option.some.injEq] at hret
  subst hret
  obtain ⟨hf, ht⟩ := PreoccupiedBufferSpace_outcome B mAllocator vb partitionId rowIndex
    rowLength fuel m newRegion b1 m1 hs
  refine ⟨m1, rfl, fun hb => (hf hb).2, fun hb => ?_⟩
  obtain ⟨_, hq, base, hbase, hreg⟩ := ht hb
  refine ⟨hq, base, hbase, ?_, ?_, ?_⟩ <;> rw [hreg] <;> rfl

/-- Witness of C11: the buffer gives an unrecognized outcome for row 1 of
`sampleBatch` while region 0 of `sampleSplitter` holds two rows. -/
theorem PreoccupiedBufferSpace_appends_only_on_success_witness :
    ∃ m1 : Machine (List ResultFlag),
      PreoccupiedBufferSpace (scripted false) (fun _ => true) sampleBatch 2
        (Machine.start sampleSplitter [LACK, UNEXPECTED]) 1 1 14 false = some (false, m1)
      ∧ (false = false → ∀ q, m1.self.mCacheRegion q = sampleSplitter.mCacheRegion q
          ∨ m1.self.mCacheRegion q = VBRegion.empty)
      ∧ (false = true →
          (∀ q, q ≠ 1 → m1.self.mCacheRegion q = sampleSplitter.mCacheRegion q
            ∨ m1.self.mCacheRegion q = VBRegion.empty)
          ∧ ∃ base : VBRegion,
              (base = sampleSplitter.mCacheRegion 1 ∨ base = VBRegion.empty)
              ∧ (m1.self.mCacheRegion 1).mRowIndexes = base.mRowIndexes ++ [1]
              ∧ (m1.self.mCacheRegion 1).mRowNum = base.mRowNum + 1
              ∧ (m1.self.mCacheRegion 1).mLength
                  = (base.mLength
                      + (if base.mRowNum = 0 then (14 + sampleSplitter.mMinDataLenInVB) % u32
                          else 14)) % u32) :=
  PreoccupiedBufferSpace_appends_only_on_success (scripted false) (fun _ => true) sampleBatch 2
    (Machine.start sampleSplitter [LACK, UNEXPECTED]) 1 1 14 false false (by decide)

/-! ## Termination of the reservation protocol -/

theorem PreoccupiedBufferSpace_constant_new_region (mAllocator : Nat → Bool)
    (vb : VectorBatch) (p rowIndex rowLength : Nat) :
    ∀ (fuel : Nat) (m : Machine Unit) (newRegion : Bool),
      (m.self.mCacheRegion p).mRowNum = 0 →
      PreoccupiedBufferSpace (constantAnswer NEW_REGION) mAllocator vb fuel m p rowIndex
        rowLength newRegion = none := by
  intro fuel
  induction fuel with
  | zero => intro m newRegion _; rfl
  | succ fuel ih =>
    intro m newRegion h0
    unfold PreoccupiedBufferSpace
    simp only [constantAnswer]
    have hw : WritePartVectorBatch (constantAnswer NEW_REGION) mAllocator vb
        { m with mOckBuffer := () } p = (true, { m with mOckBuffer := () }) := by
      unfold WritePartVectorBatch
      simp [GetCacheRegion, h0]
    have hw2 := hw
    simp only [constantAnswer] at hw2
    rw [hw2]
    simp only
    exact ih _ true h0

theorem PreoccupiedBufferSpace_constant_lack (mAllocator : Nat → Bool)
    (vb : VectorBatch) (p rowIndex rowLength : Nat) :
    ∀ (fuel : Nat) (m : Machine Unit) (newRegion : Bool),
      m.self.mCacheRegion = (fun _ => VBRegion.empty) →
      PreoccupiedBufferSpace (constantAnswer LACK) mAllocator vb fuel m p rowIndex
        rowLength newRegion = none := by
  intro fuel
  induction fuel with
  | zero => intro m newRegion _; rfl
  | succ fuel ih =>
    intro m newRegion h0
    have hd : ∀ (ps : List Nat),
        DrainPartitions (constantAnswer LACK) mAllocator vb ps { m with mOckBuffer := () }
          = (true, { m with mOckBuffer := () }) := by
      intro ps
      induction ps with
      | nil => rfl
      | cons q rest ihq =>
        unfold DrainPartitions
        simp only [h0, VBRegion.empty, if_true]
        simpa [h0, VBRegion.empty] using ihq
    have hf : FlushAllRegionAndGetNewBlob (constantAnswer LACK) mAllocator vb
        { m with mOckBuffer := () } = (true, { m with mOckBuffer := () }) := by
      unfold FlushAllRegionAndGetNewBlob
      rw [hd]
      cases m with
      | mk self buf blob =>
        cases self
        simp_all [constantAnswer, ResetCacheRegionAll]
    unfold PreoccupiedBufferSpace
    have hf2 := hf
    simp only [constantAnswer] at hf2 ⊢
    rw [hf2]
    simp only
    exact ih _ false h0

/-- C12, counterexample: against a buffer that answers `NEW_REGION` to every
reservation, and against one that answers `LACK` to every reservation while
its flushes and new buffers succeed, `PreoccupiedBufferSpace` for row 0 of a
one-row batch has not returned within any number of recursion levels. -/
theorem PreoccupiedBufferSpace_may_retry_forever :
    (¬ ∃ fuel, (PreoccupiedBufferSpace (constantAnswer NEW_REGION) (fun _ => true) oneRowBatch
        fuel (Machine.start intSplitter ()) 0 0 5 false).isSome = true)
    ∧ (¬ ∃ fuel, (PreoccupiedBufferSpace (constantAnswer LACK) (fun _ => true) oneRowBatch
        fuel (Machine.start intSplitter ()) 0 0 5 false).isSome = true) := by
  constructor
  · rintro ⟨fuel, h⟩
    rw [PreoccupiedBufferSpace_constant_new_region (fun _ => true) oneRowBatch 0 0 5 fuel
      (Machine.start intSplitter ()) false (by decide)] at h
    simp at h
  · rintro ⟨fuel, h⟩
    rw [PreoccupiedBufferSpace_constant_lack (fun _ => true) oneRowBatch 0 0 5 fuel
      (Machine.start intSplitter ()) false (by rfl)] at h
    simp at h

theorem WritePartVectorBatch_rank {σ : Type} (B : OckHashWriteBuffer σ) (rank : σ → Nat)
    (hrank : BufferRank B rank) (mAllocator : Nat → Bool) (vb : VectorBatch) (m : Machine σ)
    (p : Nat) :
    rank (WritePartVectorBatch B mAllocator vb m p).2.mOckBuffer ≤ rank m.mOckBuffer := by
  unfold WritePartVectorBatch
  simp only [GetCacheRegion]
  by_cases h0 : (m.self.mCacheRegion p).mRowNum = 0
  · simp [h0]
  · simp only [h0, if_false]
    split <;> exact hrank.1 _ _ _

theorem DrainPartitions_rank {σ : Type} (B : OckHashWriteBuffer σ) (rank : σ → Nat)
    (hrank : BufferRank B rank) (mAllocator : Nat → Bool) (vb : VectorBatch) :
    ∀ (ps : List Nat) (m : Machine σ),
      rank (DrainPartitions B mAllocator vb ps m).2.mOckBuffer ≤ rank m.mOckBuffer := by
  intro ps
  induction ps with
  | nil => intro m; simp [DrainPartitions]
  | cons p rest ih =>
    intro m
    unfold DrainPartitions
    by_cases h0 : (m.self.mCacheRegion p).mRowNum = 0
    · simp only [h0, if_true]
      exact ih m
    · simp only [h0, if_false]
      have hw := WritePartVectorBatch_rank B rank hrank mAllocator vb m p
      rcases hr : WritePartVectorBatch B mAllocator vb m p with ⟨b, m2⟩
      rw [hr] at hw
      cases b
      · exact hw
      · exact Nat.le_trans (ih m2) hw

theorem FlushAllRegionAndGetNewBlob_rank {σ : Type} (B : OckHashWriteBuffer σ)
    (rank : σ → Nat) (hrank : BufferRank B rank) (mAllocator : Nat → Bool) (vb : VectorBatch)
    (m : Machine σ) :
    rank (FlushAllRegionAndGetNewBlob B mAllocator vb m).2.mOckBuffer ≤ rank m.mOckBuffer := by
  unfold FlushAllRegionAndGetNewBlob
  have hd := DrainPartitions_rank B rank hrank mAllocator vb (List.range m.self.mPartitionNum) m
  rcases hr : DrainPartitions B mAllocator vb (List.range m.self.mPartitionNum) m with ⟨b, m2⟩
  rw [hr] at hd
  cases b
  · exact hd
  · have hf := hrank.2.1 m2.mOckBuffer false
    have hn := hrank.2.2.1 (B.Flush m2.mOckBuffer false).2.2
    simp only
    split
    · exact Nat.le_trans hf hd
    · split <;> exact Nat.le_trans hn (Nat.le_trans hf hd)

theorem PreoccupiedBufferSpace_returns {σ : Type} (B : OckHashWriteBuffer σ)
    (rank : σ → Nat) (hrank : BufferRank B rank) (mAllocator : Nat → Bool) (vb : VectorBatch)
    (p rowIndex rowLength : Nat) :
    ∀ (fuel : Nat) (m : Machine σ) (newRegion : Bool), rank m.mOckBuffer < fuel →
      (PreoccupiedBufferSpace B mAllocator vb fuel m p rowIndex rowLength newRegion).isSome
        = true := by
  intro fuel
  induction fuel with
  | zero => intro m newRegion h; omega
  | succ fuel ih =>
    intro m newRegion hlt
    unfold PreoccupiedBufferSpace
    simp only
    have hP := hrank.2.2.2 m.mOckBuffer p
      (if (m.self.mCacheRegion p).mRowNum = 0 then (rowLength + m.self.mMinDataLenInVB) % u32
        else rowLength) newRegion
    rcases hb : B.PreoccupiedDataSpace m.mOckBuffer p
      (if (m.self.mCacheRegion p).mRowNum = 0 then (rowLength + m.self.mMinDataLenInVB) % u32
        else rowLength) newRegion with ⟨flag, buf1⟩
    rw [hb] at hP
    cases flag
    · rfl
    · simp only
      have hlow : rank buf1 < rank m.mOckBuffer := hP (Or.inl rfl)
      have hw := WritePartVectorBatch_rank B rank hrank mAllocator vb
        { m with mOckBuffer := buf1 } p
      rcases hr : WritePartVectorBatch B mAllocator vb { m with mOckBuffer := buf1 } p
        with ⟨b2, m2⟩
      rw [hr] at hw
      cases b2
      · rfl
      · exact ih m2 true (by simp only at hw; omega)
    · simp only
      have hlow : rank buf1 < rank m.mOckBuffer := hP (Or.inr rfl)
      have hw := FlushAllRegionAndGetNewBlob_rank B rank hrank mAllocator vb
        { m with mOckBuffer := buf1 }
      rcases hr : FlushAllRegionAndGetNewBlob B mAllocator vb { m with mOckBuffer := buf1 }
        with ⟨b2, m2⟩
      rw [hr] at hw
      cases b2
      · rfl
      · exact ih m2 false (by simp only at hw; omega)
    · rfl

theorem PreoccupiedBufferSpace_fuel_mono {σ : Type} (B : OckHashWriteBuffer σ)
    (mAllocator : Nat → Bool) (vb : VectorBatch) (p rowIndex rowLength : Nat) :
    ∀ (fuel : Nat) (m : Machine σ) (newRegion : Bool) (r : Bool × Machine σ),
      PreoccupiedBufferSpace B mAllocator vb fuel m p rowIndex rowLength newRegion = some r →
      PreoccupiedBufferSpace B mAllocator vb (fuel + 1) m p rowIndex rowLength newRegion
        = some r := by
  intro fuel
  induction fuel with
  | zero => intro m newRegion r h; simp [PreoccupiedBufferSpace] at h
  | succ fuel ih =>
    intro m newRegion r h
    unfold PreoccupiedBufferSpace at h ⊢
    simp only at h ⊢
    rcases hb : B.PreoccupiedDataSpace m.mOckBuffer p
      (if (m.self.mCacheRegion p).mRowNum = 0 then (rowLength + m.self.mMinDataLenInVB) % u32
        else rowLength) newRegion with ⟨flag, buf1⟩
    rw [hb] at h
    cases flag
    · exact h
    · simp only at h ⊢
      rcases hr : WritePartVectorBatch B mAllocator vb { m with mOckBuffer := buf1 } p
        with ⟨b2, m2⟩
      rw [hr] at h
      cases b2
      · exact h
      · exact ih m2 true r h
    · simp only at h ⊢
      rcases hr : FlushAllRegionAndGetNewBlob B mAllocator vb { m with mOckBuffer := buf1 }
        with ⟨b2, m2⟩
      rw [hr] at h
      cases b2
      · exact h
      · exact ih m2 false r h
    · exact h

theorem scripted_rank (compress : Bool) : BufferRank (scripted compress) List.length := by
  refine ⟨fun b p l => Nat.le_refl _, fun b f => Nat.le_refl _, fun b => Nat.le_refl _, ?_⟩
  intro b p l f h
  cases b with
  | nil => simp [scripted] at h
  | cons a rest => simp [scripted]

/-- A sufficient condition on the buffer alone: if `rank` bounds the
`NEW_REGION` and `LACK` answers the buffer can still give (`BufferRank`),
`PreoccupiedBufferSpace` returns within `rank + 1` recursion levels, and a
larger bound on the levels gives the same result. -/
theorem PreoccupiedBufferSpace_returns_of_rank {σ : Type}
    (B : OckHashWriteBuffer σ) (rank : σ → Nat) (hrank : BufferRank B rank)
    (mAllocator : Nat → Bool) (vb : VectorBatch) (m : Machine σ)
    (partitionId rowIndex rowLength : Nat) (newRegion : Bool) :
    (∃ r, PreoccupiedBufferSpace B mAllocator vb (rank m.mOckBuffer + 1) m partitionId rowIndex
        rowLength newRegion = some r)
    ∧ ∀ fuel r extra,
        PreoccupiedBufferSpace B mAllocator vb fuel m partitionId rowIndex rowLength newRegion
          = some r →
        PreoccupiedBufferSpace B mAllocator vb (fuel + extra) m partitionId rowIndex rowLength
          newRegion = some r := by
  constructor
  · exact Option.isSome_iff_exists.mp
      (PreoccupiedBufferSpace_returns B rank hrank mAllocator vb partitionId rowIndex rowLength
        _ m newRegion (Nat.lt_succ_self _))
  · intro fuel r extra h
    induction extra with
    | zero => exact h
    | succ k ihk =>
      exact PreoccupiedBufferSpace_fuel_mono B mAllocator vb partitionId rowIndex rowLength
        (fuel + k) m newRegion r ihk

/-- An instance: a buffer that answers `NEW_REGION`, `LACK` and then `ENOUGH`,
for row 0 of the one-row batch. -/
theorem PreoccupiedBufferSpace_returns_of_rank_example :
    ∃ r, PreoccupiedBufferSpace (scripted false) (fun _ => true) oneRowBatch
        ([NEW_REGION, LACK].length + 1) (Machine.start intSplitter [NEW_REGION, LACK]) 0 0 5
        false = some r :=
  (PreoccupiedBufferSpace_returns_of_rank (scripted false) List.length
    (scripted_rank false) (fun _ => true) oneRowBatch
    (Machine.start intSplitter [NEW_REGION, LACK]) 0 0 5 false).1

/-! ## Region rollover -/

/-- What a drain of a region that holds rows does, whatever its outcome: one
block is stored, for the rows and with the header fields of the region, at the
address the buffer gave; the call returns whether the columns were written, and
on success the region of the partition, and no other, is reset. -/
theorem WritePartVectorBatch_nonempty {σ : Type} (B : OckHashWriteBuffer σ)
    (mAllocator : Nat → Bool) (vb : VectorBatch) (m : Machine σ) (p : Nat)
    (hk : (m.self.mCacheRegion p).mRowNum ≠ 0) :
    ∃ block : Block,
      (WritePartVectorBatch B mAllocator vb m p).2.blob = m.blob ++ [block]
      ∧ block.partitionId = p
      ∧ block.address
          = (B.GetEndAddressOfRegion m.mOckBuffer p (m.self.mCacheRegion p).mLength).1
      ∧ block.rowIndexes
          = rowsOf (m.self.mCacheRegion p).mRowIndexes (m.self.mCacheRegion p).mRowNum
      ∧ block.length = (m.self.mCacheRegion p).mLength
      ∧ block.rowNum = (m.self.mCacheRegion p).mRowNum
      ∧ block.ok = (WritePartVectorBatch B mAllocator vb m p).1
      ∧ (WritePartVectorBatch B mAllocator vb m p).2.mOckBuffer
          = (B.GetEndAddressOfRegion m.mOckBuffer p (m.self.mCacheRegion p).mLength).2
      ∧ (WritePartVectorBatch B mAllocator vb m p).2.self.mMinDataLenInVB
          = m.self.mMinDataLenInVB
      ∧ ((WritePartVectorBatch B mAllocator vb m p).1 = true →
          (WritePartVectorBatch B mAllocator vb m p).2.self.mCacheRegion
            = Function.update m.self.mCacheRegion p VBRegion.empty) := by
  unfold WritePartVectorBatch
  simp only [GetCacheRegion, hk, if_false]
  split
  · rename_i hok
    refine ⟨_, rfl, rfl, rfl, rfl, rfl, rfl, ?_, rfl, rfl, ?_⟩
    · simpa using hok
    · intro h; cases h
  · rename_i hok
    refine ⟨_, rfl, rfl, rfl, rfl, rfl, rfl, ?_, rfl, rfl, ?_⟩
    · simpa using hok
    · intro _; rfl

/-- C13: region rollover. When the buffer answers `NEW_REGION` for a row of
partition `p` whose region holds `k >= 1` rows, the drain of `p` succeeds and
the retried reservation is answered `ENOUGH`, then `PreoccupiedBufferSpace`
returns `true` and: the block stored for `p` has header row count `k`, the
rows and the length of the region before the rollover; the journal of buffer
calls grew by the refused reservation, the address request of the drain and the
retry `preoccupied p (rowLength + mMinDataLenInVB) true`, in this order; the
region of `p` holds exactly the current row with that length and every other
region is unchanged; and the next drain of `p` stores a block of its own for
this single row. -/
theorem PreoccupiedBufferSpace_region_rollover {σ : Type} (B : OckHashWriteBuffer σ)
    (mAllocator : Nat → Bool) (vb : VectorBatch) (fuel : Nat)
    (m : Machine (σ × List BufferCall)) (p rowIndex rowLength : Nat) (newRegion : Bool)
    (hk : (m.self.mCacheRegion p).mRowNum ≠ 0)
    (hfit : rowLength + m.self.mMinDataLenInVB < u32)
    (hnew : (B.PreoccupiedDataSpace m.mOckBuffer.1 p rowLength newRegion).1 = NEW_REGION)
    (hdrain : (WritePartVectorBatch (traced B) mAllocator vb
        { m with mOckBuffer :=
            ((traced B).PreoccupiedDataSpace m.mOckBuffer p rowLength newRegion).2 } p).1 = true)
    (henough : (B.PreoccupiedDataSpace
        (B.GetEndAddressOfRegion (B.PreoccupiedDataSpace m.mOckBuffer.1 p rowLength newRegion).2
          p (m.self.mCacheRegion p).mLength).2
        p (rowLength + m.self.mMinDataLenInVB) true).1 = ENOUGH) :
    ∃ (m3 : Machine (σ × List BufferCall)) (block : Block),
      PreoccupiedBufferSpace (traced B) mAllocator vb (fuel + 2) m p rowIndex rowLength newRegion
        = some (true, m3)
      ∧ m3.blob = m.blob ++ [block]
      ∧ block.partitionId = p
      ∧ block.rowNum = (m.self.mCacheRegion p).mRowNum
      ∧ block.rowIndexes
          = rowsOf (m.self.mCacheRegion p).mRowIndexes (m.self.mCacheRegion p).mRowNum
      ∧ block.length = (m.self.mCacheRegion p).mLength
      ∧ block.ok = true
      ∧ m3.mOckBuffer.2 = m.mOckBuffer.2 ++
          [BufferCall.preoccupied p rowLength newRegion NEW_REGION,
           BufferCall.getEndAddress p (m.self.mCacheRegion p).mLength block.address,
           BufferCall.preoccupied p (rowLength + m.self.mMinDataLenInVB) true ENOUGH]
      ∧ m3.self.mCacheRegion p
          = { mRowIndexes := [rowIndex], mLength := rowLength + m.self.mMinDataLenInVB,
              mRowNum := 1 }
      ∧ (∀ q, q ≠ p → m3.self.mCacheRegion q = m.self.mCacheRegion q)
      ∧ ∃ next : Block,
          (WritePartVectorBatch (traced B) mAllocator vb m3 p).2.blob
            = m.blob ++ [block, next]
          ∧ next.partitionId = p
          ∧ next.rowNum = 1
          ∧ next.rowIndexes = [rowIndex]
          ∧ next.length = rowLength + m.self.mMinDataLenInVB := by
  obtain ⟨block, hblob, hpid, haddr, hrows, hlen, hnum, hok, hbuf, hmin, hreset⟩ :=
    WritePartVectorBatch_nonempty (traced B) mAllocator vb
      { m with mOckBuffer :=
          ((traced B).PreoccupiedDataSpace m.mOckBuffer p rowLength newRegion).2 } p hk
  have hreset2 := hreset hdrain
  have hflag1 : (traced B).PreoccupiedDataSpace m.mOckBuffer p rowLength newRegion
      = (NEW_REGION, ((traced B).PreoccupiedDataSpace m.mOckBuffer p rowLength newRegion).2) :=
    Prod.ext hnew rfl
  generalize hW : WritePartVectorBatch (traced B) mAllocator vb
      { m with mOckBuffer :=
          ((traced B).PreoccupiedDataSpace m.mOckBuffer p rowLength newRegion).2 } p = W at *
  rcases W with ⟨b, m2⟩
  simp only at hdrain hblob hok hbuf hmin hreset2
  subst hdrain
  have hregion : m2.self.mCacheRegion p = VBRegion.empty := by
    rw [hreset2]; simp
  have hsize : (rowLength + m2.self.mMinDataLenInVB) % u32
      = rowLength + m.self.mMinDataLenInVB := by
    rw [hmin]; exact Nat.mod_eq_of_lt hfit
  have hflag2 : (traced B).PreoccupiedDataSpace m2.mOckBuffer p
      (rowLength + m.self.mMinDataLenInVB) true
      = (ENOUGH, ((traced B).PreoccupiedDataSpace m2.mOckBuffer p
          (rowLength + m.self.mMinDataLenInVB) true).2) := by
    refine Prod.ext ?_ rfl
    rw [hbuf]
    exact henough
  have hcall : PreoccupiedBufferSpace (traced B) mAllocator vb (fuel + 2) m p rowIndex rowLength
      newRegion = some (true, { m2 with
        self := UpdateCacheRegion m2.self p rowIndex (rowLength + m.self.mMinDataLenInVB)
        mOckBuffer := ((traced B).PreoccupiedDataSpace m2.mOckBuffer p
          (rowLength + m.self.mMinDataLenInVB) true).2 }) := by
    unfold PreoccupiedBufferSpace
    simp only [hk, if_false]
    rw [hflag1]
    simp only
    rw [hW]
    simp only
    unfold PreoccupiedBufferSpace
    simp only [hregion, VBRegion.empty, if_true, hsize]
    rw [hflag2]
  have hp3 : (UpdateCacheRegion m2.self p rowIndex
      (rowLength + m.self.mMinDataLenInVB)).mCacheRegion p
      = { mRowIndexes := [rowIndex], mLength := rowLength + m.self.mMinDataLenInVB,
          mRowNum := 1 } := by
    simp only [UpdateCacheRegion, Function.update_same, hregion, VBRegion.empty,
      List.nil_append, Nat.zero_add]
    rw [← Nat.mod_eq_of_lt hfit, Nat.mod_mod]
  have hj : m2.mOckBuffer.2 = m.mOckBuffer.2 ++
      [BufferCall.preoccupied p rowLength newRegion NEW_REGION,
       BufferCall.getEndAddress p (m.self.mCacheRegion p).mLength block.address] := by
    rw [hbuf, haddr]
    simp [traced, hnew]
  have h1 : m2.mOckBuffer.1
      = (B.GetEndAddressOfRegion (B.PreoccupiedDataSpace m.mOckBuffer.1 p rowLength newRegion).2
          p (m.self.mCacheRegion p).mLength).2 := by
    rw [hbuf]; rfl
  refine ⟨_, block, hcall, hblob, hpid, hnum, hrows, hlen, hok, ?_, hp3, ?_, ?_⟩
  · show m2.mOckBuffer.2 ++ [BufferCall.preoccupied p (rowLength + m.self.mMinDataLenInVB) true
        (B.PreoccupiedDataSpace m2.mOckBuffer.1 p (rowLength + m.self.mMinDataLenInVB) true).1]
      = _
    rw [h1, henough, hj]
    simp
  · intro q hq
    simp only [UpdateCacheRegion, Function.update_noteq hq]
    rw [hreset2, Function.update_noteq hq]
  · have hk3 : (({ m2 with
        self := UpdateCacheRegion m2.self p rowIndex (rowLength + m.self.mMinDataLenInVB)
        mOckBuffer := ((traced B).PreoccupiedDataSpace m2.mOckBuffer p
          (rowLength + m.self.mMinDataLenInVB) true).2 } :
          Machine (σ × List BufferCall)).self.mCacheRegion p).mRowNum ≠ 0 := by
      show ((UpdateCacheRegion m2.self p rowIndex
        (rowLength + m.self.mMinDataLenInVB)).mCacheRegion p).mRowNum ≠ 0
      rw [hp3]; exact Nat.succ_ne_zero 0
    obtain ⟨next, nblob, npid, _, nrows, nlen, nnum, _⟩ :=
      WritePartVectorBatch_nonempty (traced B) mAllocator vb _ p hk3
    refine ⟨next, ?_, npid, ?_, ?_, ?_⟩
    · rw [nblob]
      show m2.blob ++ [next] = _
      rw [hblob]; simp
    · rw [nnum]
      show ((UpdateCacheRegion m2.self p rowIndex
        (rowLength + m.self.mMinDataLenInVB)).mCacheRegion p).mRowNum = 1
      rw [hp3]
    · rw [nrows]
      show rowsOf ((UpdateCacheRegion m2.self p rowIndex
        (rowLength + m.self.mMinDataLenInVB)).mCacheRegion p).mRowIndexes
        ((UpdateCacheRegion m2.self p rowIndex
        (rowLength + m.self.mMinDataLenInVB)).mCacheRegion p).mRowNum = _
      rw [hp3]; rfl
    · rw [nlen]
      show ((UpdateCacheRegion m2.self p rowIndex
        (rowLength + m.self.mMinDataLenInVB)).mCacheRegion p).mLength = _
      rw [hp3]

/-- Witness of C13: region 0 of `sampleSplitter` holds rows 0 and 2 when the
buffer refuses row 3 of `rolloverBatch` with `NEW_REGION` and then grants it. -/
theorem PreoccupiedBufferSpace_region_rollover_witness :
    GetPartitionIdOfRow sampleSplitter rolloverBatch 3 = 0
    ∧ GetRowLengthInBytes sampleSplitter rolloverBatch 3 = 14
    ∧ ∃ (m3 : Machine (List ResultFlag × List BufferCall)) (block : Block),
        PreoccupiedBufferSpace (traced (scripted false)) (fun _ => true) rolloverBatch 2
          (Machine.start sampleSplitter ([NEW_REGION], [])) 0 3 14 false = some (true, m3)
        ∧ m3.blob = [block]
        ∧ block.rowNum = 2
        ∧ block.rowIndexes = [0, 2]
        ∧ m3.self.mCacheRegion 0 = { mRowIndexes := [3], mLength := 22, mRowNum := 1 } := by
  refine ⟨by decide, by decide, ?_⟩
  obtain ⟨m3, block, h1, h2, _, h4, h5, _, _, _, h9, _⟩ :=
    PreoccupiedBufferSpace_region_rollover (scripted false) (fun _ => true) rolloverBatch 0
      (Machine.start sampleSplitter ([NEW_REGION], [])) 0 3 14 false
      (by decide) (by decide) rfl rfl rfl
  exact ⟨m3, block, h1, h2, h4, h5, h9⟩

/-! ## Buffer exhaustion -/

/-- The journal of a drain loop over distinct partitions: only address requests
are made, and when the loop succeeds they are the requests of the partitions
that held rows, in loop order, while every partition outside the loop keeps its
region. -/
theorem DrainPartitions_journal {σ : Type} (B : OckHashWriteBuffer σ)
    (mAllocator : Nat → Bool) (vb : VectorBatch) :
    ∀ (ps : List Nat), ps.Nodup → ∀ (m : Machine (σ × List BufferCall)),
      ∃ calls : List BufferCall,
        (DrainPartitions (traced B) mAllocator vb ps m).2.mOckBuffer.2
          = m.mOckBuffer.2 ++ calls
        ∧ (∀ c ∈ calls, (drainCallOf c).isSome = true)
        ∧ ((DrainPartitions (traced B) mAllocator vb ps m).1 = true →
            calls.map drainCallOf
              = ((ps.filter (fun q => decide ((m.self.mCacheRegion q).mRowNum ≠ 0))).map
                  (fun q => some (q, (m.self.mCacheRegion q).mLength)))
            ∧ ∀ q, q ∉ ps →
                (DrainPartitions (traced B) mAllocator vb ps m).2.self.mCacheRegion q
                  = m.self.mCacheRegion q) := by
  intro ps
  induction ps with
  | nil =>
    intro _ m
    exact ⟨[], by simp [DrainPartitions], by simp, fun _ => ⟨by simp, fun _ _ => rfl⟩⟩
  | cons p rest ih =>
    intro hnd m
    have hp : p ∉ rest := (List.nodup_cons.mp hnd).1
    have hrest : rest.Nodup := (List.nodup_cons.mp hnd).2
    unfold DrainPartitions
    by_cases h0 : (m.self.mCacheRegion p).mRowNum = 0
    · simp only [h0, if_true]
      obtain ⟨calls, hj, hall, hok⟩ := ih hrest m
      refine ⟨calls, hj, hall, fun hb => ?_⟩
      obtain ⟨hmap, hframe⟩ := hok hb
      refine ⟨?_, fun q hq => hframe q (fun hmem => hq (List.mem_cons_of_mem _ hmem))⟩
      rw [hmap, List.filter_cons_of_neg (by simp [h0])]
    · simp only [h0, if_false]
      obtain ⟨block, _, _, _, _, _, _, _, hbuf, _, hreset⟩ :=
        WritePartVectorBatch_nonempty (traced B) mAllocator vb m p h0
      rcases hW : WritePartVectorBatch (traced B) mAllocator vb m p with ⟨b, m1⟩
      rw [hW] at hbuf hreset
      simp only at hbuf hreset
      have hj1 : m1.mOckBuffer.2 = m.mOckBuffer.2 ++
          [BufferCall.getEndAddress p (m.self.mCacheRegion p).mLength
            (B.GetEndAddressOfRegion m.mOckBuffer.1 p (m.self.mCacheRegion p).mLength).1] := by
        rw [hbuf]; rfl
      cases b
      · refine ⟨_, hj1, ?_, fun hb => by cases hb⟩
        intro c hc
        simp only [List.mem_singleton] at hc
        subst hc
        rfl
      · have hreg := hreset rfl
        obtain ⟨calls, hj, hall, hok⟩ := ih hrest m1
        refine ⟨BufferCall.getEndAddress p (m.self.mCacheRegion p).mLength
          (B.GetEndAddressOfRegion m.mOckBuffer.1 p (m.self.mCacheRegion p).mLength).1 :: calls,
          ?_, ?_, fun hb => ?_⟩
        · simp only
          rw [hj, hj1]
          simp
        · intro c hc
          rcases List.mem_cons.mp hc with hc | hc
          · subst hc; rfl
          · exact hall c hc
        · obtain ⟨hmap, hframe⟩ := hok hb
          have hsame : ∀ q ∈ rest, m1.self.mCacheRegion q = m.self.mCacheRegion q := by
            intro q hq
            rw [hreg, Function.update_noteq]
            rintro rfl
            exact hp hq
          refine ⟨?_, fun q hq => ?_⟩
          · rw [List.filter_cons_of_pos (by simpa using h0)]
            simp only [List.map_cons, drainCallOf]
            rw [hmap]
            congr 1
            have hfilter : rest.filter (fun q => decide ((m1.self.mCacheRegion q).mRowNum ≠ 0))
                = rest.filter (fun q => decide ((m.self.mCacheRegion q).mRowNum ≠ 0)) :=
              List.filter_congr (fun q hq => by rw [hsame q hq])
            rw [hfilter]
            apply List.map_congr_left
            intro q hq
            rw [hsame q (List.mem_of_mem_filter hq)]
          · have hq1 : q ≠ p := fun h => hq (h ▸ List.mem_cons_self _ _)
            have hq2 : q ∉ rest := fun hmem => hq (List.mem_cons_of_mem _ hmem)
            simp only
            rw [hframe q hq2, hreg, Function.update_noteq hq1]

/-- The journal of `FlushAllRegionAndGetNewBlob`, outcome by outcome: a failing
drain stops before any flush; otherwise every partition holding rows was
drained, in increasing order, before `Flush(false)`; `GetNewBuffer` follows only
a successful flush; and the call succeeds only after both, with every region
empty. -/
theorem FlushAllRegionAndGetNewBlob_journal {σ : Type} (B : OckHashWriteBuffer σ)
    (mAllocator : Nat → Bool) (vb : VectorBatch) (m : Machine (σ × List BufferCall)) :
    ∃ drains : List BufferCall,
      (∀ c ∈ drains, (drainCallOf c).isSome = true)
      ∧ (((FlushAllRegionAndGetNewBlob (traced B) mAllocator vb m).1 = false
          ∧ (FlushAllRegionAndGetNewBlob (traced B) mAllocator vb m).2.mOckBuffer.2
              = m.mOckBuffer.2 ++ drains)
        ∨ (∃ size,
            (FlushAllRegionAndGetNewBlob (traced B) mAllocator vb m).1 = false
            ∧ drains.map drainCallOf = (pendingPartitions m).map some
            ∧ ((FlushAllRegionAndGetNewBlob (traced B) mAllocator vb m).2.mOckBuffer.2
                = m.mOckBuffer.2 ++ drains ++ [BufferCall.flush false false size]
              ∨ (FlushAllRegionAndGetNewBlob (traced B) mAllocator vb m).2.mOckBuffer.2
                = m.mOckBuffer.2 ++ drains
                    ++ [BufferCall.flush false true size, BufferCall.getNewBuffer false]))
        ∨ (∃ size,
            (FlushAllRegionAndGetNewBlob (traced B) mAllocator vb m).1 = true
            ∧ drains.map drainCallOf = (pendingPartitions m).map some
            ∧ (FlushAllRegionAndGetNewBlob (traced B) mAllocator vb m).2.mOckBuffer.2
                = m.mOckBuffer.2 ++ drains
                    ++ [BufferCall.flush false true size, BufferCall.getNewBuffer true]
            ∧ ∀ q, (FlushAllRegionAndGetNewBlob (traced B) mAllocator vb m).2.self.mCacheRegion q
                = VBRegion.empty)) := by
  obtain ⟨drains, hj, hall, hok⟩ := DrainPartitions_journal B mAllocator vb
    (List.range m.self.mPartitionNum) (List.nodup_range _) m
  refine ⟨drains, hall, ?_⟩
  unfold FlushAllRegionAndGetNewBlob
  rcases hD : DrainPartitions (traced B) mAllocator vb (List.range m.self.mPartitionNum) m
    with ⟨b, m1⟩
  rw [hD] at hj hok
  simp only at hj hok
  cases b
  · exact Or.inl ⟨rfl, hj⟩
  · have hmap : drains.map drainCallOf = (pendingPartitions m).map some := by
      rw [(hok rfl).1, pendingPartitions, List.map_map]
      rfl
    by_cases hf : (B.Flush m1.mOckBuffer.1 false).1 = false
    · refine Or.inr (Or.inl ⟨(B.Flush m1.mOckBuffer.1 false).2.1, ?_, hmap, Or.inl ?_⟩)
      · simp [traced, hf]
      · simp [traced, hf, hj]
    · have hf2 : (B.Flush m1.mOckBuffer.1 false).1 = true := by simpa using hf
      by_cases hn : (B.GetNewBuffer (B.Flush m1.mOckBuffer.1 false).2.2).1 = false
      · refine Or.inr (Or.inl ⟨(B.Flush m1.mOckBuffer.1 false).2.1, ?_, hmap, Or.inr ?_⟩)
        · simp [traced, hf2, hn]
        · simp [traced, hf2, hn, hj]
      · have hn2 : (B.GetNewBuffer (B.Flush m1.mOckBuffer.1 false).2.2).1 = true := by
          simpa using hn
        refine Or.inr (Or.inr ⟨(B.Flush m1.mOckBuffer.1 false).2.1, ?_, hmap, ?_, ?_⟩)
        · simp [traced, hf2, hn2]
        · simp [traced, hf2, hn2, hj]
        · intro q
          simp only [traced, hf2, hn2]
          by_cases hc : B.IsCompress (B.Flush m1.mOckBuffer.1 false).2.2 = true
          · simp [hc, ResetCacheRegionAll]
          · simp [hc, ResetCacheRegionAll]

/-- A successful `FlushAllRegionAndGetNewBlob` leaves every region empty,
whatever the buffer. -/
theorem FlushAllRegionAndGetNewBlob_empties {τ : Type} (B : OckHashWriteBuffer τ)
    (mAllocator : Nat → Bool) (vb : VectorBatch) (m : Machine τ)
    (h : (FlushAllRegionAndGetNewBlob B mAllocator vb m).1 = true) (q : Nat) :
    (FlushAllRegionAndGetNewBlob B mAllocator vb m).2.self.mCacheRegion q = VBRegion.empty := by
  unfold FlushAllRegionAndGetNewBlob at h ⊢
  rcases hD : DrainPartitions B mAllocator vb (List.range m.self.mPartitionNum) m with ⟨b, m1⟩
  rw [hD] at h
  cases b
  · simp at h
  · simp only at h ⊢
    by_cases hf : (B.Flush m1.mOckBuffer false).1 = false
    · simp [hf] at h
    · by_cases hn : (B.GetNewBuffer (B.Flush m1.mOckBuffer false).2.2).1 = false
      · simp [hf, hn] at h
      · simp only [hf, hn, if_false]
        by_cases hc : B.IsCompress (B.Flush m1.mOckBuffer false).2.2 = true
        · simp [hc, ResetCacheRegionAll]
        · simp [hc, ResetCacheRegionAll]

/-- C14: buffer exhaustion ordering. When the buffer answers `LACK` to a
reservation, the journal of buffer calls shows what follows: address requests
of the drains only, and, unless a drain fails, one for every partition holding
rows (in increasing order) before `Flush(false)`; `GetNewBuffer` only after a
successful flush. If the flush-all fails the reservation returns `false`
without a retry; if it succeeds, the journal is the drains, then the flush,
then `GetNewBuffer`, every region is empty, and the reservation of the same row
is retried from that state with `forceNewRegion = false`. A successful
`FlushAllRegionAndGetNewBlob` leaves every region empty for every buffer. -/
theorem PreoccupiedBufferSpace_lack_ordering {σ : Type} (B : OckHashWriteBuffer σ)
    (mAllocator : Nat → Bool) (vb : VectorBatch) (fuel : Nat)
    (m : Machine (σ × List BufferCall)) (p rowIndex rowLength : Nat) (newRegion : Bool)
    (hlack : (B.PreoccupiedDataSpace m.mOckBuffer.1 p
      (preoccupiedSizeFor m.self (m.self.mCacheRegion p) rowLength) newRegion).1 = LACK) :
    (∃ (m1 : Machine (σ × List BufferCall)) (ok : Bool) (drains : List BufferCall),
      FlushAllRegionAndGetNewBlob (traced B) mAllocator vb
        { m with mOckBuffer := ((traced B).PreoccupiedDataSpace m.mOckBuffer p
            (preoccupiedSizeFor m.self (m.self.mCacheRegion p) rowLength) newRegion).2 }
        = (ok, m1)
      ∧ (∀ c ∈ drains, (drainCallOf c).isSome = true)
      ∧ (ok = false →
          PreoccupiedBufferSpace (traced B) mAllocator vb (fuel + 1) m p rowIndex rowLength
            newRegion = some (false, m1)
          ∧ (m1.mOckBuffer.2 = m.mOckBuffer.2
                ++ [BufferCall.preoccupied p
                      (preoccupiedSizeFor m.self (m.self.mCacheRegion p) rowLength) newRegion LACK]
                ++ drains
            ∨ ∃ size, drains.map drainCallOf = (pendingPartitions m).map some
                ∧ (m1.mOckBuffer.2 = m.mOckBuffer.2
                      ++ [BufferCall.preoccupied p
                            (preoccupiedSizeFor m.self (m.self.mCacheRegion p) rowLength)
                            newRegion LACK]
                      ++ drains ++ [BufferCall.flush false false size]
                  ∨ m1.mOckBuffer.2 = m.mOckBuffer.2
                      ++ [BufferCall.preoccupied p
                            (preoccupiedSizeFor m.self (m.self.mCacheRegion p) rowLength)
                            newRegion LACK]
                      ++ drains
                      ++ [BufferCall.flush false true size, BufferCall.getNewBuffer false])))
      ∧ (ok = true →
          ∃ size, drains.map drainCallOf = (pendingPartitions m).map some
            ∧ m1.mOckBuffer.2 = m.mOckBuffer.2
                ++ [BufferCall.preoccupied p
                      (preoccupiedSizeFor m.self (m.self.mCacheRegion p) rowLength) newRegion LACK]
                ++ drains ++ [BufferCall.flush false true size, BufferCall.getNewBuffer true]
            ∧ (∀ q, m1.self.mCacheRegion q = VBRegion.empty)
            ∧ PreoccupiedBufferSpace (traced B) mAllocator vb (fuel + 1) m p rowIndex rowLength
                newRegion
              = PreoccupiedBufferSpace (traced B) mAllocator vb fuel m1 p rowIndex rowLength
                  false))
    ∧ ∀ (τ : Type) (B2 : OckHashWriteBuffer τ) (m2 : Machine τ),
        (FlushAllRegionAndGetNewBlob B2 mAllocator vb m2).1 = true →
        ∀ q, (FlushAllRegionAndGetNewBlob B2 mAllocator vb m2).2.self.mCacheRegion q
          = VBRegion.empty := by
  refine ⟨?_, fun τ B2 m2 h q => FlushAllRegionAndGetNewBlob_empties B2 mAllocator vb m2 h q⟩
  have hflag : (traced B).PreoccupiedDataSpace m.mOckBuffer p
      (preoccupiedSizeFor m.self (m.self.mCacheRegion p) rowLength) newRegion
      = (LACK, ((traced B).PreoccupiedDataSpace m.mOckBuffer p
          (preoccupiedSizeFor m.self (m.self.mCacheRegion p) rowLength) newRegion).2) :=
    Prod.ext hlack rfl
  have hj0 : ((traced B).PreoccupiedDataSpace m.mOckBuffer p
      (preoccupiedSizeFor m.self (m.self.mCacheRegion p) rowLength) newRegion).2.2
      = m.mOckBuffer.2 ++ [BufferCall.preoccupied p
          (preoccupiedSizeFor m.self (m.self.mCacheRegion p) rowLength) newRegion LACK] := by
    show m.mOckBuffer.2 ++ [BufferCall.preoccupied p _ newRegion
      (B.PreoccupiedDataSpace m.mOckBuffer.1 p _ newRegion).1] = _
    rw [hlack]
  obtain ⟨drains, hall, hcases⟩ := FlushAllRegionAndGetNewBlob_journal B mAllocator vb
    { m with mOckBuffer := ((traced B).PreoccupiedDataSpace m.mOckBuffer p
        (preoccupiedSizeFor m.self (m.self.mCacheRegion p) rowLength) newRegion).2 }
  have hpend : pendingPartitions ({ m with mOckBuffer :=
      ((traced B).PreoccupiedDataSpace m.mOckBuffer p
        (preoccupiedSizeFor m.self (m.self.mCacheRegion p) rowLength) newRegion).2 } :
        Machine (σ × List BufferCall)) = pendingPartitions m := rfl
  rw [hpend] at hcases
  have hstep : ∀ ok m1, FlushAllRegionAndGetNewBlob (traced B) mAllocator vb
      { m with mOckBuffer := ((traced B).PreoccupiedDataSpace m.mOckBuffer p
          (preoccupiedSizeFor m.self (m.self.mCacheRegion p) rowLength) newRegion).2 }
        = (ok, m1) →
      PreoccupiedBufferSpace (traced B) mAllocator vb (fuel + 1) m p rowIndex rowLength newRegion
        = (match ok with
          | false => some (false, m1)
          | true => PreoccupiedBufferSpace (traced B) mAllocator vb fuel m1 p rowIndex rowLength
              false) := by
    intro ok m1 hF
    unfold preoccupiedSizeFor at hflag hF
    conv_lhs => unfold PreoccupiedBufferSpace
    simp only
    rw [hflag]
    simp only
    rw [hF]
    cases ok <;> rfl
  rcases hF : FlushAllRegionAndGetNewBlob (traced B) mAllocator vb
      { m with mOckBuffer := ((traced B).PreoccupiedDataSpace m.mOckBuffer p
          (preoccupiedSizeFor m.self (m.self.mCacheRegion p) rowLength) newRegion).2 }
    with ⟨ok, m1⟩
  rw [hF] at hcases
  simp only [hj0] at hcases
  have hs := hstep ok m1 hF
  refine ⟨m1, ok, drains, rfl, hall, ?_, ?_⟩
  · intro hok
    subst hok
    refine ⟨hs, ?_⟩
    rcases hcases with ⟨_, h⟩ | ⟨size, _, hmap, h⟩ | ⟨size, hb, _⟩
    · exact Or.inl h
    · exact Or.inr ⟨size, hmap, h⟩
    · cases hb
  · intro hok
    subst hok
    rcases hcases with ⟨hb, _⟩ | ⟨size, hb, _⟩ | ⟨size, _, hmap, h, hempty⟩
    · cases hb
    · cases hb
    · exact ⟨size, hmap, h, hempty, hs⟩

/-- Witness of C14: both regions hold rows (rows 0 and 2 in partition 0, row 1
in partition 1) when the buffer answers `LACK` for row 3 of `rolloverBatch`. -/
theorem PreoccupiedBufferSpace_lack_ordering_witness :
    ∃ (m1 : Machine (List ResultFlag × List BufferCall)) (drains : List BufferCall)
      (size : Nat),
      drains.map drainCallOf = [some (0, 36), some (1, 22)]
      ∧ m1.mOckBuffer.2 = [BufferCall.preoccupied 0 14 false LACK] ++ drains
          ++ [BufferCall.flush false true size, BufferCall.getNewBuffer true]
      ∧ (∀ q, m1.self.mCacheRegion q = VBRegion.empty)
      ∧ PreoccupiedBufferSpace (traced (scripted false)) (fun _ => true) rolloverBatch 2
          (pendingMachine [LACK]) 0 3 14 false
        = PreoccupiedBufferSpace (traced (scripted false)) (fun _ => true) rolloverBatch 1 m1
            0 3 14 false := by
  obtain ⟨⟨m1, ok, drains, hF, _, _, ht⟩, _⟩ :=
    PreoccupiedBufferSpace_lack_ordering (scripted false) (fun _ => true) rolloverBatch 1
      (pendingMachine [LACK]) 0 3 14 false rfl
  have h1 : (FlushAllRegionAndGetNewBlob (traced (scripted false)) (fun _ => true) rolloverBatch
      { pendingMachine [LACK] with
        mOckBuffer := ((traced (scripted false)).PreoccupiedDataSpace
          (pendingMachine [LACK]).mOckBuffer 0
          (preoccupiedSizeFor (pendingMachine [LACK]).self
            ((pendingMachine [LACK]).self.mCacheRegion 0) 14) false).2 }).1 = true := by decide
  have hok : ok = true := by
    have h2 := congrArg Prod.fst hF
    exact h2.symm.trans h1
  subst hok
  obtain ⟨size, hmap, hj, hempty, hretry⟩ := ht rfl
  exact ⟨m1, drains, size, hmap, hj, hempty, hretry⟩

/-! ## Byte accounting -/

theorem drainedBytes_append (a b : List Block) (q : Nat) :
    drainedBytes (a ++ b) q = drainedBytes a q + drainedBytes b q := by
  simp [drainedBytes]

theorem flushedBytes_append (a b : List BufferCall) :
    flushedBytes (a ++ b) = flushedBytes a + flushedBytes b := by
  simp [flushedBytes]

theorem Accounted_refl {σ : Type} (compress : Bool) (m : Machine (σ × List BufferCall)) :
    Accounted compress m m := by
  refine ⟨SameSchema_refl _, [], [], by simp, by simp, by simp, by simp [drainedBytes], ?_⟩
  cases compress <;> simp [flushedBytes]

theorem Accounted_trans {σ : Type} (compress : Bool) (m m1 m2 : Machine (σ × List BufferCall))
    (h1 : Accounted compress m m1) (h2 : Accounted compress m1 m2) : Accounted compress m m2 := by
  obtain ⟨hs1, nb1, c1, hb1, hj1, hp1, hl1, ht1⟩ := h1
  obtain ⟨hs2, nb2, c2, hb2, hj2, hp2, hl2, ht2⟩ := h2
  refine ⟨SameSchema_trans _ _ _ hs1 hs2, nb1 ++ nb2, c1 ++ c2, ?_, ?_, ?_, ?_, ?_⟩
  · rw [hb2, hb1, List.append_assoc]
  · rw [hj2, hj1, List.append_assoc]
  · intro b hb
    rcases List.mem_append.mp hb with hb | hb
    · exact hp1 b hb
    · have := hp2 b hb
      rw [hs1.2.1] at this
      exact this
  · intro q
    rw [hl2, hl1, drainedBytes_append, Nat.add_assoc]
  · rw [ht2, ht1]
    cases compress
    · simp only [Bool.false_eq_true, if_false, List.map_append, List.sum_append]; omega
    · simp only [if_true, flushedBytes_append]; omega

/-- A step that makes one call that is not a flush and changes neither the
schema members nor the counters. -/
theorem Accounted_call {σ : Type} (compress : Bool) (m m1 : Machine (σ × List BufferCall))
    (c : BufferCall) (hs : SameSchema m.self m1.self)
    (hPL : m1.self.mPartitionLengths = m.self.mPartitionLengths)
    (hT : m1.self.mTotalWriteBytes = m.self.mTotalWriteBytes) (hblob : m1.blob = m.blob)
    (hj : m1.mOckBuffer.2 = m.mOckBuffer.2 ++ [c]) (hc : flushSize c = 0) :
    Accounted compress m m1 := by
  refine ⟨hs, [], [c], by simp [hblob], hj, by simp, by simp [drainedBytes, hPL], ?_⟩
  cases compress <;> simp [flushedBytes, hc, hT]

theorem WritePartVectorBatch_accounted {σ : Type} (B : OckHashWriteBuffer σ) (compress : Bool)
    (hc : ∀ b, B.IsCompress b = compress) (mAllocator : Nat → Bool) (vb : VectorBatch)
    (m : Machine (σ × List BufferCall)) (p : Nat) (hp : p < m.self.mPartitionNum) :
    Accounted compress m (WritePartVectorBatch (traced B) mAllocator vb m p).2 := by
  by_cases h0 : (m.self.mCacheRegion p).mRowNum = 0
  · have : WritePartVectorBatch (traced B) mAllocator vb m p = (true, m) := by
      unfold WritePartVectorBatch
      simp [GetCacheRegion, h0]
    rw [this]
    exact Accounted_refl compress m
  · have hframe := (WritePartVectorBatch_frame (traced B) mAllocator vb m p).1
    obtain ⟨block, hblob, hpid, _, _, hlen, _, _, hbuf, _, _⟩ :=
      WritePartVectorBatch_nonempty (traced B) mAllocator vb m p h0
    have hPL : ∀ q, (WritePartVectorBatch (traced B) mAllocator vb m p).2.self.mPartitionLengths q
        = m.self.mPartitionLengths q + drainedBytes [block] q := by
      intro q
      unfold WritePartVectorBatch
      simp only [GetCacheRegion, h0, if_false]
      have hd : drainedBytes [block] q = if p = q then (m.self.mCacheRegion p).mLength else 0 := by
        by_cases hq : p = q
        · simp [drainedBytes, hpid, hq, hlen]
        · simp [drainedBytes, hpid, hq]
      rw [hd]
      by_cases hq : p = q
      · subst hq
        split <;> simp [RecordWriteBytes, ResetCacheRegion]
      · have hq2 : q ≠ p := fun h => hq h.symm
        split <;> simp [RecordWriteBytes, ResetCacheRegion, Function.update_noteq hq2, hq]
    have hT : (WritePartVectorBatch (traced B) mAllocator vb m p).2.self.mTotalWriteBytes
        = m.self.mTotalWriteBytes
          + (if compress then 0 else (m.self.mCacheRegion p).mLength) := by
      unfold WritePartVectorBatch
      simp only [GetCacheRegion, h0, if_false]
      have hcc : (traced B).IsCompress
          ((traced B).GetEndAddressOfRegion m.mOckBuffer p (m.self.mCacheRegion p).mLength).2
          = compress := hc _
      cases compress <;> split <;> simp [RecordWriteBytes, ResetCacheRegion, hcc]
    refine ⟨hframe, [block], [BufferCall.getEndAddress p (m.self.mCacheRegion p).mLength
      (B.GetEndAddressOfRegion m.mOckBuffer.1 p (m.self.mCacheRegion p).mLength).1], hblob, ?_,
      ?_, hPL, ?_⟩
    · rw [hbuf]; rfl
    · intro b hb
      simp only [List.mem_singleton] at hb
      subst hb
      rw [hpid]; exact hp
    · rw [hT]
      cases compress <;> simp [flushedBytes, flushSize, hlen]

theorem DrainPartitions_accounted {σ : Type} (B : OckHashWriteBuffer σ) (compress : Bool)
    (hc : ∀ b, B.IsCompress b = compress) (mAllocator : Nat → Bool) (vb : VectorBatch) :
    ∀ (ps : List Nat) (m : Machine (σ × List BufferCall)),
      (∀ p ∈ ps, p < m.self.mPartitionNum) →
      Accounted compress m (DrainPartitions (traced B) mAllocator vb ps m).2 := by
  intro ps
  induction ps with
  | nil => intro m _; exact Accounted_refl compress m
  | cons p rest ih =>
    intro m hps
    unfold DrainPartitions
    by_cases h0 : (m.self.mCacheRegion p).mRowNum = 0
    · simp only [h0, if_true]
      exact ih m (fun q hq => hps q (List.mem_cons_of_mem _ hq))
    · simp only [h0, if_false]
      have hw := WritePartVectorBatch_accounted B compress hc mAllocator vb m p
        (hps p (List.mem_cons_self _ _))
      rcases hW : WritePartVectorBatch (traced B) mAllocator vb m p with ⟨b, m1⟩
      rw [hW] at hw
      cases b
      · exact hw
      · refine Accounted_trans compress m m1 _ hw (ih m1 (fun q hq => ?_))
        rw [hw.1.2.1]
        exact hps q (List.mem_cons_of_mem _ hq)

theorem FlushAllRegionAndGetNewBlob_accounted {σ : Type} (B : OckHashWriteBuffer σ)
    (compress : Bool) (hc : ∀ b, B.IsCompress b = compress) (mAllocator : Nat → Bool)
    (vb : VectorBatch) (m : Machine (σ × List BufferCall)) :
    Accounted compress m (FlushAllRegionAndGetNewBlob (traced B) mAllocator vb m).2 := by
  have hd := DrainPartitions_accounted B compress hc mAllocator vb
    (List.range m.self.mPartitionNum) m (fun p hp => List.mem_range.mp hp)
  unfold FlushAllRegionAndGetNewBlob
  rcases hD : DrainPartitions (traced B) mAllocator vb (List.range m.self.mPartitionNum) m
    with ⟨b, m1⟩
  rw [hD] at hd
  cases b
  · exact hd
  · refine Accounted_trans compress m m1 _ hd ?_
    have hcc : ∀ st, (traced B).IsCompress st = compress := fun st => hc _
    by_cases hf : (B.Flush m1.mOckBuffer.1 false).1 = false
    · refine ⟨?_, [], [BufferCall.flush false false (B.Flush m1.mOckBuffer.1 false).2.1], ?_, ?_,
        ?_, ?_, ?_⟩
      · simp [traced, hf, ResetCacheRegionAll, SameSchema]
      · simp [traced, hf]
      · simp [traced, hf]
      · simp
      · intro q; simp [traced, hf, ResetCacheRegionAll, drainedBytes]
      · cases compress <;> simp [traced, hf, ResetCacheRegionAll, flushedBytes, flushSize]
    · have hf2 : (B.Flush m1.mOckBuffer.1 false).1 = true := by simpa using hf
      by_cases hn : (B.GetNewBuffer (B.Flush m1.mOckBuffer.1 false).2.2).1 = false
      · refine ⟨?_, [], [BufferCall.flush false true (B.Flush m1.mOckBuffer.1 false).2.1,
          BufferCall.getNewBuffer false], ?_, ?_, ?_, ?_, ?_⟩
        · simp only [traced, hf2, hn, hc]
          cases compress <;> simp [ResetCacheRegionAll, SameSchema]
        · simp [traced, hf2, hn]
        · simp [traced, hf2, hn]
        · simp
        · intro q
          simp only [traced, hf2, hn, hc]
          cases compress <;> simp [ResetCacheRegionAll, drainedBytes]
        · simp only [traced, hf2, hn, hc]
          cases compress <;> simp [ResetCacheRegionAll, flushedBytes, flushSize]
      · have hn2 : (B.GetNewBuffer (B.Flush m1.mOckBuffer.1 false).2.2).1 = true := by
          simpa using hn
        refine ⟨?_, [], [BufferCall.flush false true (B.Flush m1.mOckBuffer.1 false).2.1,
          BufferCall.getNewBuffer true], ?_, ?_, ?_, ?_, ?_⟩
        · simp only [traced, hf2, hn2, hc]
          cases compress <;> simp [ResetCacheRegionAll, SameSchema]
        · simp [traced, hf2, hn2]
        · simp [traced, hf2, hn2]
        · simp
        · intro q
          simp only [traced, hf2, hn2, hc]
          cases compress <;> simp [ResetCacheRegionAll, drainedBytes]
        · simp only [traced, hf2, hn2, hc]
          cases compress <;> simp [ResetCacheRegionAll, flushedBytes, flushSize]

theorem PreoccupiedBufferSpace_accounted {σ : Type} (B : OckHashWriteBuffer σ)
    (compress : Bool) (hc : ∀ b, B.IsCompress b = compress) (mAllocator : Nat → Bool)
    (vb : VectorBatch) (p rowIndex rowLength : Nat) :
    ∀ (fuel : Nat) (m : Machine (σ × List BufferCall)) (newRegion : Bool)
      (r : Bool × Machine (σ × List BufferCall)),
      p < m.self.mPartitionNum →
      PreoccupiedBufferSpace (traced B) mAllocator vb fuel m p rowIndex rowLength newRegion
        = some r →
      Accounted compress m r.2 := by
  intro fuel
  induction fuel with
  | zero => intro m newRegion r _ h; simp [PreoccupiedBufferSpace] at h
  | succ fuel ih =>
    intro m newRegion r hp h
    unfold PreoccupiedBufferSpace at h
    simp only at h
    have hcall : Accounted compress m
        { m with mOckBuffer := ((traced B).PreoccupiedDataSpace m.mOckBuffer p
            (if (m.self.mCacheRegion p).mRowNum = 0 then (rowLength + m.self.mMinDataLenInVB) % u32
              else rowLength) newRegion).2 } :=
      Accounted_call compress m _ _ (SameSchema_refl _) rfl rfl rfl rfl rfl
    rcases hb : (traced B).PreoccupiedDataSpace m.mOckBuffer p
      (if (m.self.mCacheRegion p).mRowNum = 0 then (rowLength + m.self.mMinDataLenInVB) % u32
        else rowLength) newRegion with ⟨flag, buf1⟩
    rw [hb] at h hcall
    simp only at hcall
    cases flag
    · simp only [Option.some.injEq] at h
      subst h
      exact Accounted_call compress m _
        (BufferCall.preoccupied p
          (if (m.self.mCacheRegion p).mRowNum = 0 then (rowLength + m.self.mMinDataLenInVB) % u32
            else rowLength) newRegion
          (B.PreoccupiedDataSpace m.mOckBuffer.1 p
            (if (m.self.mCacheRegion p).mRowNum = 0 then
              (rowLength + m.self.mMinDataLenInVB) % u32 else rowLength) newRegion).1)
        (by simp [SameSchema, UpdateCacheRegion]) rfl rfl rfl
        (by
          have hb2 := congrArg Prod.snd hb
          simp only at hb2
          show buf1.2 = _
          rw [← hb2]; rfl) rfl
    · simp only at h
      have hw := WritePartVectorBatch_accounted B compress hc mAllocator vb
        { m with mOckBuffer := buf1 } p hp
      rcases hr : WritePartVectorBatch (traced B) mAllocator vb { m with mOckBuffer := buf1 } p
        with ⟨b2, m2⟩
      rw [hr] at h hw
      cases b2
      · simp only [Option.some.injEq] at h
        subst h
        exact Accounted_trans compress _ _ _ hcall hw
      · have hp2 : p < m2.self.mPartitionNum := by
          rw [hw.1.2.1]; exact hp
        exact Accounted_trans compress _ _ _ (Accounted_trans compress _ _ _ hcall hw)
          (ih m2 true r hp2 h)
    · simp only at h
      have hw := FlushAllRegionAndGetNewBlob_accounted B compress hc mAllocator vb
        { m with mOckBuffer := buf1 }
      rcases hr : FlushAllRegionAndGetNewBlob (traced B) mAllocator vb
        { m with mOckBuffer := buf1 } with ⟨b2, m2⟩
      rw [hr] at h hw
      cases b2
      · simp only [Option.some.injEq] at h
        subst h
        exact Accounted_trans compress _ _ _ hcall hw
      · have hp2 : p < m2.self.mPartitionNum := by
          rw [hw.1.2.1]; exact hp
        exact Accounted_trans compress _ _ _ (Accounted_trans compress _ _ _ hcall hw)
          (ih m2 false r hp2 h)
    · simp only [Option.some.injEq] at h
      subst h
      exact hcall

theorem SplitRows_accounted {σ : Type} (B : OckHashWriteBuffer σ) (compress : Bool)
    (hc : ∀ b, B.IsCompress b = compress) (mAllocator : Nat → Bool) (vb : VectorBatch)
    (fuel : Nat) :
    ∀ (rows : List Nat) (m : Machine (σ × List BufferCall))
      (r : Bool × Machine (σ × List BufferCall)),
      (∀ i ∈ rows, GetPartitionIdOfRow m.self vb i < m.self.mPartitionNum) →
      SplitRows (traced B) mAllocator vb fuel rows m = some r →
      Accounted compress m r.2 := by
  intro rows
  induction rows with
  | nil =>
    intro m r _ h
    simp only [SplitRows, Option.some.injEq] at h
    subst h
    exact Accounted_refl compress m
  | cons i rest ih =>
    intro m r hpid h
    unfold SplitRows at h
    simp only at h
    rcases hP : PreoccupiedBufferSpace (traced B) mAllocator vb fuel m
      (GetPartitionIdOfRow m.self vb i) i (GetRowLengthInBytes m.self vb i) false
      with _ | ⟨b, m1⟩
    · rw [hP] at h; simp at h
    · rw [hP] at h
      have ha := PreoccupiedBufferSpace_accounted B compress hc mAllocator vb
        (GetPartitionIdOfRow m.self vb i) i (GetRowLengthInBytes m.self vb i) fuel m false
        (b, m1) (hpid i (List.mem_cons_self _ _)) hP
      cases b
      · simp only [Option.some.injEq] at h
        subst h
        exact ha
      · simp only at h
        refine Accounted_trans compress m m1 r.2 ha (ih m1 r (fun j hj => ?_) h)
        rw [GetPartitionIdOfRow_congr m1.self m.self ha.1.2.2.1 vb j, ha.1.2.1]
        exact hpid j (List.mem_cons_of_mem _ hj)

theorem Split_accounted {σ : Type} (B : OckHashWriteBuffer σ) (compress : Bool)
    (hc : ∀ b, B.IsCompress b = compress) (mAllocator : Nat → Bool) (vb : VectorBatch)
    (fuel : Nat) (m : Machine (σ × List BufferCall)) (r : Bool × Machine (σ × List BufferCall))
    (hpid : ∀ i, i < vb.rowCount → GetPartitionIdOfRow m.self vb i < m.self.mPartitionNum)
    (h : Split (traced B) mAllocator vb fuel m = some r) :
    Accounted compress m r.2 := by
  unfold Split at h
  simp only at h
  have h0 : Accounted compress m { m with self := ResetCacheRegionAll m.self } := by
    refine ⟨by simp [SameSchema, ResetCacheRegionAll], [], [], by simp, by simp, by simp,
      by simp [drainedBytes, ResetCacheRegionAll], ?_⟩
    cases compress <;> simp [flushedBytes, ResetCacheRegionAll]
  rcases hS : SplitRows (traced B) mAllocator vb fuel (List.range vb.rowCount)
    { m with self := ResetCacheRegionAll m.self } with _ | ⟨b, m1⟩
  · rw [hS] at h; simp at h
  · rw [hS] at h
    have ha := SplitRows_accounted B compress hc mAllocator vb fuel (List.range vb.rowCount)
      { m with self := ResetCacheRegionAll m.self } (b, m1)
      (fun i hi => hpid i (List.mem_range.mp hi)) hS
    cases b
    · simp only [Option.some.injEq] at h
      subst h
      exact Accounted_trans compress _ _ _ h0 ha
    · simp only [Option.some.injEq] at h
      subst h
      exact Accounted_trans compress _ _ _ (Accounted_trans compress _ _ _ h0 ha)
        (DrainPartitions_accounted B compress hc mAllocator vb _ m1
          (fun p hp => List.mem_range.mp hp))

theorem Stop_accounted {σ : Type} (B : OckHashWriteBuffer σ) (compress : Bool)
    (hc : ∀ b, B.IsCompress b = compress) (m : Machine (σ × List BufferCall)) :
    Accounted compress m (Stop (traced B) m) := by
  unfold Stop
  refine ⟨?_, [], [BufferCall.flush true (B.Flush m.mOckBuffer.1 true).1
    (B.Flush m.mOckBuffer.1 true).2.1], ?_, ?_, by simp, ?_, ?_⟩
  · by_cases hf : (B.Flush m.mOckBuffer.1 true).1 = false
    · simp [traced, hf, SameSchema]
    · cases compress <;> simp [traced, hf, hc, SameSchema]
  · by_cases hf : (B.Flush m.mOckBuffer.1 true).1 = false
    · simp [traced, hf]
    · cases compress <;> simp [traced, hf, hc]
  · by_cases hf : (B.Flush m.mOckBuffer.1 true).1 = false
    · simp [traced, hf]
    · cases compress <;> simp [traced, hf, hc]
  · intro q
    by_cases hf : (B.Flush m.mOckBuffer.1 true).1 = false
    · simp [traced, hf, drainedBytes]
    · cases compress <;> simp [traced, hf, hc, drainedBytes]
  · by_cases hf : (B.Flush m.mOckBuffer.1 true).1 = false
    · cases compress <;> simp [traced, hf, flushedBytes, flushSize]
    · have hf2 : (B.Flush m.mOckBuffer.1 true).1 = true := by simpa using hf
      cases compress <;> simp [traced, hf2, hc, flushedBytes, flushSize]

theorem runCalls_accounted {σ : Type} (B : OckHashWriteBuffer σ) (compress : Bool)
    (hc : ∀ b, B.IsCompress b = compress) (mAllocator : Nat → Bool) (fuel : Nat) :
    ∀ (calls : List SplitterCall) (m m1 : Machine (σ × List BufferCall)),
      (∀ vb, SplitterCall.split vb ∈ calls → ∀ i, i < vb.rowCount →
        GetPartitionIdOfRow m.self vb i < m.self.mPartitionNum) →
      runCalls (traced B) mAllocator fuel calls m = some m1 →
      Accounted compress m m1 := by
  intro calls
  induction calls with
  | nil =>
    intro m m1 _ h
    simp only [runCalls, Option.some.injEq] at h
    subst h
    exact Accounted_refl compress m
  | cons c rest ih =>
    intro m m1 hpid h
    cases c with
    | split vb =>
      simp only [runCalls] at h
      rcases hS : Split (traced B) mAllocator vb fuel m with _ | r
      · rw [hS] at h; simp at h
      · rw [hS] at h
        simp only at h
        have ha := Split_accounted B compress hc mAllocator vb fuel m r
          (hpid vb (List.mem_cons_self _ _)) hS
        refine Accounted_trans compress m r.2 m1 ha (ih r.2 m1 (fun vb2 hvb i hi => ?_) h)
        rw [GetPartitionIdOfRow_congr r.2.self m.self ha.1.2.2.1 vb2 i, ha.1.2.1]
        exact hpid vb2 (List.mem_cons_of_mem _ hvb) i hi
    | stop =>
      simp only [runCalls] at h
      have ha := Stop_accounted B compress hc m
      refine Accounted_trans compress m _ m1 ha (ih _ m1 (fun vb2 hvb i hi => ?_) h)
      rw [GetPartitionIdOfRow_congr (Stop (traced B) m).self m.self ha.1.2.2.1 vb2 i, ha.1.2.1]
      exact hpid vb2 (List.mem_cons_of_mem _ hvb) i hi

theorem sum_range_ite (p len : Nat) :
    ∀ n, ((List.range n).map (fun q => if p = q then len else 0)).sum
      = if p < n then len else 0 := by
  intro n
  induction n with
  | zero => simp
  | succ n ih =>
    rw [List.range_succ, List.map_append, List.sum_append, ih]
    by_cases h1 : p < n
    · have h2 : p ≠ n := Nat.ne_of_lt h1
      have h3 : p < n + 1 := Nat.lt_succ_of_lt h1
      simp [h1, h2, h3]
    · by_cases h2 : p = n
      · subst h2; simp
      · have h3 : ¬ p < n + 1 := by omega
        simp [h1, h2, h3]

theorem sum_drainedBytes (n : Nat) :
    ∀ nb : List Block, (∀ b ∈ nb, b.partitionId < n) →
      ((List.range n).map (drainedBytes nb)).sum = (nb.map Block.length).sum := by
  intro nb
  induction nb with
  | nil =>
    intro _
    have hfun : drainedBytes [] = fun _ => 0 := by
      funext q; simp [drainedBytes]
    rw [hfun]
    simp
  | cons b rest ih =>
    intro h
    have hb : b.partitionId < n := h b (List.mem_cons_self _ _)
    have hfun : drainedBytes (b :: rest)
        = fun q => (if b.partitionId = q then b.length else 0) + drainedBytes rest q := by
      funext q
      by_cases hq : b.partitionId = q
      · simp [drainedBytes, hq]
      · simp [drainedBytes, hq]
    rw [hfun, List.sum_map_add, sum_range_ite, if_pos hb,
      ih (fun x hx => h x (List.mem_cons_of_mem _ hx))]
    simp

theorem Accounted_sum {σ : Type} (m m1 : Machine (σ × List BufferCall))
    (h : Accounted false m m1)
    (h0 : m.self.mTotalWriteBytes = partitionLengthsSum m.self) :
    m1.self.mTotalWriteBytes = partitionLengthsSum m1.self := by
  obtain ⟨hs, nb, c, _, _, hp, hl, ht⟩ := h
  have hfun : m1.self.mPartitionLengths
      = fun q => m.self.mPartitionLengths q + drainedBytes nb q := funext hl
  simp only [Bool.false_eq_true, if_false] at ht
  rw [ht, h0, partitionLengthsSum, partitionLengthsSum, hs.2.1, hfun, List.sum_map_add,
    sum_drainedBytes _ nb hp]

/-- The counters after a drain of a region that holds rows, whatever the
outcome of the drain: the length of the partition grew by the header length,
no other partition length changed, and the total grew by the header length
exactly when the buffer does not compress. -/
theorem WritePartVectorBatch_counters {τ : Type} (B : OckHashWriteBuffer τ) (compress : Bool)
    (hc : ∀ b, B.IsCompress b = compress) (mAllocator : Nat → Bool) (vb : VectorBatch)
    (m : Machine τ) (p : Nat) (h0 : (m.self.mCacheRegion p).mRowNum ≠ 0) :
    (WritePartVectorBatch B mAllocator vb m p).2.self.mPartitionLengths p
        = m.self.mPartitionLengths p + (m.self.mCacheRegion p).mLength
    ∧ (∀ q, q ≠ p → (WritePartVectorBatch B mAllocator vb m p).2.self.mPartitionLengths q
        = m.self.mPartitionLengths q)
    ∧ (WritePartVectorBatch B mAllocator vb m p).2.self.mTotalWriteBytes
        = m.self.mTotalWriteBytes + (if compress then 0 else (m.self.mCacheRegion p).mLength) := by
  unfold WritePartVectorBatch
  simp only [GetCacheRegion, h0, if_false]
  refine ⟨?_, ?_, ?_⟩
  · split <;> simp [RecordWriteBytes, ResetCacheRegion]
  · intro q hq
    split <;> simp [RecordWriteBytes, ResetCacheRegion, Function.update_noteq hq]
  · cases compress <;> split <;> simp [RecordWriteBytes, ResetCacheRegion, hc]

/-- C17: byte accounting. For a buffer that never compresses
(`compress = false`) or always does (`compress = true`): a drain of a region
that holds rows adds the header length of its block to the length of its
partition, and to the total exactly when the buffer does not compress; `Stop`
calls `Flush` with `force = true`, changes no member when the flush fails and
otherwise adds the reported size to the total exactly when the buffer
compresses. After any sequence of `Split` and `Stop` calls on batches whose
partition ids are in range, every partition length has grown by the header
lengths of the blocks stored for it; without compression the total has grown by
the header lengths of all blocks stored (no flush size is added), so it equals
the sum of the partition lengths if it did before; with compression the total
has grown by exactly the sizes of the successful flushes in the journal. -/
theorem accounting_separates_compressed_sizes {σ : Type} (B : OckHashWriteBuffer σ)
    (compress : Bool) (hc : ∀ b, B.IsCompress b = compress) (mAllocator : Nat → Bool)
    (fuel : Nat) (calls : List SplitterCall) (m m1 : Machine (σ × List BufferCall))
    (hpid : ∀ vb, SplitterCall.split vb ∈ calls → ∀ i, i < vb.rowCount →
      GetPartitionIdOfRow m.self vb i < m.self.mPartitionNum)
    (hrun : runCalls (traced B) mAllocator fuel calls m = some m1) :
    (∀ (vb : VectorBatch) (m2 : Machine (σ × List BufferCall)) (p : Nat),
      (m2.self.mCacheRegion p).mRowNum ≠ 0 →
      (WritePartVectorBatch (traced B) mAllocator vb m2 p).2.self.mPartitionLengths p
          = m2.self.mPartitionLengths p + (m2.self.mCacheRegion p).mLength
      ∧ (∀ q, q ≠ p →
          (WritePartVectorBatch (traced B) mAllocator vb m2 p).2.self.mPartitionLengths q
            = m2.self.mPartitionLengths q)
      ∧ (WritePartVectorBatch (traced B) mAllocator vb m2 p).2.self.mTotalWriteBytes
          = m2.self.mTotalWriteBytes
            + (if compress then 0 else (m2.self.mCacheRegion p).mLength))
    ∧ (∀ m2 : Machine (σ × List BufferCall),
        (Stop (traced B) m2).mOckBuffer.2 = m2.mOckBuffer.2
            ++ [BufferCall.flush true (B.Flush m2.mOckBuffer.1 true).1
                  (B.Flush m2.mOckBuffer.1 true).2.1]
        ∧ ((B.Flush m2.mOckBuffer.1 true).1 = false → (Stop (traced B) m2).self = m2.self)
        ∧ ((B.Flush m2.mOckBuffer.1 true).1 = true →
            (Stop (traced B) m2).self.mTotalWriteBytes = m2.self.mTotalWriteBytes
              + (if compress then (B.Flush m2.mOckBuffer.1 true).2.1 else 0)))
    ∧ ∃ (nb : List Block) (newCalls : List BufferCall),
        m1.blob = m.blob ++ nb
        ∧ m1.mOckBuffer.2 = m.mOckBuffer.2 ++ newCalls
        ∧ (∀ q, m1.self.mPartitionLengths q = m.self.mPartitionLengths q + drainedBytes nb q)
        ∧ (compress = false →
            m1.self.mTotalWriteBytes = m.self.mTotalWriteBytes + (nb.map Block.length).sum
            ∧ (m.self.mTotalWriteBytes = partitionLengthsSum m.self →
                m1.self.mTotalWriteBytes = partitionLengthsSum m1.self))
        ∧ (compress = true →
            m1.self.mTotalWriteBytes = m.self.mTotalWriteBytes + flushedBytes newCalls) := by
  have hacc := runCalls_accounted B compress hc mAllocator fuel calls m m1 hpid hrun
  refine ⟨fun vb m2 p h0 => WritePartVectorBatch_counters (traced B) compress (fun b => hc _)
    mAllocator vb m2 p h0, fun m2 => ⟨?_, ?_, ?_⟩, ?_⟩
  · unfold Stop
    by_cases hf : (B.Flush m2.mOckBuffer.1 true).1 = false
    · simp [traced, hf]
    · cases compress <;> simp [traced, hf, hc]
  · intro hf
    unfold Stop
    simp [traced, hf]
  · intro hf
    unfold Stop
    cases compress <;> simp [traced, hf, hc]
  · obtain ⟨hs, nb, newCalls, hb, hj, hp, hl, ht⟩ := hacc
    refine ⟨nb, newCalls, hb, hj, hl, fun hfalse => ?_, fun htrue => ?_⟩
    · subst hfalse
      exact ⟨by simpa using ht, fun h0 => Accounted_sum m m1 ⟨hs, nb, newCalls, hb, hj, hp, hl, ht⟩ h0⟩
    · subst htrue
      simpa using ht

/-- Witness of C17: a fresh two-partition splitter splits `rolloverBatch`
against a buffer without compression that answers `LACK` once, then stops. -/
theorem accounting_separates_compressed_sizes_witness :
    ∃ m1 : Machine (List ResultFlag × List BufferCall),
      runCalls (traced (scripted false)) (fun _ => true) 3
        [SplitterCall.split rolloverBatch, SplitterCall.stop]
        (Machine.start (Initialize (OckSplitter.new 2 2 false 0)
          (typesOf [OMNI_INT, OMNI_LONG])).2 ([ENOUGH, ENOUGH, LACK], [])) = some m1
      ∧ m1.self.mTotalWriteBytes = partitionLengthsSum m1.self := by
  have hrun : runCalls (traced (scripted false)) (fun _ => true) 3
      [SplitterCall.split rolloverBatch, SplitterCall.stop]
      (Machine.start (Initialize (OckSplitter.new 2 2 false 0)
        (typesOf [OMNI_INT, OMNI_LONG])).2 ([ENOUGH, ENOUGH, LACK], []))
      = some ((runCalls (traced (scripted false)) (fun _ => true) 3
        [SplitterCall.split rolloverBatch, SplitterCall.stop]
        (Machine.start (Initialize (OckSplitter.new 2 2 false 0)
          (typesOf [OMNI_INT, OMNI_LONG])).2 ([ENOUGH, ENOUGH, LACK], []))).getD
        (Machine.start sampleSplitter ([], []))) := rfl
  have hpid : ∀ vb, SplitterCall.split vb ∈ [SplitterCall.split rolloverBatch, SplitterCall.stop] →
      ∀ i, i < vb.rowCount →
      GetPartitionIdOfRow (Machine.start (Initialize (OckSplitter.new 2 2 false 0)
        (typesOf [OMNI_INT, OMNI_LONG])).2
        (([ENOUGH, ENOUGH, LACK], []) : List ResultFlag × List BufferCall)).self vb i
      < (Machine.start (Initialize (OckSplitter.new 2 2 false 0)
        (typesOf [OMNI_INT, OMNI_LONG])).2
        (([ENOUGH, ENOUGH, LACK], []) : List ResultFlag × List BufferCall)).self.mPartitionNum := by
    intro vb hvb i hi
    simp only [List.mem_cons, SplitterCall.split.injEq, List.mem_singleton, reduceCtorEq,
      or_false, List.not_mem_nil] at hvb
    subst hvb
    have hi4 : i < 4 := hi
    interval_cases i <;> decide
  obtain ⟨_, _, nb, newCalls, _, _, _, hoff, _⟩ :=
    accounting_separates_compressed_sizes (scripted false) false (fun _ => rfl) (fun _ => true) 3
      [SplitterCall.split rolloverBatch, SplitterCall.stop] _ _ hpid hrun
  exact ⟨_, hrun, (hoff rfl).2 rfl⟩

/-! ## The length of a region -/

theorem GetRowLengthInBytes_schema (s s1 : OckSplitter) (h : SameSchema s s1) (vb : VectorBatch)
    (rowIndex : Nat) : GetRowLengthInBytes s1 vb rowIndex = GetRowLengthInBytes s vb rowIndex := by
  obtain ⟨_, _, h3, _, _, h6, h7, _⟩ := h
  unfold GetRowLengthInBytes GetVarVecValue
  rw [h3, h6, h7]

theorem RegionInv_schema (s s1 : OckSplitter) (h : SameSchema s s1) (vb : VectorBatch)
    (r : VBRegion) (hr : RegionInv s vb r) : RegionInv s1 vb r := by
  obtain ⟨h1, h2, h3⟩ := hr
  refine ⟨h1, h2, fun hk => ?_⟩
  rw [h3 hk]
  unfold regionBytes
  rw [h.2.2.2.2.2.2.2, funext (GetRowLengthInBytes_schema s s1 h vb)]

theorem RegionInv_empty (s : OckSplitter) (vb : VectorBatch) : RegionInv s vb VBRegion.empty :=
  ⟨rfl, fun _ => rfl, fun h => absurd rfl h⟩

theorem RegionInv_kept (s s1 : OckSplitter) (h : SameSchema s s1) (vb : VectorBatch)
    (r r1 : VBRegion) (hk : Kept r r1) (hr : RegionInv s vb r) : RegionInv s1 vb r1 := by
  rcases hk with hk | hk
  · rw [hk]; exact RegionInv_schema s s1 h vb r hr
  · rw [hk]; exact RegionInv_empty s1 vb

theorem RegionInv_appended (s : OckSplitter) (vb : VectorBatch) (base : VBRegion)
    (rowIndex : Nat) (hr : RegionInv s vb base) :
    RegionInv s vb
      (appended base rowIndex (preoccupiedSizeFor s base (GetRowLengthInBytes s vb rowIndex))) := by
  obtain ⟨h1, h2, h3⟩ := hr
  refine ⟨by simp [appended, h1], fun h => absurd h (by simp [appended]), fun _ => ?_⟩
  by_cases h0 : base.mRowNum = 0
  · have hnil : base.mRowIndexes = [] := List.length_eq_zero.mp (h1 ▸ h0)
    simp only [appended, preoccupiedSizeFor, h0, if_true, h2 h0, regionBytes, hnil,
      List.nil_append, List.map_cons, List.map_nil, List.sum_cons, List.sum_nil, Nat.zero_add,
      Nat.add_zero, Nat.mod_mod]
    rw [Nat.add_comm]
  · simp only [appended, preoccupiedSizeFor, h0, if_false, h3 h0, regionBytes, List.map_append,
      List.sum_append, List.map_cons, List.map_nil, List.sum_cons, List.sum_nil, Nat.add_zero]
    rw [Nat.mod_add_mod, Nat.add_assoc]

theorem RegionsInv_frame {σ : Type} (m m1 : Machine σ) (vb : VectorBatch) (h : Frame m m1)
    (hinv : ∀ q, RegionInv m.self vb (m.self.mCacheRegion q)) :
    ∀ q, RegionInv m1.self vb (m1.self.mCacheRegion q) :=
  fun q => RegionInv_kept _ _ h.1 vb _ _ (h.2 q) (hinv q)

theorem RegionsInv_reserved {σ : Type} (m m1 : Machine σ) (vb : VectorBatch) (p rowIndex : Nat)
    (h : Reserved m m1 p rowIndex (GetRowLengthInBytes m.self vb rowIndex))
    (hinv : ∀ q, RegionInv m.self vb (m.self.mCacheRegion q)) :
    ∀ q, RegionInv m1.self vb (m1.self.mCacheRegion q) := by
  obtain ⟨hs, hq, base, hbase, hreg⟩ := h
  intro q
  by_cases hqp : q = p
  · subst hqp
    rw [hreg]
    apply RegionInv_schema m.self m1.self hs
    apply RegionInv_appended
    exact RegionInv_kept _ _ (SameSchema_refl _) vb _ _ hbase (hinv q)
  · exact RegionInv_kept _ _ hs vb _ _ (hq q hqp) (hinv q)

theorem SplitRows_region_inv {σ : Type} (B : OckHashWriteBuffer σ) (mAllocator : Nat → Bool)
    (vb : VectorBatch) (fuel : Nat) :
    ∀ (rows : List Nat) (m : Machine σ) (r : Bool × Machine σ),
      SplitRows B mAllocator vb fuel rows m = some r →
      (∀ q, RegionInv m.self vb (m.self.mCacheRegion q)) →
      SameSchema m.self r.2.self ∧ ∀ q, RegionInv r.2.self vb (r.2.self.mCacheRegion q) := by
  intro rows
  induction rows with
  | nil =>
    intro m r h hinv
    simp only [SplitRows, Option.some.injEq] at h
    subst h
    exact ⟨SameSchema_refl _, hinv⟩
  | cons i rest ih =>
    intro m r h hinv
    unfold SplitRows at h
    simp only at h
    rcases hP : PreoccupiedBufferSpace B mAllocator vb fuel m (GetPartitionIdOfRow m.self vb i) i
      (GetRowLengthInBytes m.self vb i) false with _ | ⟨b, m1⟩
    · rw [hP] at h; simp at h
    · rw [hP] at h
      obtain ⟨hf, ht⟩ := PreoccupiedBufferSpace_outcome B mAllocator vb _ i _ fuel m false b m1 hP
      cases b
      · simp only [Option.some.injEq] at h
        subst h
        exact ⟨(hf rfl).1, RegionsInv_frame m m1 vb (hf rfl) hinv⟩
      · simp only at h
        have hres := ht rfl
        obtain ⟨hs2, hinv2⟩ := ih m1 r h (RegionsInv_reserved m m1 vb _ i hres hinv)
        exact ⟨SameSchema_trans _ _ _ hres.1 hs2, hinv2⟩

theorem length_mul_le_sum (c : Nat) (f : Nat → Nat) :
    ∀ l : List Nat, (∀ i ∈ l, c ≤ f i) → l.length * c ≤ (l.map f).sum := by
  intro l
  induction l with
  | nil => intro _; simp
  | cons a rest ih =>
    intro h
    have h1 := h a (List.mem_cons_self _ _)
    have h2 := ih (fun i hi => h i (List.mem_cons_of_mem _ hi))
    simp only [List.length_cons, List.map_cons, List.sum_cons]
    rw [Nat.add_mul, Nat.one_mul]
    omega

/-- A region under the length invariant whose bytes stay within twice the region
size holds no more rows than `InitCacheRegion` sized the index array for,
provided no row length wrapped. -/
theorem RegionInv_capacity (s : OckSplitter) (vb : VectorBatch) (r : VBRegion)
    (regionSize : Nat) (hinv : RegionInv s vb r)
    (hgrant : regionBytes s vb r ≤ 2 * regionSize) (hsize : 2 * regionSize < u32)
    (hpos : 0 < s.mMinDataLenInVBByRow)
    (hrow : ∀ i ∈ r.mRowIndexes, s.mMinDataLenInVBByRow ≤ GetRowLengthInBytes s vb i) :
    (r.mRowNum ≠ 0 → r.mLength = regionBytes s vb r)
    ∧ (r.mRowNum ≠ 0 → r.mRowNum ≤ (r.mLength - s.mMinDataLenInVB) / s.mMinDataLenInVBByRow)
    ∧ r.mRowNum ≤ (InitCacheRegion regionSize s).1 := by
  obtain ⟨h1, _, h3⟩ := hinv
  have hsum := length_mul_le_sum s.mMinDataLenInVBByRow (GetRowLengthInBytes s vb) r.mRowIndexes
    hrow
  rw [← h1] at hsum
  have hexact : r.mRowNum ≠ 0 → r.mLength = regionBytes s vb r := by
    intro hk
    rw [h3 hk]
    exact Nat.mod_eq_of_lt (Nat.lt_of_le_of_lt hgrant hsize)
  unfold regionBytes at hgrant hexact
  refine ⟨hexact, fun hk => ?_, ?_⟩
  · rw [hexact hk, Nat.add_sub_cancel_left]
    exact (Nat.le_div_iff_mul_le hpos).mpr hsum
  · have hmin : s.mMinDataLenInVB ≤ 2 * regionSize := by omega
    have hcap : (InitCacheRegion regionSize s).1
        = (2 * regionSize - s.mMinDataLenInVB) / s.mMinDataLenInVBByRow := by
      have e1 : regionSize * 2 % u32 = 2 * regionSize := by
        rw [Nat.mul_comm]; exact Nat.mod_eq_of_lt hsize
      have e2 : s.mMinDataLenInVB % u32 = s.mMinDataLenInVB :=
        Nat.mod_eq_of_lt (Nat.lt_of_le_of_lt hmin hsize)
      have e3 : (2 * regionSize + u32 - s.mMinDataLenInVB) % u32
          = 2 * regionSize - s.mMinDataLenInVB := by
        have e4 : 2 * regionSize + u32 - s.mMinDataLenInVB
            = (2 * regionSize - s.mMinDataLenInVB) + u32 := by omega
        rw [e4, Nat.add_mod_right]
        exact Nat.mod_eq_of_lt (by omega)
      simp only [InitCacheRegion, e1, e2, e3]
    rw [hcap]
    exact (Nat.le_div_iff_mul_le hpos).mpr (by omega)

theorem SameSchema_symm (s s1 : OckSplitter) (h : SameSchema s s1) : SameSchema s1 s := by
  obtain ⟨h1, h2, h3, h4, h5, h6, h7, h8⟩ := h
  exact ⟨h1.symm, h2.symm, h3.symm, h4.symm, h5.symm, h6.symm, h7.symm, h8.symm⟩

/-- C20: region length invariant. In the state reached after `Split` has
placed any number of rows of a batch (whatever the buffer answered, and whether
the last reservation succeeded or not), and in the state `Split` ends in, every
region has as many row indexes as its row count, an empty region has length 0,
and a region holding `k >= 1` rows has length `mMinDataLenInVB` plus the sum of
`GetRowLengthInBytes` over its rows, in the 32-bit arithmetic of the counter;
drains, flush-alls and reservations keep this from any state. When those bytes
stay within `2 * regionSize < 2^32` and no row length wrapped, the length is
that sum exactly, `k <= (length - mMinDataLenInVB) / mMinDataLenInVBByRow`, and
`k` is at most the row count `InitCacheRegion` computes. -/
theorem region_length_invariant {σ : Type} (B : OckHashWriteBuffer σ)
    (mAllocator : Nat → Bool) (vb : VectorBatch) (fuel : Nat) (m : Machine σ)
    (rows : List Nat) (r : Bool × Machine σ) (regionSize q : Nat)
    (hrun : SplitRows B mAllocator vb fuel rows { m with self := ResetCacheRegionAll m.self }
      = some r) :
    RegionInv m.self vb (r.2.self.mCacheRegion q)
    ∧ (regionBytes m.self vb (r.2.self.mCacheRegion q) ≤ 2 * regionSize →
        2 * regionSize < u32 →
        0 < m.self.mMinDataLenInVBByRow →
        (∀ i ∈ (r.2.self.mCacheRegion q).mRowIndexes,
          m.self.mMinDataLenInVBByRow
            + (m.self.mColIndexOfVarVec.map
                (fun j => varLen vb (j + viewOffset m.self) i)).sum < u32) →
        ((r.2.self.mCacheRegion q).mRowNum ≠ 0 →
          (r.2.self.mCacheRegion q).mLength
            = m.self.mMinDataLenInVB
              + ((r.2.self.mCacheRegion q).mRowIndexes.map
                  (GetRowLengthInBytes m.self vb)).sum)
        ∧ ((r.2.self.mCacheRegion q).mRowNum ≠ 0 →
            (r.2.self.mCacheRegion q).mRowNum
              ≤ ((r.2.self.mCacheRegion q).mLength - m.self.mMinDataLenInVB)
                  / m.self.mMinDataLenInVBByRow)
        ∧ (r.2.self.mCacheRegion q).mRowNum ≤ (InitCacheRegion regionSize m.self).1)
    ∧ (∀ r2, Split B mAllocator vb fuel m = some r2 →
        RegionInv m.self vb (r2.2.self.mCacheRegion q))
    ∧ (∀ m2 : Machine σ, (∀ p, RegionInv m2.self vb (m2.self.mCacheRegion p)) →
        (∀ p, RegionInv m2.self vb
          ((WritePartVectorBatch B mAllocator vb m2 p).2.self.mCacheRegion q))
        ∧ RegionInv m2.self vb
            ((FlushAllRegionAndGetNewBlob B mAllocator vb m2).2.self.mCacheRegion q)
        ∧ (∀ fuel2 p i newRegion r3,
            PreoccupiedBufferSpace B mAllocator vb fuel2 m2 p i (GetRowLengthInBytes m2.self vb i)
              newRegion = some r3 →
            RegionInv m2.self vb (r3.2.self.mCacheRegion q))) := by
  have hreset : SameSchema m.self (ResetCacheRegionAll m.self) :=
    ⟨rfl, rfl, rfl, rfl, rfl, rfl, rfl, rfl⟩
  have hinv0 : ∀ p, RegionInv
      ({ m with self := ResetCacheRegionAll m.self } : Machine σ).self vb
      (({ m with self := ResetCacheRegionAll m.self } : Machine σ).self.mCacheRegion p) :=
    fun p => RegionInv_empty _ vb
  obtain ⟨hs, hinv⟩ := SplitRows_region_inv B mAllocator vb fuel rows _ r hrun hinv0
  have hs1 : SameSchema m.self r.2.self := SameSchema_trans _ _ _ hreset hs
  have hq : RegionInv m.self vb (r.2.self.mCacheRegion q) :=
    RegionInv_schema _ _ (SameSchema_symm _ _ hs1) vb _ (hinv q)
  refine ⟨hq, ?_, ?_, ?_⟩
  · intro hgrant hsize hpos hrowfit
    have hrow : ∀ i ∈ (r.2.self.mCacheRegion q).mRowIndexes,
        m.self.mMinDataLenInVBByRow ≤ GetRowLengthInBytes m.self vb i := by
      intro i hi
      rw [GetRowLengthInBytes_eq m.self vb i (hrowfit i hi)]
      exact Nat.le_add_right _ _
    exact RegionInv_capacity m.self vb _ regionSize hq hgrant hsize hpos hrow
  · intro r2 h2
    unfold Split at h2
    simp only at h2
    rcases hS : SplitRows B mAllocator vb fuel (List.range vb.rowCount)
      { m with self := ResetCacheRegionAll m.self } with _ | ⟨b, m1⟩
    · rw [hS] at h2; simp at h2
    · rw [hS] at h2
      obtain ⟨hsa, hinva⟩ := SplitRows_region_inv B mAllocator vb fuel _ _ (b, m1) hS hinv0
      cases b
      · simp only [Option.some.injEq] at h2
        subst h2
        exact RegionInv_schema _ _
          (SameSchema_symm _ _ (SameSchema_trans _ _ _ hreset hsa)) vb _ (hinva q)
      · simp only [Option.some.injEq] at h2
        subst h2
        have hf := DrainPartitions_frame B mAllocator vb (List.range m1.self.mPartitionNum) m1
        have hinvb := RegionsInv_frame m1 _ vb hf hinva q
        exact RegionInv_schema _ _
          (SameSchema_symm _ _
            (SameSchema_trans _ _ _ (SameSchema_trans _ _ _ hreset hsa) hf.1)) vb _ hinvb
  · intro m2 hinv2
    refine ⟨fun p => ?_, ?_, ?_⟩
    · have hf := WritePartVectorBatch_frame B mAllocator vb m2 p
      exact RegionInv_schema _ _ (SameSchema_symm _ _ hf.1) vb _
        (RegionsInv_frame m2 _ vb hf hinv2 q)
    · have hf := FlushAllRegionAndGetNewBlob_frame B mAllocator vb m2
      exact RegionInv_schema _ _ (SameSchema_symm _ _ hf.1) vb _
        (RegionsInv_frame m2 _ vb hf hinv2 q)
    · intro fuel2 p i newRegion r3 h3
      obtain ⟨hf, ht⟩ := PreoccupiedBufferSpace_outcome B mAllocator vb p i _ fuel2 m2 newRegion
        r3.1 r3.2 h3
      cases hb : r3.1
      · have hfr := hf hb
        exact RegionInv_schema _ _ (SameSchema_symm _ _ hfr.1) vb _
          (RegionsInv_frame m2 _ vb hfr hinv2 q)
      · have hres := ht hb
        exact RegionInv_schema _ _ (SameSchema_symm _ _ hres.1) vb _
          (RegionsInv_reserved m2 _ vb p i hres hinv2 q)

/-- Witness of C20: the first three rows of `mixedBatch` are placed against a
buffer that grants two rows and then answers `NEW_REGION` once; region 0 is
considered. -/
theorem region_length_invariant_witness :
    ∃ r : Bool × Machine (List ResultFlag),
      SplitRows (scripted false) (fun _ => true) mixedBatch 2 [0, 1, 2]
        { Machine.start mixedSplitter [ENOUGH, ENOUGH, NEW_REGION] with
          self := ResetCacheRegionAll mixedSplitter } = some r
      ∧ RegionInv mixedSplitter mixedBatch (r.2.self.mCacheRegion 0)
      ∧ (r.2.self.mCacheRegion 0).mRowNum ≤ (InitCacheRegion 1024 mixedSplitter).1 := by
  have hrun : SplitRows (scripted false) (fun _ => true) mixedBatch 2 [0, 1, 2]
      { Machine.start mixedSplitter [ENOUGH, ENOUGH, NEW_REGION] with
        self := ResetCacheRegionAll mixedSplitter }
      = some ((SplitRows (scripted false) (fun _ => true) mixedBatch 2 [0, 1, 2]
        { Machine.start mixedSplitter [ENOUGH, ENOUGH, NEW_REGION] with
          self := ResetCacheRegionAll mixedSplitter }).getD
        (true, Machine.start mixedSplitter [])) := rfl
  obtain ⟨h1, h2, _⟩ := region_length_invariant (scripted false) (fun _ => true) mixedBatch 2
    (Machine.start mixedSplitter [ENOUGH, ENOUGH, NEW_REGION]) [0, 1, 2] _ 1024 0 hrun
  refine ⟨_, hrun, h1, (h2 (by decide) (by decide) (by decide) ?_).2.2⟩
  intro i hi
  have hi2 : i = 2 := by
    have : (((SplitRows (scripted false) (fun _ => true) mixedBatch 2 [0, 1, 2]
        { Machine.start mixedSplitter [ENOUGH, ENOUGH, NEW_REGION] with
          self := ResetCacheRegionAll mixedSplitter }).getD
        (true, Machine.start mixedSplitter [])).2.self.mCacheRegion 0).mRowIndexes = [2] := by
      decide
    rw [this] at hi
    simpa using hi
  subst hi2
  decide

/-! ## The divisor of the row capacity -/

theorem sum_le_length_mul (c : Nat) (f : Nat → Nat) :
    ∀ l : List Nat, (∀ i ∈ l, f i ≤ c) → (l.map f).sum ≤ l.length * c := by
  intro l
  induction l with
  | nil => intro _; simp
  | cons a rest ih =>
    intro h
    have h1 := h a (List.mem_cons_self _ _)
    have h2 := ih (fun i hi => h i (List.mem_cons_of_mem _ hi))
    simp only [List.length_cons, List.map_cons, List.sum_cons]
    rw [Nat.add_mul, Nat.one_mul]
    omega

theorem valueCost_bounds (t : DataTypeId) (h : isRecognized t = true) :
    1 ≤ valueCost t ∧ valueCost t ≤ 16 := by
  cases t <;> simp [isRecognized, shuffleTypeOf, valueCost] at h ⊢

/-- C21: for a schema of `colNum >= 1` supported columns whose per-row cost
fits in 32 bits, after a successful `Initialize` the per-row minimum cost
satisfies `2 * colNum <= mMinDataLenInVBByRow <= 17 * colNum`, so the divisor of
the row-capacity computation of `InitCacheRegion` is not zero; and when the
32-bit product `2 * regionSize` is at least `mMinDataLenInVB` the 32-bit
subtraction gives the mathematical difference, so that the capacity is
`(2 * regionSize - mMinDataLenInVB) / mMinDataLenInVBByRow` (with the product
itself when `2 * regionSize` fits in 32 bits). -/
theorem InitCacheRegion_divisor_nonzero (colTypeIds : Nat → DataTypeId)
    (colNum partitionNum : Nat) (isSinglePt : Bool) (threadId regionSize : Nat)
    (hcol : 1 ≤ colNum)
    (hinit : (Initialize (OckSplitter.new colNum partitionNum isSinglePt threadId)
      colTypeIds).1 = true)
    (hfit : colNum + ((List.range colNum).map (fun i => valueCost (colTypeIds i))).sum < u32) :
    2 * colNum ≤ (Initialize (OckSplitter.new colNum partitionNum isSinglePt threadId)
        colTypeIds).2.mMinDataLenInVBByRow
    ∧ (Initialize (OckSplitter.new colNum partitionNum isSinglePt threadId)
        colTypeIds).2.mMinDataLenInVBByRow ≤ 17 * colNum
    ∧ (Initialize (OckSplitter.new colNum partitionNum isSinglePt threadId)
        colTypeIds).2.mMinDataLenInVBByRow ≠ 0
    ∧ ((Initialize (OckSplitter.new colNum partitionNum isSinglePt threadId)
          colTypeIds).2.mMinDataLenInVB ≤ regionSize * 2 % u32 →
        (regionSize * 2 % u32 + u32
            - (Initialize (OckSplitter.new colNum partitionNum isSinglePt threadId)
                colTypeIds).2.mMinDataLenInVB % u32) % u32
          = regionSize * 2 % u32
            - (Initialize (OckSplitter.new colNum partitionNum isSinglePt threadId)
                colTypeIds).2.mMinDataLenInVB
        ∧ (InitCacheRegion regionSize
            (Initialize (OckSplitter.new colNum partitionNum isSinglePt threadId)
              colTypeIds).2).1
          = (regionSize * 2 % u32
              - (Initialize (OckSplitter.new colNum partitionNum isSinglePt threadId)
                  colTypeIds).2.mMinDataLenInVB)
            / (Initialize (OckSplitter.new colNum partitionNum isSinglePt threadId)
                colTypeIds).2.mMinDataLenInVBByRow)
    ∧ (2 * regionSize < u32 →
        (Initialize (OckSplitter.new colNum partitionNum isSinglePt threadId)
          colTypeIds).2.mMinDataLenInVB ≤ 2 * regionSize →
        (InitCacheRegion regionSize
            (Initialize (OckSplitter.new colNum partitionNum isSinglePt threadId)
              colTypeIds).2).1
          = (2 * regionSize
              - (Initialize (OckSplitter.new colNum partitionNum isSinglePt threadId)
                  colTypeIds).2.mMinDataLenInVB)
            / (Initialize (OckSplitter.new colNum partitionNum isSinglePt threadId)
                colTypeIds).2.mMinDataLenInVBByRow) := by
  have hall : ∀ i, i < colNum → isRecognized (colTypeIds i) = true := by
    have h := hinit
    rw [Initialize_fst, ToSplitterTypeIdLoop_true_iff] at h
    exact fun i hi => h i (List.mem_range.mpr hi)
  have hI := Initialize_of_ok (OckSplitter.new colNum partitionNum isSinglePt threadId)
    colTypeIds hall
  have hlow := length_mul_le_sum 1 (fun i => valueCost (colTypeIds i)) (List.range colNum)
    (fun i hi => (valueCost_bounds _ (hall i (List.mem_range.mp hi))).1)
  have hhigh := sum_le_length_mul 16 (fun i => valueCost (colTypeIds i)) (List.range colNum)
    (fun i hi => (valueCost_bounds _ (hall i (List.mem_range.mp hi))).2)
  rw [List.length_range] at hlow hhigh
  have hby : (Initialize (OckSplitter.new colNum partitionNum isSinglePt threadId)
      colTypeIds).2.mMinDataLenInVBByRow
      = colNum + ((List.range colNum).map (fun i => valueCost (colTypeIds i))).sum := by
    rw [hI]
    simp only [withColumns, OckSplitter.new]
    rw [Nat.mod_add_mod, Nat.mod_eq_of_lt hfit]
  have hmin : (Initialize (OckSplitter.new colNum partitionNum isSinglePt threadId)
      colTypeIds).2.mMinDataLenInVB < u32 := by
    rw [hI]
    exact Nat.mod_lt _ (by decide)
  have hsub : ∀ product, product < u32 →
      (Initialize (OckSplitter.new colNum partitionNum isSinglePt threadId)
        colTypeIds).2.mMinDataLenInVB ≤ product →
      (product + u32
          - (Initialize (OckSplitter.new colNum partitionNum isSinglePt threadId)
              colTypeIds).2.mMinDataLenInVB % u32) % u32
        = product
          - (Initialize (OckSplitter.new colNum partitionNum isSinglePt threadId)
              colTypeIds).2.mMinDataLenInVB := by
    intro product hp hle
    rw [Nat.mod_eq_of_lt hmin]
    have e : product + u32
        - (Initialize (OckSplitter.new colNum partitionNum isSinglePt threadId)
            colTypeIds).2.mMinDataLenInVB
        = (product
            - (Initialize (OckSplitter.new colNum partitionNum isSinglePt threadId)
                colTypeIds).2.mMinDataLenInVB) + u32 := by omega
    rw [e, Nat.add_mod_right]
    exact Nat.mod_eq_of_lt (by omega)
  refine ⟨by rw [hby]; omega, by rw [hby]; omega, by rw [hby]; omega, fun hle => ?_,
    fun hsize hle => ?_⟩
  · have h := hsub (regionSize * 2 % u32) (Nat.mod_lt _ (by decide)) hle
    refine ⟨h, ?_⟩
    simp only [InitCacheRegion]
    rw [h]
  · have hprod : regionSize * 2 % u32 = 2 * regionSize := by
      rw [Nat.mul_comm]; exact Nat.mod_eq_of_lt hsize
    have h := hsub (2 * regionSize) hsize hle
    simp only [InitCacheRegion]
    rw [hprod, h]

/-- Witness of C21: the schema int, varchar with regions of 1024 bytes. -/
theorem InitCacheRegion_divisor_nonzero_witness :
    2 * 2 ≤ mixedSplitter.mMinDataLenInVBByRow
    ∧ mixedSplitter.mMinDataLenInVBByRow ≤ 17 * 2
    ∧ mixedSplitter.mMinDataLenInVBByRow ≠ 0
    ∧ (InitCacheRegion 1024 mixedSplitter).1
        = (2 * 1024 - mixedSplitter.mMinDataLenInVB) / mixedSplitter.mMinDataLenInVBByRow := by
  obtain ⟨h1, h2, h3, _, h5⟩ := InitCacheRegion_divisor_nonzero
    (typesOf [OMNI_INT, OMNI_VARCHAR]) 2 2 false 0 1024 (by decide) (by decide) (by decide)
  exact ⟨h1, h2, h3, h5 (by decide) (by decide)⟩

/-! ## Retries and their variants -/

theorem PreoccupiedBufferSpace_of_retry {σ : Type} (B : OckHashWriteBuffer σ)
    (mAllocator : Nat → Bool) (vb : VectorBatch) (p rowIndex rowLength fuel : Nat)
    (m m1 : Machine σ) (newRegion newRegion1 : Bool)
    (h : nextRetry B mAllocator vb p rowLength m newRegion = some (m1, newRegion1)) :
    PreoccupiedBufferSpace B mAllocator vb (fuel + 1) m p rowIndex rowLength newRegion
      = PreoccupiedBufferSpace B mAllocator vb fuel m1 p rowIndex rowLength newRegion1 := by
  unfold nextRetry at h
  conv_lhs => unfold PreoccupiedBufferSpace
  simp only at h ⊢
  rcases hb : B.PreoccupiedDataSpace m.mOckBuffer p
    (if (m.self.mCacheRegion p).mRowNum = 0 then (rowLength + m.self.mMinDataLenInVB) % u32
      else rowLength) newRegion with ⟨flag, buf1⟩
  rw [hb] at h
  cases flag
  · simp at h
  · simp only at h ⊢
    rcases hr : WritePartVectorBatch B mAllocator vb { m with mOckBuffer := buf1 } p
      with ⟨b2, m2⟩
    rw [hr] at h
    cases b2
    · simp at h
    · simp only [Option.some.injEq, Prod.mk.injEq] at h
      obtain ⟨h1, h2⟩ := h
      subst h1 h2
      rfl
  · simp only at h ⊢
    rcases hr : FlushAllRegionAndGetNewBlob B mAllocator vb { m with mOckBuffer := buf1 }
      with ⟨b2, m2⟩
    rw [hr] at h
    cases b2
    · simp at h
    · simp only [Option.some.injEq, Prod.mk.injEq] at h
      obtain ⟨h1, h2⟩ := h
      subst h1 h2
      rfl
  · simp at h

theorem PreoccupiedBufferSpace_of_no_retry {σ : Type} (B : OckHashWriteBuffer σ)
    (mAllocator : Nat → Bool) (vb : VectorBatch) (p rowIndex rowLength fuel : Nat)
    (m : Machine σ) (newRegion : Bool)
    (h : nextRetry B mAllocator vb p rowLength m newRegion = none) :
    (PreoccupiedBufferSpace B mAllocator vb (fuel + 1) m p rowIndex rowLength newRegion).isSome
      = true := by
  unfold nextRetry at h
  unfold PreoccupiedBufferSpace
  simp only at h ⊢
  rcases hb : B.PreoccupiedDataSpace m.mOckBuffer p
    (if (m.self.mCacheRegion p).mRowNum = 0 then (rowLength + m.self.mMinDataLenInVB) % u32
      else rowLength) newRegion with ⟨flag, buf1⟩
  rw [hb] at h
  cases flag
  · rfl
  · simp only at h ⊢
    rcases hr : WritePartVectorBatch B mAllocator vb { m with mOckBuffer := buf1 } p
      with ⟨b2, m2⟩
    rw [hr] at h
    cases b2
    · rfl
    · simp at h
  · simp only at h ⊢
    rcases hr : FlushAllRegionAndGetNewBlob B mAllocator vb { m with mOckBuffer := buf1 }
      with ⟨b2, m2⟩
    rw [hr] at h
    cases b2
    · rfl
    · simp at h
  · rfl

theorem PreoccupiedBufferSpace_returns_of_variant {σ : Type} (B : OckHashWriteBuffer σ)
    (mAllocator : Nat → Bool) (vb : VectorBatch) (p rowIndex rowLength : Nat)
    (reach : Machine σ → Bool → Prop) (variant : Machine σ → Bool → Nat)
    (hv : RetryVariant B mAllocator vb p rowLength reach variant) :
    ∀ (n : Nat) (m : Machine σ) (newRegion : Bool), reach m newRegion →
      variant m newRegion ≤ n →
      (PreoccupiedBufferSpace B mAllocator vb (n + 1) m p rowIndex rowLength newRegion).isSome
        = true := by
  intro n
  induction n with
  | zero =>
    intro m newRegion hr hle
    cases hn : nextRetry B mAllocator vb p rowLength m newRegion with
    | none =>
      exact PreoccupiedBufferSpace_of_no_retry B mAllocator vb p rowIndex rowLength 0 m
        newRegion hn
    | some next =>
      have := (hv m newRegion next.1 next.2 hr hn).2
      omega
  | succ n ih =>
    intro m newRegion hr hle
    cases hn : nextRetry B mAllocator vb p rowLength m newRegion with
    | none =>
      exact PreoccupiedBufferSpace_of_no_retry B mAllocator vb p rowIndex rowLength _ m
        newRegion hn
    | some next =>
      obtain ⟨hr1, hlt⟩ := hv m newRegion next.1 next.2 hr hn
      rw [PreoccupiedBufferSpace_of_retry B mAllocator vb p rowIndex rowLength (n + 1) m next.1
        newRegion next.2 hn]
      exact ih next.1 next.2 hr1 (by omega)

theorem PreoccupiedBufferSpace_never_returns {σ : Type} (B : OckHashWriteBuffer σ)
    (mAllocator : Nat → Bool) (vb : VectorBatch) (p rowIndex rowLength : Nat)
    (reach : Machine σ → Bool → Prop)
    (hn : NeverSatisfied B mAllocator vb p rowLength reach) :
    ∀ (fuel : Nat) (m : Machine σ) (newRegion : Bool), reach m newRegion →
      PreoccupiedBufferSpace B mAllocator vb fuel m p rowIndex rowLength newRegion = none := by
  intro fuel
  induction fuel with
  | zero => intro m newRegion _; rfl
  | succ fuel ih =>
    intro m newRegion hr
    obtain ⟨m1, nr1, hnext, hr1⟩ := hn m newRegion hr
    rw [PreoccupiedBufferSpace_of_retry B mAllocator vb p rowIndex rowLength fuel m m1
      newRegion nr1 hnext]
    exact ih m1 nr1 hr1

/-- C12, amended: the recursion has no bound of its own. The call returns
exactly when its retries admit a variant, a measure on the states it reaches
that drops at every retry (the retry after a `NEW_REGION` answer and a
successful drain, or after a `LACK` answer and a successful flush-all); it then
returns within `variant + 1` levels, that is after at most `variant` retries,
and a larger bound on the levels gives the same result. It never returns exactly
when the buffer never satisfies the row: from every state the call reaches it
makes another retry. -/
theorem PreoccupiedBufferSpace_returns_iff_retries_end {σ : Type}
    (B : OckHashWriteBuffer σ) (mAllocator : Nat → Bool) (vb : VectorBatch) (m : Machine σ)
    (partitionId rowIndex rowLength : Nat) (newRegion : Bool) :
    (∀ (reach : Machine σ → Bool → Prop) (variant : Machine σ → Bool → Nat),
      RetryVariant B mAllocator vb partitionId rowLength reach variant → reach m newRegion →
      ∃ r, PreoccupiedBufferSpace B mAllocator vb (variant m newRegion + 1) m partitionId
        rowIndex rowLength newRegion = some r)
    ∧ ((∃ fuel r, PreoccupiedBufferSpace B mAllocator vb fuel m partitionId rowIndex rowLength
          newRegion = some r) →
        ∃ (reach : Machine σ → Bool → Prop) (variant : Machine σ → Bool → Nat),
          RetryVariant B mAllocator vb partitionId rowLength reach variant ∧ reach m newRegion)
    ∧ (∀ reach : Machine σ → Bool → Prop,
        NeverSatisfied B mAllocator vb partitionId rowLength reach → reach m newRegion →
        ∀ fuel, PreoccupiedBufferSpace B mAllocator vb fuel m partitionId rowIndex rowLength
          newRegion = none)
    ∧ ((∀ fuel, PreoccupiedBufferSpace B mAllocator vb fuel m partitionId rowIndex rowLength
          newRegion = none) →
        ∃ reach : Machine σ → Bool → Prop,
          NeverSatisfied B mAllocator vb partitionId rowLength reach ∧ reach m newRegion)
    ∧ (∀ fuel r extra,
        PreoccupiedBufferSpace B mAllocator vb fuel m partitionId rowIndex rowLength newRegion
          = some r →
        PreoccupiedBufferSpace B mAllocator vb (fuel + extra) m partitionId rowIndex rowLength
          newRegion = some r) := by
  refine ⟨?_, ?_, ?_, ?_, ?_⟩
  · intro reach variant hv hr
    exact Option.isSome_iff_exists.mp
      (PreoccupiedBufferSpace_returns_of_variant B mAllocator vb partitionId rowIndex rowLength
        reach variant hv _ m newRegion hr (Nat.le_refl _))
  · rintro ⟨fuel, r, hret⟩
    classical
    refine ⟨fun m2 nr2 => ∃ f, (PreoccupiedBufferSpace B mAllocator vb f m2 partitionId rowIndex
        rowLength nr2).isSome = true,
      fun m2 nr2 => if h : ∃ f, (PreoccupiedBufferSpace B mAllocator vb f m2 partitionId rowIndex
        rowLength nr2).isSome = true then Nat.find h else 0, ?_, ⟨fuel, by rw [hret]; rfl⟩⟩
    intro m2 nr2 m3 nr3 hreach hnext
    have hspec := Nat.find_spec hreach
    have hpos : Nat.find hreach ≠ 0 := by
      intro h0
      rw [h0] at hspec
      simp [PreoccupiedBufferSpace] at hspec
    obtain ⟨f0, hf0⟩ := Nat.exists_eq_succ_of_ne_zero hpos
    rw [hf0, Nat.succ_eq_add_one, PreoccupiedBufferSpace_of_retry B mAllocator vb partitionId
      rowIndex rowLength f0 m2 m3 nr2 nr3 hnext] at hspec
    have hreach3 : ∃ f, (PreoccupiedBufferSpace B mAllocator vb f m3 partitionId rowIndex
        rowLength nr3).isSome = true := ⟨f0, hspec⟩
    refine ⟨hreach3, ?_⟩
    beta_reduce
    rw [dif_pos hreach3, dif_pos hreach]
    have hle := Nat.find_min' hreach3 hspec
    omega
  · intro reach hn hr fuel
    exact PreoccupiedBufferSpace_never_returns B mAllocator vb partitionId rowIndex rowLength
      reach hn fuel m newRegion hr
  · intro hnone
    refine ⟨fun m2 nr2 => ∀ f, PreoccupiedBufferSpace B mAllocator vb f m2 partitionId rowIndex
      rowLength nr2 = none, ?_, hnone⟩
    intro m2 nr2 hall
    cases hnext : nextRetry B mAllocator vb partitionId rowLength m2 nr2 with
    | none =>
      have h1 := PreoccupiedBufferSpace_of_no_retry B mAllocator vb partitionId rowIndex
        rowLength 0 m2 nr2 hnext
      rw [hall 1] at h1
      simp at h1
    | some next =>
      refine ⟨next.1, next.2, rfl, fun f => ?_⟩
      rw [← PreoccupiedBufferSpace_of_retry B mAllocator vb partitionId rowIndex rowLength f m2
        next.1 nr2 next.2 hnext]
      exact hall (f + 1)
  · intro fuel r extra h
    induction extra with
    | zero => exact h
    | succ k ihk =>
      exact PreoccupiedBufferSpace_fuel_mono B mAllocator vb partitionId rowIndex rowLength
        (fuel + k) m newRegion r ihk

theorem DrainPartitions_of_empty {σ : Type} (B : OckHashWriteBuffer σ)
    (mAllocator : Nat → Bool) (vb : VectorBatch) (m : Machine σ)
    (hempty : ∀ q, (m.self.mCacheRegion q).mRowNum = 0) :
    ∀ ps : List Nat, DrainPartitions B mAllocator vb ps m = (true, m) := by
  intro ps
  induction ps with
  | nil => rfl
  | cons q rest ih =>
    unfold DrainPartitions
    simp only [hempty q, if_true]
    exact ih

theorem FlushAllRegionAndGetNewBlob_finiteBuffer (capacity : Nat) (mAllocator : Nat → Bool)
    (vb : VectorBatch) (m : Machine Nat)
    (h : (FlushAllRegionAndGetNewBlob (finiteBuffer capacity) mAllocator vb m).1 = true) :
    (FlushAllRegionAndGetNewBlob (finiteBuffer capacity) mAllocator vb m).2.mOckBuffer = 0 := by
  unfold FlushAllRegionAndGetNewBlob at h ⊢
  rcases hD : DrainPartitions (finiteBuffer capacity) mAllocator vb
    (List.range m.self.mPartitionNum) m with ⟨b, m1⟩
  rw [hD] at h
  cases b
  · simp at h
  · simp [finiteBuffer]

/-- A buffer of finite capacity into which the row and the per-block overhead
fit: a retry is made only from a buffer in use, and leads to an empty one. -/
theorem finiteBuffer_variant (capacity : Nat) (mAllocator : Nat → Bool) (vb : VectorBatch)
    (p rowLength : Nat) :
    RetryVariant (finiteBuffer capacity) mAllocator vb p rowLength
      (fun m _ => rowLength + m.self.mMinDataLenInVB ≤ capacity)
      (fun m _ => if m.mOckBuffer = 0 then 0 else 1) := by
  intro m nr m1 nr1 hr hnext
  have hsize : (if (m.self.mCacheRegion p).mRowNum = 0 then
      (rowLength + m.self.mMinDataLenInVB) % u32 else rowLength) ≤ capacity := by
    split
    · exact Nat.le_trans (Nat.mod_le _ _) hr
    · exact Nat.le_trans (Nat.le_add_right _ _) hr
  unfold nextRetry at hnext
  simp only [finiteBuffer] at hnext
  by_cases hfit : m.mOckBuffer + (if (m.self.mCacheRegion p).mRowNum = 0 then
      (rowLength + m.self.mMinDataLenInVB) % u32 else rowLength) ≤ capacity
  · simp [hfit] at hnext
  · have hused : m.mOckBuffer ≠ 0 := by
      intro h0
      rw [h0, Nat.zero_add] at hfit
      exact hfit hsize
    simp only [hfit, if_false] at hnext
    have hframe := FlushAllRegionAndGetNewBlob_frame (finiteBuffer capacity) mAllocator vb
      { m with mOckBuffer := m.mOckBuffer }
    have hzero := FlushAllRegionAndGetNewBlob_finiteBuffer capacity mAllocator vb
      { m with mOckBuffer := m.mOckBuffer }
    simp only [finiteBuffer] at hframe hzero
    rcases hF : FlushAllRegionAndGetNewBlob
      { PreoccupiedDataSpace := fun used _ size _ =>
          if used + size ≤ capacity then (ENOUGH, used + size) else (LACK, used)
        GetEndAddressOfRegion := fun used _ _ => (0, used)
        Flush := fun used _ => (true, used, used)
        GetNewBuffer := fun _ => (true, 0)
        IsCompress := fun _ => false
        GetRegionSize := fun _ => capacity } mAllocator vb
      { m with mOckBuffer := m.mOckBuffer } with ⟨b, m2⟩
    rw [hF] at hnext hframe hzero
    cases b
    · simp at hnext
    · simp only [Option.some.injEq, Prod.mk.injEq] at hnext
      obtain ⟨h1, h2⟩ := hnext
      subst h1 h2
      have hz := hzero rfl
      simp only at hz
      refine ⟨?_, ?_⟩
      · show rowLength + m2.self.mMinDataLenInVB ≤ capacity
        rw [hframe.1.2.2.2.2.2.2.2]
        exact hr
      · simp [hz, hused]

/-- A buffer of finite capacity smaller than the row with its per-block
overhead, while no region holds rows: every reservation is answered `LACK`,
the flush-all succeeds, and the retry finds the same situation. -/
theorem finiteBuffer_never_satisfied (capacity : Nat) (mAllocator : Nat → Bool)
    (vb : VectorBatch) (p rowLength : Nat) :
    NeverSatisfied (finiteBuffer capacity) mAllocator vb p rowLength
      (fun m _ => (∀ q, (m.self.mCacheRegion q).mRowNum = 0)
        ∧ capacity < (rowLength + m.self.mMinDataLenInVB) % u32) := by
  rintro m nr ⟨hempty, hbig⟩
  have hfit : ¬ m.mOckBuffer + (rowLength + m.self.mMinDataLenInVB) % u32 ≤ capacity := by
    omega
  have hD := DrainPartitions_of_empty (finiteBuffer capacity) mAllocator vb
    { m with mOckBuffer := m.mOckBuffer } hempty (List.range m.self.mPartitionNum)
  have hF1 : (FlushAllRegionAndGetNewBlob (finiteBuffer capacity) mAllocator vb
      { m with mOckBuffer := m.mOckBuffer }).1 = true := by
    unfold FlushAllRegionAndGetNewBlob
    rw [hD]
    simp [finiteBuffer]
  have hframe := FlushAllRegionAndGetNewBlob_frame (finiteBuffer capacity) mAllocator vb
    { m with mOckBuffer := m.mOckBuffer }
  have hemp := FlushAllRegionAndGetNewBlob_empties (finiteBuffer capacity) mAllocator vb
    { m with mOckBuffer := m.mOckBuffer } hF1
  refine ⟨(FlushAllRegionAndGetNewBlob (finiteBuffer capacity) mAllocator vb
      { m with mOckBuffer := m.mOckBuffer }).2, false, ?_, ?_, ?_⟩
  · unfold nextRetry
    simp only [hempty p, if_true]
    have hb : (finiteBuffer capacity).PreoccupiedDataSpace m.mOckBuffer p
        ((rowLength + m.self.mMinDataLenInVB) % u32) nr = (LACK, m.mOckBuffer) := by
      simp [finiteBuffer, hfit]
    rw [hb]
    simp only
    rcases hF : FlushAllRegionAndGetNewBlob (finiteBuffer capacity) mAllocator vb
      { m with mOckBuffer := m.mOckBuffer } with ⟨b, m2⟩
    rw [hF] at hF1
    simp only at hF1
    subst hF1
    rfl
  · intro q
    rw [hemp q]
    rfl
  · show capacity < (rowLength + (FlushAllRegionAndGetNewBlob (finiteBuffer capacity)
      mAllocator vb { m with mOckBuffer := m.mOckBuffer }).2.self.mMinDataLenInVB) % u32
    rw [hframe.1.2.2.2.2.2.2.2]
    exact hbig

/-- Witness of C12 (amended): a buffer of 100 bytes with 95 in use receives row
3 of `rolloverBatch` and returns after one retry; a buffer of 10 bytes can never
hold the row of `oneRowBatch` with its overhead, and the call never returns. -/
theorem PreoccupiedBufferSpace_returns_iff_retries_end_witness :
    (∃ r, PreoccupiedBufferSpace (finiteBuffer 100) (fun _ => true) rolloverBatch 2
        (Machine.start sampleSplitter 95) 0 3 14 false = some r)
    ∧ (∀ fuel, PreoccupiedBufferSpace (finiteBuffer 10) (fun _ => true) oneRowBatch fuel
        (Machine.start intSplitter 0) 0 0 5 false = none) :=
  ⟨(PreoccupiedBufferSpace_returns_iff_retries_end (finiteBuffer 100) (fun _ => true)
      rolloverBatch (Machine.start sampleSplitter 95) 0 3 14 false).1 _ _
      (finiteBuffer_variant 100 (fun _ => true) rolloverBatch 0 14) (by decide),
   (PreoccupiedBufferSpace_returns_iff_retries_end (finiteBuffer 10) (fun _ => true)
      oneRowBatch (Machine.start intSplitter 0) 0 0 5 false).2.2.1 _
      (finiteBuffer_never_satisfied 10 (fun _ => true) oneRowBatch 0 5)
      ⟨fun _ => rfl, by decide⟩⟩

end OckShuffle
